import Mathlib

/-!
# kneutral-operator: the AlertRule reconciler

A shallow embedding of `controllers/alertrule_controller.go` (the reconciler and
its translator) together with the types of `api/v1alpha1/alertrule_types.go`.

Conventions of the embedding

* Go `map[string]string` values are association lists (`StringMap`); a Go map has
  one entry per key, which is the predicate `StringMap.WF`.  `m[k] = v` is
  `mapSet`, `m[k]` is `mapGet`, and `for k, v := range m` visits the entries in
  list order (one of the orders Go may choose; with one entry per key the
  resulting map does not depend on it).
* Go pointers to optional values (`*Duration`, `*metav1.Time`) are `Option`s.
* `nil` and empty slices / maps are not distinguished.
* The wall clock read by `metav1.Now()` is an explicit argument `now`.
* The `client.Client` the reconciler talks to is a record of state-passing
  functions over an arbitrary store state `σ`.
-/

namespace Kneutral

/-! ## Strings maps -/

/-- Go `map[string]string`, as an association list. -/
abbrev StringMap := List (String × String)

/-- Keys of a map, in entry order. -/
def mapKeys (m : StringMap) : List String := m.map Prod.fst

/-- A Go map holds one entry per key. -/
def StringMap.WF (m : StringMap) : Prop := (mapKeys m).Nodup

instance (m : StringMap) : Decidable (StringMap.WF m) := by
  unfold StringMap.WF; infer_instance

/-- Go `v, ok := m[k]`. -/
def mapGet : StringMap → String → Option String
  | [], _ => none
  | (k, v) :: m, x => if k = x then some v else mapGet m x

/-- Go `m[x] = y`: overwrite the entry of `x` when there is one, add it otherwise. -/
def mapSet : StringMap → String → String → StringMap
  | [], x, y => [(x, y)]
  | (k, v) :: m, x, y => if k = x then (k, y) :: m else (k, v) :: mapSet m x y

/-! ## metav1 -/

/-- Instants of `metav1.Time`; `0` is the zero time. -/
abbrev Time := Nat

/-- Go `(*metav1.Time).IsZero`: a nil pointer or the zero instant. -/
def Time.IsZero : Option Time → Bool
  | none => true
  | some t => t == 0

/-- Kubernetes `metav1.OwnerReference`. -/
structure OwnerReference where
  APIVersion : String
  Kind : String
  Name : String
  UID : String
  Controller : Option Bool
  BlockOwnerDeletion : Option Bool
deriving DecidableEq, Repr

/-- The fields of `metav1.ObjectMeta` that the repository reads or writes. -/
structure ObjectMeta where
  Name : String := ""
  Namespace : String := ""
  Labels : StringMap := []
  Generation : Int := 0
  UID : String := ""
  CreationTimestamp : Time := 0
  DeletionTimestamp : Option Time := none
  Finalizers : List String := []
  OwnerReferences : List OwnerReference := []
deriving DecidableEq, Repr

/-- Kubernetes `metav1.ConditionStatus`. -/
inductive ConditionStatus where
  | ConditionTrue
  | ConditionFalse
  | ConditionUnknown
deriving DecidableEq, Repr

/-- Kubernetes `metav1.Condition`. -/
structure Condition where
  Type_ : String
  Status : ConditionStatus
  ObservedGeneration : Int
  LastTransitionTime : Time
  Reason : String
  Message : String
deriving DecidableEq, Repr

/-- Kubernetes `types.NamespacedName`. -/
structure NamespacedName where
  Namespace : String
  Name : String
deriving DecidableEq, Repr

/-! ## api/v1alpha1/alertrule_types.go -/

/-- Go `v1alpha1.Rule`. -/
structure Rule where
  Alert : String := ""
  Expr : String := ""
  For : String := ""
  Labels : StringMap := []
  Annotations : StringMap := []
deriving DecidableEq, Repr

/-- Go `v1alpha1.AlertGroup`. -/
structure AlertGroup where
  Name : String := ""
  Interval : String := ""
  Rules : List Rule := []
deriving DecidableEq, Repr

/-- Go `v1alpha1.AlertRuleSpec`. -/
structure AlertRuleSpec where
  Groups : List AlertGroup := []
  Labels : StringMap := []
deriving DecidableEq, Repr

/-- Go `v1alpha1.AlertRuleStatus`. -/
structure AlertRuleStatus where
  Conditions : List Condition := []
  LastReconcileTime : Option Time := none
  PrometheusRuleName : String := ""
  State : String := ""
deriving DecidableEq, Repr

/-- Go `v1alpha1.AlertRule` (the embedded `ObjectMeta` is the parent structure). -/
structure AlertRule extends ObjectMeta where
  Spec : AlertRuleSpec := {}
  Status : AlertRuleStatus := {}
deriving DecidableEq, Repr

/-! ## prometheus-operator `monitoringv1` (the derived resource) -/

/-- Kubernetes `intstr.IntOrString`. -/
inductive IntOrString where
  | int (v : Int)
  | str (v : String)
deriving DecidableEq, Repr

/-- Go `intstr.FromString`. -/
def IntOrString.FromString (s : String) : IntOrString := IntOrString.str s

/-- Go `monitoringv1.Rule`; `For` is a `*Duration`. -/
structure PromRule where
  Alert : String := ""
  Expr : IntOrString := IntOrString.str ""
  For : Option String := none
  Labels : StringMap := []
  Annotations : StringMap := []
deriving DecidableEq, Repr

/-- Go `monitoringv1.RuleGroup`; `Interval` is a `*Duration`. -/
structure RuleGroup where
  Name : String := ""
  Interval : Option String := none
  Rules : List PromRule := []
deriving DecidableEq, Repr

/-- Go `monitoringv1.PrometheusRuleSpec`. -/
structure PrometheusRuleSpec where
  Groups : List RuleGroup := []
deriving DecidableEq, Repr

/-- Go `monitoringv1.PrometheusRule`. -/
structure PrometheusRule extends ObjectMeta where
  Spec : PrometheusRuleSpec := {}
deriving DecidableEq, Repr

/-! ## The translator: `generatePrometheusRule` -/

/-- The map literal that `generatePrometheusRule` starts from. -/
def identityLabels (name : String) : StringMap :=
  [("app.kubernetes.io/managed-by", "kneutral-operator"),
   ("app.kubernetes.io/instance", "kneutral"),
   ("app.kubernetes.io/name", name)]

/-- The three keys of the map literal. -/
def reservedKeys : List String :=
  ["app.kubernetes.io/managed-by", "app.kubernetes.io/instance", "app.kubernetes.io/name"]

/-- Loop `for k, v := range alertRule.Spec.Labels { labels[k] = v }`. -/
def mergeLabels (labels : StringMap) (user : StringMap) : StringMap :=
  user.foldl (fun acc kv => mapSet acc kv.1 kv.2) labels

/-- Body of the inner loop: one `monitoringv1.Rule` per source rule. -/
def convertRule (rule : Rule) : PromRule :=
  let promRule : PromRule :=
    { Alert := rule.Alert
      Expr := IntOrString.FromString rule.Expr
      Labels := rule.Labels
      Annotations := rule.Annotations }
  if rule.For ≠ "" then { promRule with For := some rule.For } else promRule

/-- Body of the outer loop: one `monitoringv1.RuleGroup` per source group. -/
def convertGroup (group : AlertGroup) : RuleGroup :=
  let ruleGroup : RuleGroup := { Name := group.Name }
  let ruleGroup : RuleGroup :=
    if group.Interval ≠ "" then { ruleGroup with Interval := some group.Interval } else ruleGroup
  group.Rules.foldl (fun rg rule => { rg with Rules := rg.Rules ++ [convertRule rule] }) ruleGroup

/-- Go `fmt.Sprintf("kneutral-%s", name)`. -/
def derivedName (name : String) : String := "kneutral-" ++ name

/-- Go `AlertRuleReconciler.generatePrometheusRule`. -/
def generatePrometheusRule (alertRule : AlertRule) : PrometheusRule :=
  let labels := mergeLabels (identityLabels alertRule.Name) alertRule.Spec.Labels
  let prometheusRule : PrometheusRule :=
    { Name := derivedName alertRule.Name
      Namespace := alertRule.Namespace
      Labels := labels
      Spec := { Groups := [] } }
  alertRule.Spec.Groups.foldl
    (fun pr group => { pr with Spec := { Groups := pr.Spec.Groups ++ [convertGroup group] } })
    prometheusRule

/-! ## apimachinery errors -/

/-- Kubernetes `metav1.StatusReason` (the reasons the repository produces or tests for,
and `Unknown` for the rest). -/
inductive StatusReason where
  | NotFound
  | AlreadyExists
  | Conflict
  | Unknown
deriving DecidableEq, Repr

/-- A Go `error`: an API status error carrying a reason, or any other error value. -/
inductive Error where
  | status (reason : StatusReason) (message : String)
  | plain (message : String)
deriving DecidableEq, Repr

/-- Go `errors.IsNotFound`. -/
def errors.IsNotFound : Error → Bool
  | Error.status StatusReason.NotFound _ => true
  | _ => false

/-! ## controller-runtime: client, scheme, controllerutil -/

/-- The two resource kinds the reconciler passes to its client. -/
inductive Kind where
  | alertRule
  | prometheusRule
deriving DecidableEq, Repr

/-- The Go type behind a `client.Object` of a given kind. -/
@[reducible] def Obj : Kind → Type
  | Kind.alertRule => AlertRule
  | Kind.prometheusRule => PrometheusRule

/-- The embedded `ObjectMeta` of an object. -/
def Obj.meta : (k : Kind) → Obj k → ObjectMeta
  | Kind.alertRule, o => o.toObjectMeta
  | Kind.prometheusRule, o => o.toObjectMeta

/-- The identity an object is stored under. -/
def Obj.key (k : Kind) (o : Obj k) : NamespacedName :=
  { Namespace := (Obj.meta k o).Namespace, Name := (Obj.meta k o).Name }

/-- Go `client.Client`, as far as the reconciler uses it.  Every call takes the store
state and returns the next one; a call that takes an object pointer returns the object as
the client left it.  `StatusUpdate` is `Status().Update`. -/
structure Client (σ : Type) where
  Get : (k : Kind) → NamespacedName → σ → Except Error (Obj k) × σ
  Create : (k : Kind) → Obj k → σ → Except Error (Obj k) × σ
  Update : (k : Kind) → Obj k → σ → Except Error (Obj k) × σ
  Delete : (k : Kind) → Obj k → σ → Option Error × σ
  StatusUpdate : (k : Kind) → Obj k → σ → Except Error (Obj k) × σ

/-- Kubernetes `schema.GroupVersionKind`. -/
structure GroupVersionKind where
  Group : String
  Version : String
  Kind : String
deriving DecidableEq, Repr

/-- Go `runtime.Scheme`: the registered kinds with their group/version/kind. -/
abbrev Scheme := Kind → Option GroupVersionKind

/-- Go `schema.GroupVersion.String`. -/
def GroupVersionKind.apiVersion (gvk : GroupVersionKind) : String :=
  if gvk.Group = "" then gvk.Version else gvk.Group ++ "/" ++ gvk.Version

/-- Group part of an `apiVersion` string (`schema.ParseGroupVersion`). -/
def apiGroup (apiVersion : String) : String :=
  match apiVersion.splitOn "/" with
  | [g, _] => g
  | _ => ""

/-- Go `controllerutil.ContainsFinalizer`. -/
def controllerutil.ContainsFinalizer (o : AlertRule) (finalizer : String) : Bool :=
  o.Finalizers.any (fun e => e == finalizer)

/-- Go `controllerutil.AddFinalizer`: append unless already there. -/
def controllerutil.AddFinalizer (o : AlertRule) (finalizer : String) : AlertRule :=
  if o.Finalizers.any (fun e => e == finalizer) then o
  else { o with Finalizers := o.Finalizers ++ [finalizer] }

/-- Go `controllerutil.RemoveFinalizer`: drop every occurrence. -/
def controllerutil.RemoveFinalizer (o : AlertRule) (finalizer : String) : AlertRule :=
  { o with Finalizers := o.Finalizers.filter (fun e => e != finalizer) }

/-- The test `referSameObject` of controllerutil: same group, kind and name. -/
def referSameObject (a b : OwnerReference) : Bool :=
  apiGroup a.APIVersion == apiGroup b.APIVersion && a.Kind == b.Kind && a.Name == b.Name

/-- The helper `upsertOwnerRef` of controllerutil. -/
def upsertOwnerRef (ref : OwnerReference) : List OwnerReference → List OwnerReference
  | [] => [ref]
  | r :: rs => if referSameObject r ref then ref :: rs else r :: upsertOwnerRef ref rs

/-- The controller reference `SetControllerReference` builds for an owner. -/
def controllerRef (gvk : GroupVersionKind) (owner : AlertRule) : OwnerReference :=
  { APIVersion := gvk.apiVersion
    Kind := gvk.Kind
    Name := owner.Name
    UID := owner.UID
    Controller := some true
    BlockOwnerDeletion := some true }

/-- Go `controllerutil.SetControllerReference(owner, controlled, scheme)` for an AlertRule
owner and a PrometheusRule: validate the namespaces, look the owner's kind up in the scheme,
refuse an object controlled by somebody else, then upsert the controller reference. -/
def controllerutil.SetControllerReference (owner : AlertRule) (controlled : PrometheusRule)
    (scheme : Scheme) : Except Error PrometheusRule :=
  if owner.Namespace ≠ "" ∧ controlled.Namespace = "" then
    Except.error (Error.plain "cluster-scoped resource must not have a namespace-scoped owner")
  else if owner.Namespace ≠ "" ∧ owner.Namespace ≠ controlled.Namespace then
    Except.error (Error.plain "cross-namespace owner references are disallowed")
  else
    match scheme Kind.alertRule with
    | none => Except.error (Error.plain "no kind is registered for the type AlertRule")
    | some gvk =>
      let ref := controllerRef gvk owner
      match controlled.OwnerReferences.find? (fun o => o.Controller == some true) with
      | some existing =>
        if referSameObject existing ref then
          Except.ok { controlled with
            OwnerReferences := upsertOwnerRef ref controlled.OwnerReferences }
        else Except.error (Error.plain "object is already owned by another controller")
      | none =>
        Except.ok { controlled with
          OwnerReferences := upsertOwnerRef ref controlled.OwnerReferences }

/-! ## The reconciler -/

/-- Go `ctrl.Result`. -/
structure Result where
  Requeue : Bool := false
  RequeueAfter : Nat := 0
deriving DecidableEq, Repr

/-- Go `AlertRuleReconciler`: the embedded client and the scheme. -/
structure AlertRuleReconciler (σ : Type) where
  Client : Client σ
  Scheme : Scheme

/-- The finalizer token, a string literal in `Reconcile`. -/
def finalizerName : String := "alertrule.kneutral.io/finalizer"

/-- Go `AlertRuleReconciler.deletePrometheusRule`. -/
def deletePrometheusRule {σ : Type} (r : AlertRuleReconciler σ) (alertRule : AlertRule)
    (st : σ) : Option Error × σ :=
  match r.Client.Get Kind.prometheusRule
      { Name := derivedName alertRule.Name, Namespace := alertRule.Namespace } st with
  | (Except.error err, st) =>
    if errors.IsNotFound err then (none, st) else (some err, st)
  | (Except.ok prometheusRule, st) => r.Client.Delete Kind.prometheusRule prometheusRule st

/-- The update-or-append loop of `updateStatus`: overwrite the first entry that has the
type of `condition`; `none` when the loop ends with `found == false`. -/
def replaceCondition (condition : Condition) : List Condition → Option (List Condition)
  | [] => none
  | c :: cs =>
    if c.Type_ = condition.Type_ then some (condition :: cs)
    else (replaceCondition condition cs).map (fun cs => c :: cs)

/-- The condition list `updateStatus` leaves in the status. -/
def upsertCondition (conditions : List Condition) (condition : Condition) : List Condition :=
  match replaceCondition condition conditions with
  | some cs => cs
  | none => conditions ++ [condition]

/-- The condition `updateStatus` builds. -/
def readyCondition (now : Time) (generation : Int) (prometheusRuleName : String) : Condition :=
  { Type_ := "Ready"
    Status := ConditionStatus.ConditionTrue
    ObservedGeneration := generation
    LastTransitionTime := now
    Reason := "ReconcileSuccess"
    Message := "PrometheusRule " ++ prometheusRuleName ++ " created/updated successfully" }

/-- Go `AlertRuleReconciler.updateStatus`. -/
def updateStatus {σ : Type} (r : AlertRuleReconciler σ) (now : Time) (alertRule : AlertRule)
    (prometheusRuleName state : String) (st : σ) : (Result × Option Error) × σ :=
  let condition := readyCondition now alertRule.Generation prometheusRuleName
  let alertRule : AlertRule :=
    { alertRule with
      Status :=
        { Conditions := upsertCondition alertRule.Status.Conditions condition
          LastReconcileTime := some now
          PrometheusRuleName := prometheusRuleName
          State := state } }
  match r.Client.StatusUpdate Kind.alertRule alertRule st with
  | (Except.error err, st) => (({}, some err), st)
  | (Except.ok _, st) => (({}, none), st)

/-- The status block `updateStatus` writes for `alertRule` at time `now` (closed form). -/
def reportedStatus (now : Time) (alertRule : AlertRule) (prometheusRuleName state : String) :
    AlertRuleStatus :=
  { Conditions := upsertCondition alertRule.Status.Conditions
      (readyCondition now alertRule.Generation prometheusRuleName)
    LastReconcileTime := some now
    PrometheusRuleName := prometheusRuleName
    State := state }

/-- The derived rule `syncPrometheusRule` hands to the client, given what the lookup found
(closed form): the translation with its controller reference on the create path, the found
object with spec and labels overwritten on the update path. -/
def writtenRule (gvk : GroupVersionKind) (alertRule : AlertRule)
    (found : Option PrometheusRule) : PrometheusRule :=
  match found with
  | none =>
    { generatePrometheusRule alertRule with OwnerReferences := [controllerRef gvk alertRule] }
  | some found =>
    { found with
      Spec := (generatePrometheusRule alertRule).Spec
      Labels := (generatePrometheusRule alertRule).Labels }

/-- Lines 80-117 of `Reconcile`: translate, set the owner, create or update the derived
rule, write the status. -/
def syncPrometheusRule {σ : Type} (r : AlertRuleReconciler σ) (now : Time)
    (alertRule : AlertRule) (st : σ) : (Result × Option Error) × σ :=
  let prometheusRule := generatePrometheusRule alertRule
  match controllerutil.SetControllerReference alertRule prometheusRule r.Scheme with
  | Except.error err => (({}, some err), st)
  | Except.ok prometheusRule =>
    match r.Client.Get Kind.prometheusRule
        { Name := prometheusRule.Name, Namespace := prometheusRule.Namespace } st with
    | (Except.error err, st) =>
      if errors.IsNotFound err then
        match r.Client.Create Kind.prometheusRule prometheusRule st with
        | (Except.error err, st) => (({}, some err), st)
        | (Except.ok prometheusRule, st) =>
          updateStatus r now alertRule prometheusRule.Name "Active" st
      else (({}, some err), st)
    | (Except.ok found, st) =>
      let found : PrometheusRule :=
        { found with Spec := prometheusRule.Spec, Labels := prometheusRule.Labels }
      match r.Client.Update Kind.prometheusRule found st with
      | (Except.error err, st) => (({}, some err), st)
      | (Except.ok found, st) => updateStatus r now alertRule found.Name "Active" st

/-- Go `AlertRuleReconciler.Reconcile`. -/
def Reconcile {σ : Type} (r : AlertRuleReconciler σ) (now : Time) (req : NamespacedName)
    (st : σ) : (Result × Option Error) × σ :=
  match r.Client.Get Kind.alertRule req st with
  | (Except.error err, st) =>
    if errors.IsNotFound err then (({}, none), st) else (({}, some err), st)
  | (Except.ok alertRule, st) =>
    if !Time.IsZero alertRule.DeletionTimestamp then
      if controllerutil.ContainsFinalizer alertRule finalizerName then
        match deletePrometheusRule r alertRule st with
        | (some err, st) => (({}, some err), st)
        | (none, st) =>
          let alertRule := controllerutil.RemoveFinalizer alertRule finalizerName
          match r.Client.Update Kind.alertRule alertRule st with
          | (Except.error err, st) => (({}, some err), st)
          | (Except.ok _, st) => (({}, none), st)
      else (({}, none), st)
    else if !controllerutil.ContainsFinalizer alertRule finalizerName then
      let alertRule := controllerutil.AddFinalizer alertRule finalizerName
      match r.Client.Update Kind.alertRule alertRule st with
      | (Except.error err, st) => (({}, some err), st)
      | (Except.ok alertRule, st) => syncPrometheusRule r now alertRule st
    else syncPrometheusRule r now alertRule st

/-! ## Stores

`memClient` is the store the reconciler's contract is stated against: it persists objects
as written, keyed by kind, namespace and name.  `failing` makes chosen calls of a client
fail, `recording` keeps the list of calls a client receives. -/

/-- The objects held by the store, by kind and identity; every object is stored under
its own namespace and name. -/
structure Store where
  alertRules : NamespacedName → Option AlertRule
  prometheusRules : NamespacedName → Option PrometheusRule
  alertRules_key : ∀ key a, alertRules key = some a → Obj.key Kind.alertRule a = key
  prometheusRules_key :
    ∀ key p, prometheusRules key = some p → Obj.key Kind.prometheusRule p = key

/-- The store without objects. -/
def Store.empty : Store where
  alertRules := fun _ => none
  prometheusRules := fun _ => none
  alertRules_key := by intro key a h; cases h
  prometheusRules_key := by intro key p h; cases h

/-- The stored object of kind `k` at `key`. -/
def Store.get : (k : Kind) → Store → NamespacedName → Option (Obj k)
  | Kind.alertRule, st, key => st.alertRules key
  | Kind.prometheusRule, st, key => st.prometheusRules key

/-- Store the object `o` of kind `k` under its namespace and name. -/
def Store.put : (k : Kind) → Store → Obj k → Store
  | Kind.alertRule, st, o =>
    { st with
      alertRules := fun x => if x = Obj.key Kind.alertRule o then some o else st.alertRules x
      alertRules_key := by
        intro key a h
        by_cases hx : key = Obj.key Kind.alertRule o
        · simp only [hx, if_true, Option.some.injEq] at h
          rw [← h, hx]
        · simp only [hx, if_false] at h
          exact st.alertRules_key key a h }
  | Kind.prometheusRule, st, o =>
    { st with
      prometheusRules :=
        fun x => if x = Obj.key Kind.prometheusRule o then some o else st.prometheusRules x
      prometheusRules_key := by
        intro key a h
        by_cases hx : key = Obj.key Kind.prometheusRule o
        · simp only [hx, if_true, Option.some.injEq] at h
          rw [← h, hx]
        · simp only [hx, if_false] at h
          exact st.prometheusRules_key key a h }

/-- Remove the object of kind `k` stored at `key`. -/
def Store.remove : (k : Kind) → Store → NamespacedName → Store
  | Kind.alertRule, st, key =>
    { st with
      alertRules := fun x => if x = key then none else st.alertRules x
      alertRules_key := by
        intro x a h
        by_cases hx : x = key
        · simp [hx] at h
        · simp only [hx, if_false] at h
          exact st.alertRules_key x a h }
  | Kind.prometheusRule, st, key =>
    { st with
      prometheusRules := fun x => if x = key then none else st.prometheusRules x
      prometheusRules_key := by
        intro x a h
        by_cases hx : x = key
        · simp [hx] at h
        · simp only [hx, if_false] at h
          exact st.prometheusRules_key x a h }

/-- The object with its status block replaced (only an AlertRule has one). -/
def Obj.withStatusOf : (k : Kind) → Obj k → Obj k → Obj k
  | Kind.alertRule, stored, o => { stored with Status := o.Status }
  | Kind.prometheusRule, stored, _ => stored

/-- The not-found error of the store. -/
def notFoundError (key : NamespacedName) : Error :=
  Error.status StatusReason.NotFound (key.Name ++ " not found")

/-- The already-exists error of the store. -/
def alreadyExistsError (key : NamespacedName) : Error :=
  Error.status StatusReason.AlreadyExists (key.Name ++ " already exists")

/-- A store that persists objects as written: `Get` returns what is stored, `Create` and
`Update` store the object they are given, under its namespace and name, `Delete` removes
it, `Status().Update` stores the status block of the object it is given. -/
def memClient : Client Store where
  Get k key st :=
    match st.get k key with
    | none => (Except.error (notFoundError key), st)
    | some o => (Except.ok o, st)
  Create k o st :=
    match st.get k (Obj.key k o) with
    | some _ => (Except.error (alreadyExistsError (Obj.key k o)), st)
    | none => (Except.ok o, st.put k o)
  Update k o st :=
    match st.get k (Obj.key k o) with
    | none => (Except.error (notFoundError (Obj.key k o)), st)
    | some _ => (Except.ok o, st.put k o)
  Delete k o st :=
    match st.get k (Obj.key k o) with
    | none => (some (notFoundError (Obj.key k o)), st)
    | some _ => (none, st.remove k (Obj.key k o))
  StatusUpdate k o st :=
    match st.get k (Obj.key k o) with
    | none => (Except.error (notFoundError (Obj.key k o)), st)
    | some stored => (Except.ok o, st.put k (Obj.withStatusOf k stored o))

/-- The verbs of `client.Client`. -/
inductive Verb where
  | get
  | create
  | update
  | delete
  | statusUpdate
deriving DecidableEq, Repr

/-- One call received by a client: verb, kind and identity of the object. -/
structure Call where
  verb : Verb
  kind : Kind
  key : NamespacedName
deriving DecidableEq, Repr

/-- The client `c` with faults: a call for which `fault` gives an error returns that error
and leaves the store alone; every other call goes to `c`. -/
def failing {σ : Type} (c : Client σ) (fault : Call → Option Error) : Client σ where
  Get k key st :=
    match fault ⟨Verb.get, k, key⟩ with
    | some e => (Except.error e, st)
    | none => c.Get k key st
  Create k o st :=
    match fault ⟨Verb.create, k, Obj.key k o⟩ with
    | some e => (Except.error e, st)
    | none => c.Create k o st
  Update k o st :=
    match fault ⟨Verb.update, k, Obj.key k o⟩ with
    | some e => (Except.error e, st)
    | none => c.Update k o st
  Delete k o st :=
    match fault ⟨Verb.delete, k, Obj.key k o⟩ with
    | some e => (some e, st)
    | none => c.Delete k o st
  StatusUpdate k o st :=
    match fault ⟨Verb.statusUpdate, k, Obj.key k o⟩ with
    | some e => (Except.error e, st)
    | none => c.StatusUpdate k o st

/-- The client `c` with a log: every call is appended to the list of calls received. -/
def recording {σ : Type} (c : Client σ) : Client (σ × List Call) where
  Get k key st :=
    ((c.Get k key st.1).1, ((c.Get k key st.1).2, st.2 ++ [⟨Verb.get, k, key⟩]))
  Create k o st :=
    ((c.Create k o st.1).1, ((c.Create k o st.1).2, st.2 ++ [⟨Verb.create, k, Obj.key k o⟩]))
  Update k o st :=
    ((c.Update k o st.1).1, ((c.Update k o st.1).2, st.2 ++ [⟨Verb.update, k, Obj.key k o⟩]))
  Delete k o st :=
    ((c.Delete k o st.1).1, ((c.Delete k o st.1).2, st.2 ++ [⟨Verb.delete, k, Obj.key k o⟩]))
  StatusUpdate k o st :=
    ((c.StatusUpdate k o st.1).1,
      ((c.StatusUpdate k o st.1).2, st.2 ++ [⟨Verb.statusUpdate, k, Obj.key k o⟩]))

/-- The outcome a call logs: the error it returned, if any. -/
def Except.errorOf {α : Type} : Except Error α → Option Error
  | Except.error e => some e
  | Except.ok _ => none

/-- The client `c` with a trace: every call is appended, with the error it returned (or
`none`), to the list of calls received. -/
def tracing {σ : Type} (c : Client σ) : Client (σ × List (Call × Option Error)) where
  Get k key st :=
    ((c.Get k key st.1).1,
      ((c.Get k key st.1).2,
        st.2 ++ [(⟨Verb.get, k, key⟩, Except.errorOf (c.Get k key st.1).1)]))
  Create k o st :=
    ((c.Create k o st.1).1,
      ((c.Create k o st.1).2,
        st.2 ++ [(⟨Verb.create, k, Obj.key k o⟩, Except.errorOf (c.Create k o st.1).1)]))
  Update k o st :=
    ((c.Update k o st.1).1,
      ((c.Update k o st.1).2,
        st.2 ++ [(⟨Verb.update, k, Obj.key k o⟩, Except.errorOf (c.Update k o st.1).1)]))
  Delete k o st :=
    ((c.Delete k o st.1).1,
      ((c.Delete k o st.1).2,
        st.2 ++ [(⟨Verb.delete, k, Obj.key k o⟩, (c.Delete k o st.1).1)]))
  StatusUpdate k o st :=
    ((c.StatusUpdate k o st.1).1,
      ((c.StatusUpdate k o st.1).2,
        st.2 ++ [(⟨Verb.statusUpdate, k, Obj.key k o⟩,
          Except.errorOf (c.StatusUpdate k o st.1).1)]))

/-- A trace entry after which a pass goes on: the call succeeded, or it is a get that
reported not-found. -/
def continues (x : Call × Option Error) : Prop :=
  ∀ e, x.2 = some e → x.1.verb = Verb.get ∧ errors.IsNotFound e = true

/-- A trace and a result are fail-stop: every entry but the last lets the pass go on, and
when the last entry does not, the result is the empty result with that entry's error. -/
def failStop (tr : List (Call × Option Error)) (res : Result × Option Error) : Prop :=
  (∀ x ∈ tr.dropLast, continues x) ∧
  (∀ x, tr.getLast? = some x → ¬ continues x → res = ({}, x.2))

/-! ## Running the reconciler repeatedly, and comparing stores -/

/-- Successive `Reconcile` passes for one identity, one per clock reading, each starting in
the store the previous one left; returns the results of the passes in order. -/
def runPasses {σ : Type} (r : AlertRuleReconciler σ) (req : NamespacedName) :
    List Time → σ → List (Result × Option Error) × σ
  | [], st => ([], st)
  | now :: nows, st =>
    ((Reconcile r now req st).1 :: (runPasses r req nows (Reconcile r now req st).2).1,
     (runPasses r req nows (Reconcile r now req st).2).2)

/-- A condition without its transition timestamp. -/
def Condition.eraseTime (c : Condition) : Condition := { c with LastTransitionTime := 0 }

/-- An AlertRule without the reconcile and transition timestamps of its status. -/
def AlertRule.eraseTimes (a : AlertRule) : AlertRule :=
  { a with
    Status :=
      { a.Status with
        LastReconcileTime := none
        Conditions := a.Status.Conditions.map Condition.eraseTime } }

/-- Two stores hold the same objects apart from the reconcile / transition timestamps. -/
def Store.sameUpToTimes (x y : Store) : Prop :=
  (∀ key, (x.alertRules key).map AlertRule.eraseTimes
            = (y.alertRules key).map AlertRule.eraseTimes) ∧
  x.prometheusRules = y.prometheusRules

/-- The condition types of an AlertRule's status, in list order. -/
def conditionTypes (a : AlertRule) : List String := a.Status.Conditions.map (fun c => c.Type_)

/-- The source as a pass that reaches `updateStatus` leaves it in memory (closed form):
the finalizer token ensured, the status block rewritten. -/
def reconciledSource (now : Time) (s : AlertRule) : AlertRule :=
  { controllerutil.AddFinalizer s finalizerName with
    Status := reportedStatus now (controllerutil.AddFinalizer s finalizerName)
      (derivedName s.Name) "Active" }

/-- The store `memClient` holds after a pass for the stored, non-terminating source `s`
that reaches `updateStatus` (closed form): the three writes of the pass, in order. -/
def reconciledStore (gvk : GroupVersionKind) (now : Time) (st : Store) (s : AlertRule) : Store :=
  Store.put Kind.alertRule
    (Store.put Kind.prometheusRule
      (Store.put Kind.alertRule st (controllerutil.AddFinalizer s finalizerName))
      (writtenRule gvk (controllerutil.AddFinalizer s finalizerName)
        (st.prometheusRules { Namespace := s.Namespace, Name := derivedName s.Name })))
    (reconciledSource now s)

/-! ## Example objects (after `internal/mock/data.go`) -/

/-- A scheme with the AlertRule kind registered, as `main` sets it up. -/
def exampleScheme : Scheme
  | Kind.alertRule => some ⟨"monitoring.kneutral.io", "v1alpha1", "AlertRule"⟩
  | Kind.prometheusRule => some ⟨"monitoring.coreos.com", "v1", "PrometheusRule"⟩

/-- The first example of `PopulateExampleData` (expression and annotations shortened). -/
def cpuAlert : AlertRule :=
  { Name := "cpu-monitoring"
    Namespace := "monitoring"
    Labels := [("category", "infrastructure"), ("team", "platform")]
    Generation := 1
    Spec :=
      { Groups :=
          [{ Name := "cpu.rules"
             Interval := "30s"
             Rules :=
               [{ Alert := "HighCPUUsage"
                  Expr := "cpu_usage > 80"
                  For := "5m"
                  Labels := [("severity", "warning")]
                  Annotations := [("summary", "High CPU usage")] }] }] } }

/-- The example rule once deletion has been requested, holding the operator's finalizer. -/
def cpuAlertTerminating : AlertRule :=
  { cpuAlert with DeletionTimestamp := some 100, Finalizers := [finalizerName] }

/-- The example rule once deletion has been requested, held back by a finalizer of some
other controller only. -/
def cpuAlertForeignFinalizer : AlertRule :=
  { cpuAlert with DeletionTimestamp := some 100, Finalizers := ["other.example.io/hold"] }

/-- A derived rule left at the example's derived identity with another spec and labels. -/
def staleRule : PrometheusRule :=
  { Name := "kneutral-cpu-monitoring"
    Namespace := "monitoring"
    Labels := [("stale", "yes")]
    Spec := { Groups := [{ Name := "old.rules" }] } }

/-- The store holding the example rule and the stale derived rule. -/
def exampleStore : Store :=
  Store.put Kind.prometheusRule (Store.put Kind.alertRule Store.empty cpuAlert) staleRule

/-- The store holding the terminating example rule and its derived rule. -/
def terminatingStore : Store :=
  Store.put Kind.prometheusRule (Store.put Kind.alertRule Store.empty cpuAlertTerminating)
    staleRule

/-- The store holding only the terminating example rule with the foreign finalizer. -/
def foreignFinalizerStore : Store :=
  Store.put Kind.alertRule Store.empty cpuAlertForeignFinalizer

/-- A fault plan: the delete of the example's derived rule is refused with a conflict. -/
def deleteFault : Call → Option Error := fun call =>
  if call = ⟨Verb.delete, Kind.prometheusRule, ⟨"monitoring", "kneutral-cpu-monitoring"⟩⟩ then
    some (Error.status StatusReason.Conflict "the object has been modified")
  else none

/-- A fault plan: the derived rule of the example has vanished between the lookup and the
delete, so the delete reports not-found. -/
def vanishedFault : Call → Option Error := fun call =>
  if call = ⟨Verb.delete, Kind.prometheusRule, ⟨"monitoring", "kneutral-cpu-monitoring"⟩⟩ then
    some (notFoundError ⟨"monitoring", "kneutral-cpu-monitoring"⟩)
  else none

/-- The store holding only the example rule: no derived rule yet. -/
def freshStore : Store := Store.put Kind.alertRule Store.empty cpuAlert

/-- The example rule as a pass at time 5 leaves it. -/
def syncedAlert : AlertRule := reconciledSource 5 cpuAlert

/-- The derived rule of the example with the translated spec and labels. -/
def syncedRule : PrometheusRule :=
  { staleRule with
    Spec := (generatePrometheusRule cpuAlert).Spec
    Labels := (generatePrometheusRule cpuAlert).Labels }

/-- The store holding the reconciled example rule and its up-to-date derived rule. -/
def syncedStore : Store :=
  Store.put Kind.prometheusRule (Store.put Kind.alertRule Store.empty syncedAlert) syncedRule

/-! ## internal/mock/client.go

`MockClient` keeps `runtime.Object` values in a Go map keyed by a string.  The readings of
`time.Now()` made by one call are a single argument `now`. -/

/-- The `runtime.Object` values the map can hold, by concrete Go type. -/
inductive RuntimeObject where
  | alertRule (v : AlertRule)
  | alertRuleList (items : List AlertRule)
  | prometheusRule (v : PrometheusRule)
deriving DecidableEq, Repr

/-- Go `MockClient`: the field `objects` (the mutex has no content). -/
structure MockClient where
  objects : String → Option RuntimeObject

/-- Go `NewMockClient`. -/
def NewMockClient : MockClient := { objects := fun _ => none }

/-- Go `m.objects[key] = v`. -/
def MockClient.store (m : MockClient) (key : String) (v : RuntimeObject) : MockClient :=
  { objects := fun x => if x = key then some v else m.objects x }

/-- Go `delete(m.objects, key)`. -/
def MockClient.erase (m : MockClient) (key : String) : MockClient :=
  { objects := fun x => if x = key then none else m.objects x }

/-- Go `fmt.Sprintf("alertrule/%s/%s", namespace, name)`. -/
def alertRuleKey (ns name : String) : String := "alertrule/" ++ ns ++ "/" ++ name

/-- Go `strconv.Quote`, for names without characters to escape. -/
def goQuote (s : String) : String :=
  String.singleton (Char.ofNat 34) ++ s ++ String.singleton (Char.ofNat 34)

/-- Go `errors.NewNotFound(schema.GroupResource, name)`, with the group resource of the
repository (`alertrules` in `monitoring.kneutral.io`). -/
def errors.NewNotFound (name : String) : Error :=
  Error.status StatusReason.NotFound
    ("alertrules.monitoring.kneutral.io " ++ goQuote name ++ " not found")

/-- Go `errors.NewAlreadyExists(schema.GroupResource, name)`, same group resource. -/
def errors.NewAlreadyExists (name : String) : Error :=
  Error.status StatusReason.AlreadyExists
    ("alertrules.monitoring.kneutral.io " ++ goQuote name ++ " already exists")

/-- The error of `objectKey` for an object of another type. -/
def unsupportedObjectType : Error := Error.plain "unsupported object type: *v1.PrometheusRule"

/-- The error `Get` ends with. -/
def typeMismatch : Error := Error.plain "type mismatch"

/-- Go `MockClient.objectKey`, on the objects a `client.Object` argument can be: the case
`*AlertRuleList` is not one of them (a list has no object metadata). -/
def MockClient.objectKey : (k : Kind) → Obj k → Except Error String
  | Kind.alertRule, v => Except.ok (alertRuleKey v.Namespace v.Name)
  | Kind.prometheusRule, _ => Except.error unsupportedObjectType

/-- The object as a `runtime.Object` value (`obj.DeepCopyObject()`). -/
def Obj.toRuntime : (k : Kind) → Obj k → RuntimeObject
  | Kind.alertRule, v => RuntimeObject.alertRule v
  | Kind.prometheusRule, v => RuntimeObject.prometheusRule v

/-- Go `existing.(client.Object)`: the metadata of a stored value that is an object. -/
def RuntimeObject.objectMeta : RuntimeObject → Option ObjectMeta
  | RuntimeObject.alertRule v => some v.toObjectMeta
  | RuntimeObject.prometheusRule v => some v.toObjectMeta
  | RuntimeObject.alertRuleList _ => none

/-- The object with its metadata replaced (the `Set...` calls of `metav1.Object`). -/
def Obj.withMeta : (k : Kind) → Obj k → ObjectMeta → Obj k
  | Kind.alertRule, v, om => { v with toObjectMeta := om }
  | Kind.prometheusRule, v, om => { v with toObjectMeta := om }

/-- Go `int64` arithmetic: the value wrapped into the 64-bit two's complement range. -/
def int64 (x : Int) : Int :=
  (x + 9223372036854775808) % 18446744073709551616 - 9223372036854775808

/-- Go `MockClient.Get`. -/
def MockClient.Get (k : Kind) (key : NamespacedName) (m : MockClient) :
    Except Error (Obj k) × MockClient :=
  match m.objects (alertRuleKey key.Namespace key.Name) with
  | none => (Except.error (errors.NewNotFound key.Name), m)
  | some stored =>
    match k, stored with
    | Kind.alertRule, RuntimeObject.alertRule alertRule => (Except.ok alertRule, m)
    | _, _ => (Except.error typeMismatch, m)

/-- The status `Create` gives an AlertRule. -/
def mockCreatedStatus (now : Time) (name : String) : AlertRuleStatus :=
  { State := "Active"
    PrometheusRuleName := "kneutral-" ++ name
    LastReconcileTime := some now
    Conditions :=
      [{ Type_ := "Ready"
         Status := ConditionStatus.ConditionTrue
         ObservedGeneration := 1
         LastTransitionTime := now
         Reason := "MockReconcileSuccess"
         Message := "Mock PrometheusRule " ++ ("kneutral-" ++ name) ++ " created successfully" }] }

/-- The block `if alertRule, ok := obj.(*AlertRule); ok { ... }` of `Create`. -/
def mockSetCreatedStatus (now : Time) : (k : Kind) → Obj k → Obj k
  | Kind.alertRule, v => { v with Status := mockCreatedStatus now v.Name }
  | Kind.prometheusRule, v => v

/-- Go `MockClient.Create`. -/
def MockClient.Create (now : Time) (k : Kind) (obj : Obj k) (m : MockClient) :
    Except Error (Obj k) × MockClient :=
  match MockClient.objectKey k obj with
  | Except.error err => (Except.error err, m)
  | Except.ok key =>
    match m.objects key with
    | some _ => (Except.error (errors.NewAlreadyExists (Obj.meta k obj).Name), m)
    | none =>
      let obj := Obj.withMeta k obj
        { Obj.meta k obj with
          CreationTimestamp := now
          UID := "mock-uid-" ++ toString now
          Generation := 1 }
      let obj := mockSetCreatedStatus now k obj
      (Except.ok obj, m.store key (Obj.toRuntime k obj))

/-- The condition `Update` appends. -/
def mockUpdatedCondition (now : Time) (generation : Int) (name : String) : Condition :=
  { Type_ := "Updated"
    Status := ConditionStatus.ConditionTrue
    ObservedGeneration := generation
    LastTransitionTime := now
    Reason := "MockUpdateSuccess"
    Message := "Mock AlertRule " ++ name ++ " updated successfully" }

/-- The block `if alertRule, ok := obj.(*AlertRule); ok { ... }` of `Update`. -/
def mockSetUpdatedStatus (now : Time) : (k : Kind) → Obj k → Obj k
  | Kind.alertRule, v =>
    { v with
      Status :=
        { v.Status with
          LastReconcileTime := some now
          Conditions :=
            v.Status.Conditions ++ [mockUpdatedCondition now v.Generation v.Name] } }
  | Kind.prometheusRule, v => v

/-- Go `MockClient.Update`. -/
def MockClient.Update (now : Time) (k : Kind) (obj : Obj k) (m : MockClient) :
    Except Error (Obj k) × MockClient :=
  match MockClient.objectKey k obj with
  | Except.error err => (Except.error err, m)
  | Except.ok key =>
    match m.objects key with
    | none => (Except.error (errors.NewNotFound (Obj.meta k obj).Name), m)
    | some existing =>
      let obj :=
        match existing.objectMeta with
        | some existingObj =>
          Obj.withMeta k obj
            { Obj.meta k obj with
              Generation := int64 (existingObj.Generation + 1)
              CreationTimestamp := existingObj.CreationTimestamp
              UID := existingObj.UID }
        | none => obj
      let obj := mockSetUpdatedStatus now k obj
      (Except.ok obj, m.store key (Obj.toRuntime k obj))

/-- Go `MockClient.Delete`. -/
def MockClient.Delete (k : Kind) (obj : Obj k) (m : MockClient) : Option Error × MockClient :=
  match MockClient.objectKey k obj with
  | Except.error err => (some err, m)
  | Except.ok key =>
    match m.objects key with
    | none => (some (errors.NewNotFound (Obj.meta k obj).Name), m)
    | some _ => (none, m.erase key)

/-- Go `mockStatusWriter.Update`: "just update the object". -/
def mockStatusWriter.Update (now : Time) (k : Kind) (obj : Obj k) (m : MockClient) :
    Except Error (Obj k) × MockClient :=
  MockClient.Update now k obj m

/-- `MockClient` as the `client.Client` of a reconciler, every call reading the clock
as `now`. -/
def mockClient (now : Time) : Client MockClient where
  Get := MockClient.Get
  Create := MockClient.Create now
  Update := MockClient.Update now
  Delete := MockClient.Delete
  StatusUpdate := mockStatusWriter.Update now

/-- The mock after `PopulateExampleData` created the first example at time 3. -/
def populatedMock : MockClient := (MockClient.Create 3 Kind.alertRule cpuAlert NewMockClient).2

/-- The object a `Get` of the example's identity reads from a mock. -/
def readExample (m : MockClient) : AlertRule :=
  match (MockClient.Get Kind.alertRule ⟨"monitoring", "cpu-monitoring"⟩ m).1 with
  | Except.ok a => a
  | Except.error _ => cpuAlert

/-- The mock holding the terminating example rule, which carries a finalizer token. -/
def finalizerMock : MockClient :=
  NewMockClient.store (alertRuleKey "monitoring" "cpu-monitoring")
    (RuntimeObject.alertRule cpuAlertTerminating)

/-- The populated mock after an `Update` (time 4) and a `Status().Update` (time 5), each of
the object read back from the mock. -/
def twiceUpdatedMock : MockClient :=
  (mockStatusWriter.Update 5 Kind.alertRule
    (readExample (MockClient.Update 4 Kind.alertRule (readExample populatedMock)
      populatedMock).2)
    (MockClient.Update 4 Kind.alertRule (readExample populatedMock) populatedMock).2).2

/-- The example read back from the populated mock, with its spec emptied and a finalizer
added by the caller. -/
def editedExample : AlertRule :=
  { readExample populatedMock with Spec := {}, Finalizers := ["example.io/hold"] }

/-! # Lemmas -/

/-! ## Lemmas: string maps -/

theorem mapGet_mapSet (m : StringMap) (x y z : String) :
    mapGet (mapSet m x y) z = if x = z then some y else mapGet m z := by
  induction m with
  | nil => simp [mapSet, mapGet]
  | cons e m ih =>
    obtain ⟨k, v⟩ := e
    by_cases hk : k = x
    · subst hk
      by_cases hz : k = z <;> simp [mapSet, mapGet, hz]
    · by_cases hz : k = z
      · subst hz
        have hx : ¬ x = k := fun h => hk h.symm
        simp [mapSet, mapGet, hk, hx]
      · simp [mapSet, mapGet, hk, hz, ih]

theorem mapKeys_mapSet (m : StringMap) (x y z : String) :
    z ∈ mapKeys (mapSet m x y) ↔ z = x ∨ z ∈ mapKeys m := by
  induction m with
  | nil => simp [mapSet, mapKeys]
  | cons e m ih =>
    obtain ⟨k, v⟩ := e
    by_cases hk : k = x
    · subst hk
      simp [mapSet, mapKeys]
    · simp only [mapKeys] at ih
      simp [mapSet, mapKeys, hk, ih]
      tauto

theorem mapGet_eq_none_of_not_mem (m : StringMap) (z : String) (h : z ∉ mapKeys m) :
    mapGet m z = none := by
  induction m with
  | nil => rfl
  | cons e m ih =>
    obtain ⟨k, v⟩ := e
    simp only [mapKeys, List.map_cons, List.mem_cons, not_or] at h
    have hk : ¬ k = z := fun hkz => h.1 hkz.symm
    simp only [mapGet, hk, if_false]
    exact ih h.2

theorem mapGet_isSome_iff (m : StringMap) (z : String) :
    (mapGet m z).isSome = true ↔ z ∈ mapKeys m := by
  induction m with
  | nil => simp [mapGet, mapKeys]
  | cons e m ih =>
    obtain ⟨k, v⟩ := e
    by_cases hk : k = z
    · simp [mapGet, mapKeys, hk]
    · have hz : ¬ z = k := fun h => hk h.symm
      simp only [mapKeys] at ih
      simp [mapGet, mapKeys, hk, hz, ih]

theorem mapKeys_mergeLabels (user labels : StringMap) (z : String) :
    z ∈ mapKeys (mergeLabels labels user) ↔ z ∈ mapKeys labels ∨ z ∈ mapKeys user := by
  induction user generalizing labels with
  | nil => simp [mergeLabels, mapKeys]
  | cons e u ih =>
    have h := ih (mapSet labels e.1 e.2)
    simp only [mergeLabels, List.foldl_cons] at h ⊢
    rw [h, mapKeys_mapSet]
    simp [mapKeys]
    tauto

theorem mapGet_mergeLabels (user labels : StringMap) (hwf : StringMap.WF user) (z : String) :
    mapGet (mergeLabels labels user) z = (mapGet user z).orElse (fun _ => mapGet labels z) := by
  induction user generalizing labels with
  | nil => simp [mergeLabels, mapGet]
  | cons e u ih =>
    obtain ⟨k, v⟩ := e
    have hnd : k ∉ mapKeys u ∧ StringMap.WF u := by
      simpa [StringMap.WF, mapKeys] using hwf
    have h := ih (mapSet labels k v) hnd.2
    simp only [mergeLabels, List.foldl_cons] at h ⊢
    rw [h, mapGet_mapSet]
    by_cases hk : k = z
    · subst hk
      simp [mapGet, mapGet_eq_none_of_not_mem u k hnd.1]
    · simp [mapGet, hk]

/-! ## Lemmas: the translator -/

theorem foldl_appendGroup (gs : List AlertGroup) (pr : PrometheusRule) :
    gs.foldl
      (fun pr group => { pr with Spec := { Groups := pr.Spec.Groups ++ [convertGroup group] } })
      pr
    = { pr with Spec := { Groups := pr.Spec.Groups ++ gs.map convertGroup } } := by
  induction gs generalizing pr with
  | nil => simp
  | cons g gs ih => simp [ih]

theorem foldl_appendRule (rs : List Rule) (rg : RuleGroup) :
    rs.foldl (fun rg rule => { rg with Rules := rg.Rules ++ [convertRule rule] }) rg
    = { rg with Rules := rg.Rules ++ rs.map convertRule } := by
  induction rs generalizing rg with
  | nil => simp
  | cons r rs ih => simp [ih]

theorem generatePrometheusRule_eq (a : AlertRule) :
    generatePrometheusRule a =
      { Name := derivedName a.Name
        Namespace := a.Namespace
        Labels := mergeLabels (identityLabels a.Name) a.Spec.Labels
        Spec := { Groups := a.Spec.Groups.map convertGroup } } := by
  simp [generatePrometheusRule, foldl_appendGroup]

theorem convertGroup_eq (g : AlertGroup) :
    convertGroup g =
      { Name := g.Name
        Interval := if g.Interval = "" then none else some g.Interval
        Rules := g.Rules.map convertRule } := by
  by_cases h : g.Interval = "" <;> simp [convertGroup, foldl_appendRule, h]

theorem convertRule_eq (r : Rule) :
    convertRule r =
      { Alert := r.Alert
        Expr := IntOrString.str r.Expr
        For := if r.For = "" then none else some r.For
        Labels := r.Labels
        Annotations := r.Annotations } := by
  by_cases h : r.For = "" <;> simp [convertRule, IntOrString.FromString, h]

/-! ## Lemmas: the store -/

theorem Store.ext_fields (a b : Store) (h1 : a.alertRules = b.alertRules)
    (h2 : a.prometheusRules = b.prometheusRules) : a = b := by
  cases a; cases b; simp only at h1 h2; subst h1; subst h2; rfl

@[simp] theorem Store.put_alertRule_alertRules (st : Store) (o : AlertRule) (x : NamespacedName) :
    (Store.put Kind.alertRule st o).alertRules x
      = if x = Obj.key Kind.alertRule o then some o else st.alertRules x := rfl

@[simp] theorem Store.put_alertRule_prometheusRules (st : Store) (o : AlertRule) :
    (Store.put Kind.alertRule st o).prometheusRules = st.prometheusRules := rfl

@[simp] theorem Store.put_prometheusRule_prometheusRules (st : Store) (o : PrometheusRule)
    (x : NamespacedName) :
    (Store.put Kind.prometheusRule st o).prometheusRules x
      = if x = Obj.key Kind.prometheusRule o then some o else st.prometheusRules x := rfl

@[simp] theorem Store.put_prometheusRule_alertRules (st : Store) (o : PrometheusRule) :
    (Store.put Kind.prometheusRule st o).alertRules = st.alertRules := rfl

@[simp] theorem Store.remove_prometheusRule_prometheusRules (st : Store) (key x : NamespacedName) :
    (Store.remove Kind.prometheusRule st key).prometheusRules x
      = if x = key then none else st.prometheusRules x := rfl

@[simp] theorem Store.remove_prometheusRule_alertRules (st : Store) (key : NamespacedName) :
    (Store.remove Kind.prometheusRule st key).alertRules = st.alertRules := rfl

theorem Store.put_alertRule_self (st : Store) (o : AlertRule)
    (h : st.alertRules (Obj.key Kind.alertRule o) = some o) :
    Store.put Kind.alertRule st o = st := by
  apply Store.ext_fields
  · funext x
    by_cases hx : x = Obj.key Kind.alertRule o
    · simp [hx, h]
    · simp [hx]
  · rfl

theorem memClient_Get_alertRule (st : Store) (key : NamespacedName) :
    memClient.Get Kind.alertRule key st
      = match st.alertRules key with
        | none => (Except.error (notFoundError key), st)
        | some o => (Except.ok o, st) := by
  simp only [memClient, Store.get]
  split <;> simp_all

theorem memClient_Get_prometheusRule (st : Store) (key : NamespacedName) :
    memClient.Get Kind.prometheusRule key st
      = match st.prometheusRules key with
        | none => (Except.error (notFoundError key), st)
        | some o => (Except.ok o, st) := by
  simp only [memClient, Store.get]
  split <;> simp_all

theorem memClient_Update_alertRule (st : Store) (o : AlertRule) :
    memClient.Update Kind.alertRule o st
      = match st.alertRules (Obj.key Kind.alertRule o) with
        | none => (Except.error (notFoundError (Obj.key Kind.alertRule o)), st)
        | some _ => (Except.ok o, Store.put Kind.alertRule st o) := by
  simp only [memClient, Store.get]
  split <;> simp_all

theorem memClient_Update_prometheusRule (st : Store) (o : PrometheusRule) :
    memClient.Update Kind.prometheusRule o st
      = match st.prometheusRules (Obj.key Kind.prometheusRule o) with
        | none => (Except.error (notFoundError (Obj.key Kind.prometheusRule o)), st)
        | some _ => (Except.ok o, Store.put Kind.prometheusRule st o) := by
  simp only [memClient, Store.get]
  split <;> simp_all

theorem memClient_Create_prometheusRule (st : Store) (o : PrometheusRule) :
    memClient.Create Kind.prometheusRule o st
      = match st.prometheusRules (Obj.key Kind.prometheusRule o) with
        | some _ => (Except.error (alreadyExistsError (Obj.key Kind.prometheusRule o)), st)
        | none => (Except.ok o, Store.put Kind.prometheusRule st o) := by
  simp only [memClient, Store.get]
  split <;> simp_all

theorem memClient_Delete_prometheusRule (st : Store) (o : PrometheusRule) :
    memClient.Delete Kind.prometheusRule o st
      = match st.prometheusRules (Obj.key Kind.prometheusRule o) with
        | none => (some (notFoundError (Obj.key Kind.prometheusRule o)), st)
        | some _ => (none, Store.remove Kind.prometheusRule st (Obj.key Kind.prometheusRule o)) := by
  simp only [memClient, Store.get]
  split <;> simp_all

theorem memClient_StatusUpdate_alertRule (st : Store) (o : AlertRule) :
    memClient.StatusUpdate Kind.alertRule o st
      = match st.alertRules (Obj.key Kind.alertRule o) with
        | none => (Except.error (notFoundError (Obj.key Kind.alertRule o)), st)
        | some stored =>
          (Except.ok o, Store.put Kind.alertRule st { stored with Status := o.Status }) := by
  simp only [memClient, Store.get]
  split <;> simp_all [Obj.withStatusOf]

/-! ## Lemmas: finalizers and owner references -/

theorem ContainsFinalizer_iff (o : AlertRule) (f : String) :
    controllerutil.ContainsFinalizer o f = true ↔ f ∈ o.Finalizers := by
  simp [controllerutil.ContainsFinalizer]

theorem AddFinalizer_of_mem (o : AlertRule) (f : String) (h : f ∈ o.Finalizers) :
    controllerutil.AddFinalizer o f = o := by
  have : (o.Finalizers.any fun e => e == f) = true := by
    simpa using h
  simp [controllerutil.AddFinalizer, this]

theorem AddFinalizer_of_not_mem (o : AlertRule) (f : String) (h : f ∉ o.Finalizers) :
    controllerutil.AddFinalizer o f = { o with Finalizers := o.Finalizers ++ [f] } := by
  have : ¬ (o.Finalizers.any fun e => e == f) = true := by
    simpa using h
  simp [controllerutil.AddFinalizer, this]

theorem AddFinalizer_frame (o : AlertRule) (f : String) :
    (controllerutil.AddFinalizer o f).Name = o.Name ∧
    (controllerutil.AddFinalizer o f).Namespace = o.Namespace ∧
    (controllerutil.AddFinalizer o f).Spec = o.Spec ∧
    (controllerutil.AddFinalizer o f).Status = o.Status ∧
    (controllerutil.AddFinalizer o f).Generation = o.Generation ∧
    (controllerutil.AddFinalizer o f).DeletionTimestamp = o.DeletionTimestamp ∧
    (controllerutil.AddFinalizer o f).UID = o.UID := by
  by_cases h : f ∈ o.Finalizers
  · rw [AddFinalizer_of_mem o f h]; simp
  · rw [AddFinalizer_of_not_mem o f h]; simp

theorem generatePrometheusRule_congr (a b : AlertRule) (h1 : a.Name = b.Name)
    (h2 : a.Namespace = b.Namespace) (h3 : a.Spec = b.Spec) :
    generatePrometheusRule a = generatePrometheusRule b := by
  rw [generatePrometheusRule_eq, generatePrometheusRule_eq, h1, h2, h3]

theorem SetControllerReference_generated (a : AlertRule) (scheme : Scheme) :
    controllerutil.SetControllerReference a (generatePrometheusRule a) scheme
      = match scheme Kind.alertRule with
        | none => Except.error (Error.plain "no kind is registered for the type AlertRule")
        | some gvk =>
          Except.ok { generatePrometheusRule a with
            OwnerReferences := [controllerRef gvk a] } := by
  rw [generatePrometheusRule_eq]
  simp only [controllerutil.SetControllerReference]
  by_cases hns : a.Namespace = ""
  · cases hsch : scheme Kind.alertRule <;> simp [hns, upsertOwnerRef]
  · cases hsch : scheme Kind.alertRule <;> simp [hns, upsertOwnerRef]

/-! ## Lemmas: the reconciler over `memClient` -/

theorem derivedKey_eq (a : AlertRule) :
    Obj.key Kind.prometheusRule (generatePrometheusRule a)
      = { Namespace := a.Namespace, Name := derivedName a.Name } := by
  rw [generatePrometheusRule_eq]; rfl

theorem writtenRule_key (gvk : GroupVersionKind) (a : AlertRule) (st : Store) :
    Obj.key Kind.prometheusRule
        (writtenRule gvk a (st.prometheusRules ⟨a.Namespace, derivedName a.Name⟩))
      = { Namespace := a.Namespace, Name := derivedName a.Name } := by
  cases h : st.prometheusRules ⟨a.Namespace, derivedName a.Name⟩ with
  | none =>
    simp only [writtenRule]
    have := derivedKey_eq a
    simpa [Obj.key, Obj.meta] using this
  | some found =>
    have := st.prometheusRules_key _ _ h
    simpa [writtenRule, Obj.key, Obj.meta] using this

theorem updateStatus_memClient (scheme : Scheme) (now : Time) (a : AlertRule)
    (name state : String) (st : Store) (stored : AlertRule)
    (h : st.alertRules (Obj.key Kind.alertRule a) = some stored) :
    updateStatus { Client := memClient, Scheme := scheme } now a name state st
      = (({}, none),
         Store.put Kind.alertRule st
           { stored with Status := reportedStatus now a name state }) := by
  have hk : Obj.key Kind.alertRule
      { a with Status := reportedStatus now a name state } = Obj.key Kind.alertRule a := rfl
  simp only [updateStatus, memClient_StatusUpdate_alertRule]
  have h2 : st.alertRules (Obj.key Kind.alertRule
      { a with Status := reportedStatus now a name state }) = some stored := by
    rw [hk]; exact h
  simp only [reportedStatus] at h2 ⊢
  rw [h2]

theorem syncPrometheusRule_memClient_error (scheme : Scheme) (now : Time) (a : AlertRule)
    (st : Store) (hsch : scheme Kind.alertRule = none) :
    syncPrometheusRule { Client := memClient, Scheme := scheme } now a st
      = (({}, some (Error.plain "no kind is registered for the type AlertRule")), st) := by
  simp only [syncPrometheusRule, SetControllerReference_generated, hsch]

theorem updateStatus_memClient_put (scheme : Scheme) (now : Time) (a : AlertRule)
    (name state : String) (st : Store) (pr : PrometheusRule) (stored : AlertRule)
    (h : st.alertRules (Obj.key Kind.alertRule a) = some stored) :
    updateStatus { Client := memClient, Scheme := scheme } now a name state
        (Store.put Kind.prometheusRule st pr)
      = (({}, none),
         Store.put Kind.alertRule (Store.put Kind.prometheusRule st pr)
           { stored with Status := reportedStatus now a name state }) :=
  updateStatus_memClient scheme now a name state _ stored (by simpa using h)

theorem syncPrometheusRule_memClient (scheme : Scheme) (gvk : GroupVersionKind) (now : Time)
    (a stored : AlertRule) (st : Store) (hsch : scheme Kind.alertRule = some gvk)
    (h : st.alertRules (Obj.key Kind.alertRule a) = some stored) :
    syncPrometheusRule { Client := memClient, Scheme := scheme } now a st
      = (({}, none),
         Store.put Kind.alertRule
           (Store.put Kind.prometheusRule st
             (writtenRule gvk a (st.prometheusRules ⟨a.Namespace, derivedName a.Name⟩)))
           { stored with Status := reportedStatus now a (derivedName a.Name) "Active" }) := by
  have hN : (generatePrometheusRule a).Name = derivedName a.Name := by
    rw [generatePrometheusRule_eq]
  have hNs : (generatePrometheusRule a).Namespace = a.Namespace := by
    rw [generatePrometheusRule_eq]
  cases hf : st.prometheusRules ⟨a.Namespace, derivedName a.Name⟩ with
  | none =>
    simp only [syncPrometheusRule, SetControllerReference_generated, hsch,
      memClient_Get_prometheusRule, hN, hNs, hf, writtenRule, memClient_Create_prometheusRule,
      Obj.key, Obj.meta, notFoundError, errors.IsNotFound, if_true,
      updateStatus_memClient_put scheme now a _ _ st _ stored h]
  | some found =>
    have hfk := st.prometheusRules_key _ _ hf
    simp only [Obj.key, Obj.meta, NamespacedName.mk.injEq] at hfk
    simp only [syncPrometheusRule, SetControllerReference_generated, hsch,
      memClient_Get_prometheusRule, hN, hNs, hf, writtenRule, memClient_Update_prometheusRule,
      Obj.key, Obj.meta, hfk.1, hfk.2,
      updateStatus_memClient_put scheme now a _ _ st _ stored h]

theorem Reconcile_memClient_absent (scheme : Scheme) (now : Time) (req : NamespacedName)
    (st : Store) (h : st.alertRules req = none) :
    Reconcile { Client := memClient, Scheme := scheme } now req st = (({}, none), st) := by
  simp [Reconcile, memClient_Get_alertRule, h, notFoundError, errors.IsNotFound]

theorem Reconcile_memClient_live (scheme : Scheme) (now : Time) (req : NamespacedName)
    (st : Store) (s : AlertRule) (hs : st.alertRules req = some s)
    (hlive : Time.IsZero s.DeletionTimestamp = true) :
    Reconcile { Client := memClient, Scheme := scheme } now req st
      = syncPrometheusRule { Client := memClient, Scheme := scheme } now
          (controllerutil.AddFinalizer s finalizerName)
          (Store.put Kind.alertRule st (controllerutil.AddFinalizer s finalizerName)) := by
  have hk : Obj.key Kind.alertRule s = req := st.alertRules_key _ _ hs
  simp only [Reconcile, memClient_Get_alertRule, hs, hlive]
  by_cases hc : finalizerName ∈ s.Finalizers
  · have hc2 := (ContainsFinalizer_iff s finalizerName).2 hc
    rw [AddFinalizer_of_mem s _ hc, Store.put_alertRule_self st s (by rw [hk]; exact hs)]
    simp [hc2]
  · have hc2 : controllerutil.ContainsFinalizer s finalizerName = false := by
      cases hb : controllerutil.ContainsFinalizer s finalizerName
      · rfl
      · exact absurd ((ContainsFinalizer_iff s finalizerName).1 hb) hc
    have hk2 : Obj.key Kind.alertRule (controllerutil.AddFinalizer s finalizerName) = req := by
      rw [← hk]
      have hf := AddFinalizer_frame s finalizerName
      simp only [Obj.key, Obj.meta, hf.1, hf.2.1]
    simp [hc2, memClient_Update_alertRule, hk2, hs]

/-! ## Lemmas: the condition list -/

theorem replaceCondition_eq_none (c : Condition) (cs : List Condition) :
    replaceCondition c cs = none ↔ c.Type_ ∉ cs.map (fun x => x.Type_) := by
  induction cs with
  | nil => simp [replaceCondition]
  | cons d ds ih =>
    by_cases h : d.Type_ = c.Type_
    · simp [replaceCondition, h]
    · have h2 : ¬ c.Type_ = d.Type_ := fun e => h e.symm
      simp only [replaceCondition, h, if_false, Option.map_eq_none', ih]
      simp [h2]

theorem replaceCondition_types (c : Condition) (cs cs2 : List Condition)
    (h : replaceCondition c cs = some cs2) :
    cs2.map (fun x => x.Type_) = cs.map (fun x => x.Type_) := by
  induction cs generalizing cs2 with
  | nil => simp [replaceCondition] at h
  | cons d ds ih =>
    by_cases hd : d.Type_ = c.Type_
    · simp only [replaceCondition, hd, if_true, Option.some.injEq] at h
      subst h
      simp [hd]
    · simp only [replaceCondition, hd, if_false, Option.map_eq_some'] at h
      obtain ⟨ds2, hds, rfl⟩ := h
      simp [ih ds2 hds]

theorem upsertCondition_types (c : Condition) (cs : List Condition) :
    (upsertCondition cs c).map (fun x => x.Type_)
      = if c.Type_ ∈ cs.map (fun x => x.Type_) then cs.map (fun x => x.Type_)
        else cs.map (fun x => x.Type_) ++ [c.Type_] := by
  unfold upsertCondition
  cases h : replaceCondition c cs with
  | none =>
    have := (replaceCondition_eq_none c cs).1 h
    simp [this]
  | some cs2 =>
    have hm : c.Type_ ∈ cs.map (fun x => x.Type_) := by
      by_contra hn
      rw [(replaceCondition_eq_none c cs).2 hn] at h
      cases h
    simp only [hm, if_true]
    exact replaceCondition_types c cs cs2 h

theorem upsertCondition_mem_types (c : Condition) (cs : List Condition) :
    c.Type_ ∈ (upsertCondition cs c).map (fun x => x.Type_) := by
  rw [upsertCondition_types]
  by_cases h : c.Type_ ∈ cs.map (fun x => x.Type_) <;> simp [h]

theorem upsertCondition_nodup (c : Condition) (cs : List Condition)
    (h : (cs.map (fun x => x.Type_)).Nodup) :
    ((upsertCondition cs c).map (fun x => x.Type_)).Nodup := by
  rw [upsertCondition_types]
  by_cases hm : c.Type_ ∈ cs.map (fun x => x.Type_)
  · simpa [hm] using h
  · simp only [hm, if_false]
    rw [List.nodup_append]
    refine ⟨h, by simp, ?_⟩
    intro x hx hy
    simp only [List.mem_singleton] at hy
    subst hy
    exact hm hx

theorem replaceCondition_erase (c c2 : Condition) (cs : List Condition)
    (ht : c.Type_ = c2.Type_) (he : c.eraseTime = c2.eraseTime) :
    (replaceCondition c cs).map (fun l => l.map Condition.eraseTime)
      = (replaceCondition c2 cs).map (fun l => l.map Condition.eraseTime) := by
  induction cs with
  | nil => simp [replaceCondition]
  | cons d ds ih =>
    by_cases hd : d.Type_ = c.Type_
    · have hd2 : d.Type_ = c2.Type_ := hd.trans ht
      simp [replaceCondition, hd, hd2, he, ht]
    · have hd2 : ¬ d.Type_ = c2.Type_ := fun e => hd (e.trans ht.symm)
      simp only [replaceCondition, hd, hd2, if_false, Option.map_map]
      have := congrArg (Option.map (fun l => d.eraseTime :: l)) ih
      simpa [Option.map_map, Function.comp_def] using this

theorem upsertCondition_erase (c c2 : Condition) (cs : List Condition)
    (ht : c.Type_ = c2.Type_) (he : c.eraseTime = c2.eraseTime) :
    (upsertCondition cs c).map Condition.eraseTime
      = (upsertCondition cs c2).map Condition.eraseTime := by
  have h := replaceCondition_erase c c2 cs ht he
  unfold upsertCondition
  cases h1 : replaceCondition c cs with
  | none =>
    cases h2 : replaceCondition c2 cs with
    | none => simp [he]
    | some l2 => rw [h1, h2] at h; cases h
  | some l1 =>
    cases h2 : replaceCondition c2 cs with
    | none => rw [h1, h2] at h; cases h
    | some l2 =>
      rw [h1, h2] at h
      simpa using h

theorem replaceCondition_upsert (c c2 : Condition) (cs : List Condition)
    (ht : c.Type_ = c2.Type_) :
    replaceCondition c2 (upsertCondition cs c) = some (upsertCondition cs c2) := by
  unfold upsertCondition
  induction cs with
  | nil => simp [replaceCondition, ht]
  | cons d ds ih =>
    by_cases hd : d.Type_ = c.Type_
    · have hd2 : d.Type_ = c2.Type_ := hd.trans ht
      simp [replaceCondition, hd, hd2, ht]
    · have hd2 : ¬ d.Type_ = c2.Type_ := fun e => hd (e.trans ht.symm)
      simp only [replaceCondition, hd, hd2, if_false]
      cases h1 : replaceCondition c ds with
      | none =>
        have hn2 : replaceCondition c2 ds = none := by
          rw [replaceCondition_eq_none] at h1 ⊢
          rw [← ht]; exact h1
        rw [h1, hn2] at ih
        simp only [Option.map_none', List.cons_append, hn2]
        simp only [replaceCondition, hd2, if_false, ih, Option.map_some']
      | some l1 =>
        cases h2 : replaceCondition c2 ds with
        | none =>
          rw [replaceCondition_eq_none, ← ht, ← replaceCondition_eq_none] at h2
          rw [h2] at h1; cases h1
        | some l2 =>
          rw [h1, h2] at ih
          simp only [Option.map_some']
          simp only [replaceCondition, hd2, if_false, ih, Option.map_some']

theorem upsertCondition_upsert (c c2 : Condition) (cs : List Condition)
    (ht : c.Type_ = c2.Type_) :
    upsertCondition (upsertCondition cs c) c2 = upsertCondition cs c2 := by
  have h := replaceCondition_upsert c c2 cs ht
  have key : ∀ l : List Condition, replaceCondition c2 l = some (upsertCondition cs c2) →
      upsertCondition l c2 = upsertCondition cs c2 := by
    intro l hl
    simp only [upsertCondition, hl]
  exact key _ h

/-! ## Lemmas: one pass over `memClient` -/

theorem Reconcile_memClient_live_ok (scheme : Scheme) (gvk : GroupVersionKind) (now : Time)
    (req : NamespacedName) (st : Store) (s : AlertRule) (hs : st.alertRules req = some s)
    (hlive : Time.IsZero s.DeletionTimestamp = true) (hsch : scheme Kind.alertRule = some gvk) :
    Reconcile { Client := memClient, Scheme := scheme } now req st
      = (({}, none), reconciledStore gvk now st s) := by
  have hf := AddFinalizer_frame s finalizerName
  rw [Reconcile_memClient_live scheme now req st s hs hlive]
  rw [syncPrometheusRule_memClient scheme gvk now _
    (controllerutil.AddFinalizer s finalizerName) _ hsch (by simp)]
  simp only [reconciledStore, reconciledSource, hf.1, hf.2.1,
    Store.put_alertRule_prometheusRules]

theorem Reconcile_memClient_live_error (scheme : Scheme) (now : Time)
    (req : NamespacedName) (st : Store) (s : AlertRule) (hs : st.alertRules req = some s)
    (hlive : Time.IsZero s.DeletionTimestamp = true) (hsch : scheme Kind.alertRule = none) :
    Reconcile { Client := memClient, Scheme := scheme } now req st
      = (({}, some (Error.plain "no kind is registered for the type AlertRule")),
         Store.put Kind.alertRule st (controllerutil.AddFinalizer s finalizerName)) := by
  rw [Reconcile_memClient_live scheme now req st s hs hlive,
    syncPrometheusRule_memClient_error scheme now _ _ hsch]

theorem AddFinalizer_key (s : AlertRule) (f : String) :
    Obj.key Kind.alertRule (controllerutil.AddFinalizer s f) = Obj.key Kind.alertRule s := by
  have hf := AddFinalizer_frame s f
  simp only [Obj.key, Obj.meta, hf.1, hf.2.1]

theorem reconciledSource_key (now : Time) (s : AlertRule) :
    Obj.key Kind.alertRule (reconciledSource now s) = Obj.key Kind.alertRule s := by
  have := AddFinalizer_key s finalizerName
  simpa [reconciledSource, Obj.key, Obj.meta] using this

theorem reconciledStore_alertRules (gvk : GroupVersionKind) (now : Time) (st : Store)
    (s : AlertRule) (x : NamespacedName) :
    (reconciledStore gvk now st s).alertRules x
      = if x = Obj.key Kind.alertRule s then some (reconciledSource now s)
        else st.alertRules x := by
  simp only [reconciledStore, Store.put_alertRule_alertRules, Store.put_prometheusRule_alertRules,
    reconciledSource_key, AddFinalizer_key]
  by_cases hx : x = Obj.key Kind.alertRule s <;> simp [hx]

theorem reconciledStore_prometheusRules (gvk : GroupVersionKind) (now : Time) (st : Store)
    (s : AlertRule) (x : NamespacedName) :
    (reconciledStore gvk now st s).prometheusRules x
      = if x = { Namespace := s.Namespace, Name := derivedName s.Name } then
          some (writtenRule gvk (controllerutil.AddFinalizer s finalizerName)
            (st.prometheusRules { Namespace := s.Namespace, Name := derivedName s.Name }))
        else st.prometheusRules x := by
  have hf := AddFinalizer_frame s finalizerName
  have hk := writtenRule_key gvk (controllerutil.AddFinalizer s finalizerName) st
  rw [hf.1, hf.2.1] at hk
  simp only [reconciledStore, Store.put_alertRule_prometheusRules,
    Store.put_prometheusRule_prometheusRules, hk]

theorem reconciledSource_frame (now : Time) (s : AlertRule) :
    (reconciledSource now s).Name = s.Name ∧
    (reconciledSource now s).Namespace = s.Namespace ∧
    (reconciledSource now s).Spec = s.Spec ∧
    (reconciledSource now s).Generation = s.Generation ∧
    (reconciledSource now s).DeletionTimestamp = s.DeletionTimestamp ∧
    (reconciledSource now s).Finalizers
      = (controllerutil.AddFinalizer s finalizerName).Finalizers ∧
    (reconciledSource now s).Status.Conditions
      = upsertCondition s.Status.Conditions
          (readyCondition now s.Generation (derivedName s.Name)) := by
  have hf := AddFinalizer_frame s finalizerName
  simp [reconciledSource, reportedStatus, hf.1, hf.2.1, hf.2.2.1, hf.2.2.2.1, hf.2.2.2.2.1,
    hf.2.2.2.2.2.1]

theorem AddFinalizer_mem (s : AlertRule) (f : String) :
    f ∈ (controllerutil.AddFinalizer s f).Finalizers := by
  by_cases h : f ∈ s.Finalizers
  · rw [AddFinalizer_of_mem s f h]; exact h
  · rw [AddFinalizer_of_not_mem s f h]; simp

theorem AddFinalizer_count (s : AlertRule) (f : String) (h : s.Finalizers.count f ≤ 1) :
    (controllerutil.AddFinalizer s f).Finalizers.count f = 1 := by
  by_cases hm : f ∈ s.Finalizers
  · rw [AddFinalizer_of_mem s f hm]
    have := List.count_pos_iff.2 hm
    omega
  · rw [AddFinalizer_of_not_mem s f hm]
    simp [List.count_eq_zero_of_not_mem hm]

theorem Store.remove_prometheusRule_absent (st : Store) (key : NamespacedName)
    (h : st.prometheusRules key = none) : Store.remove Kind.prometheusRule st key = st := by
  apply Store.ext_fields
  · rfl
  · funext x
    by_cases hx : x = key
    · simp [hx, h]
    · simp [hx]

theorem RemoveFinalizer_key (s : AlertRule) (f : String) :
    Obj.key Kind.alertRule (controllerutil.RemoveFinalizer s f) = Obj.key Kind.alertRule s := rfl

theorem RemoveFinalizer_not_mem (s : AlertRule) (f : String) :
    f ∉ (controllerutil.RemoveFinalizer s f).Finalizers := by
  simp [controllerutil.RemoveFinalizer]

theorem Reconcile_memClient_terminating_idle (scheme : Scheme) (now : Time)
    (req : NamespacedName) (st : Store) (s : AlertRule) (hs : st.alertRules req = some s)
    (hdel : Time.IsZero s.DeletionTimestamp = false) (hfin : finalizerName ∉ s.Finalizers) :
    Reconcile { Client := memClient, Scheme := scheme } now req st = (({}, none), st) := by
  have hc : controllerutil.ContainsFinalizer s finalizerName = false := by
    cases hb : controllerutil.ContainsFinalizer s finalizerName
    · rfl
    · exact absurd ((ContainsFinalizer_iff s finalizerName).1 hb) hfin
  simp [Reconcile, memClient_Get_alertRule, hs, hdel, hc]

theorem Reconcile_memClient_terminating_cleanup (scheme : Scheme) (now : Time)
    (req : NamespacedName) (st : Store) (s : AlertRule) (hs : st.alertRules req = some s)
    (hdel : Time.IsZero s.DeletionTimestamp = false) (hfin : finalizerName ∈ s.Finalizers) :
    Reconcile { Client := memClient, Scheme := scheme } now req st
      = (({}, none),
         Store.put Kind.alertRule
           (Store.remove Kind.prometheusRule st
             { Namespace := s.Namespace, Name := derivedName s.Name })
           (controllerutil.RemoveFinalizer s finalizerName)) := by
  have hc := (ContainsFinalizer_iff s finalizerName).2 hfin
  have hk : Obj.key Kind.alertRule s = req := st.alertRules_key _ _ hs
  cases hp : st.prometheusRules { Namespace := s.Namespace, Name := derivedName s.Name } with
  | none =>
    rw [Store.remove_prometheusRule_absent st _ hp]
    simp [Reconcile, deletePrometheusRule, memClient_Get_alertRule, memClient_Get_prometheusRule,
      memClient_Update_alertRule, RemoveFinalizer_key, hs, hdel, hc, hp, hk, notFoundError,
      errors.IsNotFound]
  | some p =>
    have hpk := st.prometheusRules_key _ _ hp
    simp [Reconcile, deletePrometheusRule, memClient_Get_alertRule, memClient_Get_prometheusRule,
      memClient_Update_alertRule, memClient_Delete_prometheusRule, RemoveFinalizer_key, hs,
      hdel, hc, hp, hk, hpk]

theorem Store.sameUpToTimes_refl (st : Store) : Store.sameUpToTimes st st :=
  ⟨fun _ => rfl, rfl⟩

theorem reconciledSource_of_mem (now : Time) (a : AlertRule)
    (h : finalizerName ∈ a.Finalizers) :
    reconciledSource now a
      = { a with Status := reportedStatus now a (derivedName a.Name) "Active" } := by
  unfold reconciledSource
  rw [AddFinalizer_of_mem a finalizerName h]

theorem reconciledSource_eraseTimes (now1 now2 : Time) (s : AlertRule) :
    (reconciledSource now2 (reconciledSource now1 s)).eraseTimes
      = (reconciledSource now1 s).eraseTimes := by
  have hfr := reconciledSource_frame now1 s
  have hmem : finalizerName ∈ (reconciledSource now1 s).Finalizers := by
    rw [hfr.2.2.2.2.2.1]
    exact AddFinalizer_mem s finalizerName
  have hcs := upsertCondition_upsert (readyCondition now1 s.Generation (derivedName s.Name))
    (readyCondition now2 s.Generation (derivedName s.Name)) s.Status.Conditions rfl
  have her := upsertCondition_erase (readyCondition now2 s.Generation (derivedName s.Name))
    (readyCondition now1 s.Generation (derivedName s.Name)) s.Status.Conditions rfl rfl
  rw [reconciledSource_of_mem now2 _ hmem]
  simp only [AlertRule.eraseTimes, reportedStatus, hfr.1, hfr.2.2.2.1, hfr.2.2.2.2.2.2, hcs, her]
  simp [reconciledSource, reportedStatus, (AddFinalizer_frame s finalizerName).2.2.2.2.1,
    (AddFinalizer_frame s finalizerName).2.2.2.1]

theorem writtenRule_idem (gvk : GroupVersionKind) (a b : AlertRule)
    (h : generatePrometheusRule b = generatePrometheusRule a) (found : Option PrometheusRule) :
    writtenRule gvk b (some (writtenRule gvk a found)) = writtenRule gvk a found := by
  cases found <;> simp [writtenRule, h]

theorem reconciledStore_idem (gvk : GroupVersionKind) (now1 now2 : Time) (st : Store)
    (s : AlertRule) :
    Store.sameUpToTimes
      (reconciledStore gvk now2 (reconciledStore gvk now1 st s) (reconciledSource now1 s))
      (reconciledStore gvk now1 st s) := by
  have hfr := reconciledSource_frame now1 s
  have hf := AddFinalizer_frame s finalizerName
  have hf2 := AddFinalizer_frame (reconciledSource now1 s) finalizerName
  constructor
  · intro key
    rw [reconciledStore_alertRules, reconciledSource_key]
    by_cases hx : key = Obj.key Kind.alertRule s
    · simp only [hx, if_true, reconciledStore_alertRules, Option.map_some',
        reconciledSource_eraseTimes]
    · simp only [hx, if_false]
  · funext x
    rw [reconciledStore_prometheusRules, hfr.1, hfr.2.1]
    by_cases hx : x = { Namespace := s.Namespace, Name := derivedName s.Name }
    · subst hx
      simp only [if_true, reconciledStore_prometheusRules]
      rw [writtenRule_idem]
      apply generatePrometheusRule_congr
      · rw [hf2.1, hfr.1, hf.1]
      · rw [hf2.2.1, hfr.2.1, hf.2.1]
      · rw [hf2.2.2.1, hfr.2.2.1, hf.2.2.1]
    · simp only [hx, if_false]

/-! ## Lemmas: more on the condition list and on finalizers -/

theorem replaceCondition_mem (c : Condition) (cs cs2 : List Condition)
    (h : replaceCondition c cs = some cs2) : c ∈ cs2 := by
  induction cs generalizing cs2 with
  | nil => simp [replaceCondition] at h
  | cons d ds ih =>
    by_cases hd : d.Type_ = c.Type_
    · simp only [replaceCondition, hd, if_true, Option.some.injEq] at h
      subst h
      simp
    · simp only [replaceCondition, hd, if_false, Option.map_eq_some'] at h
      obtain ⟨ds2, hds, rfl⟩ := h
      exact List.mem_cons_of_mem _ (ih ds2 hds)

theorem upsertCondition_mem (c : Condition) (cs : List Condition) :
    c ∈ upsertCondition cs c := by
  unfold upsertCondition
  cases h : replaceCondition c cs with
  | none => simp
  | some cs2 => exact replaceCondition_mem c cs cs2 h

theorem upsertCondition_of_not_mem (c : Condition) (cs : List Condition)
    (h : ∀ d ∈ cs, d.Type_ ≠ c.Type_) : upsertCondition cs c = cs ++ [c] := by
  have hn : replaceCondition c cs = none := by
    rw [replaceCondition_eq_none]
    intro hm
    obtain ⟨d, hd, hdt⟩ := List.mem_map.1 hm
    exact h d hd hdt
  simp [upsertCondition, hn]

theorem upsertCondition_at_first (c : Condition) (cs : List Condition) (i : Nat)
    (d : Condition) (hi : cs[i]? = some d) (hd : d.Type_ = c.Type_)
    (hfirst : ∀ (j : Nat) (x : Condition), j < i → cs[j]? = some x → x.Type_ ≠ c.Type_) :
    replaceCondition c cs = some (cs.take i ++ c :: cs.drop (i + 1)) := by
  induction cs generalizing i with
  | nil => simp at hi
  | cons x xs ih =>
    cases i with
    | zero =>
      simp only [List.getElem?_cons_zero, Option.some.injEq] at hi
      subst hi
      simp [replaceCondition, hd]
    | succ k =>
      have hx : x.Type_ ≠ c.Type_ := hfirst 0 x (Nat.succ_pos k) (by simp)
      simp only [List.getElem?_cons_succ] at hi
      have := ih k hi (fun j y hj hy => hfirst (j + 1) y (Nat.succ_lt_succ hj) (by simpa using hy))
      simp [replaceCondition, hx, this]

theorem AddFinalizer_meta (o : AlertRule) (f : String) :
    { (controllerutil.AddFinalizer o f).toObjectMeta with Finalizers := [] }
      = { o.toObjectMeta with Finalizers := [] } ∧
    (controllerutil.AddFinalizer o f).Finalizers.filter (fun e => e != f)
      = o.Finalizers.filter (fun e => e != f) := by
  by_cases h : f ∈ o.Finalizers
  · rw [AddFinalizer_of_mem o f h]; simp
  · rw [AddFinalizer_of_not_mem o f h]; simp [List.filter_append]

theorem RemoveFinalizer_meta (o : AlertRule) (f : String) :
    { (controllerutil.RemoveFinalizer o f).toObjectMeta with Finalizers := [] }
      = { o.toObjectMeta with Finalizers := [] } ∧
    (controllerutil.RemoveFinalizer o f).Finalizers.filter (fun e => e != f)
      = o.Finalizers.filter (fun e => e != f) ∧
    (controllerutil.RemoveFinalizer o f).Spec = o.Spec := by
  simp [controllerutil.RemoveFinalizer, List.filter_filter]

/-! ## Lemmas: one pass over `memClient`, with the calls it issues -/

theorem recording_Get {σ : Type} (c : Client σ) (k : Kind) (key : NamespacedName)
    (st : σ × List Call) :
    (recording c).Get k key st
      = ((c.Get k key st.1).1, ((c.Get k key st.1).2, st.2 ++ [⟨Verb.get, k, key⟩])) := rfl

theorem recording_Create {σ : Type} (c : Client σ) (k : Kind) (o : Obj k)
    (st : σ × List Call) :
    (recording c).Create k o st
      = ((c.Create k o st.1).1,
          ((c.Create k o st.1).2, st.2 ++ [⟨Verb.create, k, Obj.key k o⟩])) := rfl

theorem recording_Update {σ : Type} (c : Client σ) (k : Kind) (o : Obj k)
    (st : σ × List Call) :
    (recording c).Update k o st
      = ((c.Update k o st.1).1,
          ((c.Update k o st.1).2, st.2 ++ [⟨Verb.update, k, Obj.key k o⟩])) := rfl

theorem recording_Delete {σ : Type} (c : Client σ) (k : Kind) (o : Obj k)
    (st : σ × List Call) :
    (recording c).Delete k o st
      = ((c.Delete k o st.1).1,
          ((c.Delete k o st.1).2, st.2 ++ [⟨Verb.delete, k, Obj.key k o⟩])) := rfl

theorem recording_StatusUpdate {σ : Type} (c : Client σ) (k : Kind) (o : Obj k)
    (st : σ × List Call) :
    (recording c).StatusUpdate k o st
      = ((c.StatusUpdate k o st.1).1,
          ((c.StatusUpdate k o st.1).2, st.2 ++ [⟨Verb.statusUpdate, k, Obj.key k o⟩])) := rfl

theorem updateStatus_recording_memClient (scheme : Scheme) (now : Time) (a : AlertRule)
    (name state : String) (st : Store) (log : List Call) (stored : AlertRule)
    (h : st.alertRules (Obj.key Kind.alertRule a) = some stored) :
    updateStatus { Client := recording memClient, Scheme := scheme } now a name state (st, log)
      = (({}, none),
         (Store.put Kind.alertRule st
            { stored with Status := reportedStatus now a name state },
          log ++ [⟨Verb.statusUpdate, Kind.alertRule, Obj.key Kind.alertRule a⟩])) := by
  have hk : Obj.key Kind.alertRule
      { a with Status := reportedStatus now a name state } = Obj.key Kind.alertRule a := rfl
  have h2 : st.alertRules (Obj.key Kind.alertRule
      { a with Status := reportedStatus now a name state }) = some stored := by
    rw [hk]; exact h
  simp only [reportedStatus] at h2 hk
  simp only [updateStatus, recording_StatusUpdate, memClient_StatusUpdate_alertRule, h2, hk, h,
    reportedStatus]

theorem updateStatus_recording_memClient_put (scheme : Scheme) (now : Time) (a : AlertRule)
    (name state : String) (st : Store) (pr : PrometheusRule) (log : List Call)
    (stored : AlertRule) (h : st.alertRules (Obj.key Kind.alertRule a) = some stored) :
    updateStatus { Client := recording memClient, Scheme := scheme } now a name state
        (Store.put Kind.prometheusRule st pr, log)
      = (({}, none),
         (Store.put Kind.alertRule (Store.put Kind.prometheusRule st pr)
            { stored with Status := reportedStatus now a name state },
          log ++ [⟨Verb.statusUpdate, Kind.alertRule, Obj.key Kind.alertRule a⟩])) :=
  updateStatus_recording_memClient scheme now a name state _ log stored (by simpa using h)

theorem syncPrometheusRule_recording_memClient (scheme : Scheme) (gvk : GroupVersionKind)
    (now : Time) (a stored : AlertRule) (st : Store) (log : List Call)
    (hsch : scheme Kind.alertRule = some gvk)
    (h : st.alertRules (Obj.key Kind.alertRule a) = some stored) :
    syncPrometheusRule { Client := recording memClient, Scheme := scheme } now a (st, log)
      = (({}, none),
         (Store.put Kind.alertRule
           (Store.put Kind.prometheusRule st
             (writtenRule gvk a (st.prometheusRules ⟨a.Namespace, derivedName a.Name⟩)))
           { stored with Status := reportedStatus now a (derivedName a.Name) "Active" },
          log ++
            [⟨Verb.get, Kind.prometheusRule, ⟨a.Namespace, derivedName a.Name⟩⟩,
             ⟨if (st.prometheusRules ⟨a.Namespace, derivedName a.Name⟩).isSome = true
                then Verb.update else Verb.create,
              Kind.prometheusRule, ⟨a.Namespace, derivedName a.Name⟩⟩,
             ⟨Verb.statusUpdate, Kind.alertRule, Obj.key Kind.alertRule a⟩])) := by
  have hN : (generatePrometheusRule a).Name = derivedName a.Name := by
    rw [generatePrometheusRule_eq]
  have hNs : (generatePrometheusRule a).Namespace = a.Namespace := by
    rw [generatePrometheusRule_eq]
  cases hf : st.prometheusRules ⟨a.Namespace, derivedName a.Name⟩ with
  | none =>
    simp only [syncPrometheusRule, SetControllerReference_generated, hsch, recording_Get,
      recording_Create, memClient_Get_prometheusRule, hN, hNs, hf, writtenRule,
      memClient_Create_prometheusRule,
      Obj.key, Obj.meta, notFoundError, errors.IsNotFound, if_true,
      updateStatus_recording_memClient_put scheme now a _ _ st _ _ stored h]
    simp
  | some found =>
    have hfk := st.prometheusRules_key _ _ hf
    simp only [Obj.key, Obj.meta, NamespacedName.mk.injEq] at hfk
    simp only [syncPrometheusRule, SetControllerReference_generated, hsch, recording_Get,
      recording_Update, memClient_Get_prometheusRule, hN, hNs, hf, writtenRule,
      memClient_Update_prometheusRule,
      Obj.key, Obj.meta, hfk.1, hfk.2,
      updateStatus_recording_memClient_put scheme now a _ _ st _ _ stored h]
    simp

theorem Reconcile_recording_memClient_live_ok (scheme : Scheme) (gvk : GroupVersionKind)
    (now : Time) (req : NamespacedName) (st : Store) (s : AlertRule)
    (hs : st.alertRules req = some s) (hlive : Time.IsZero s.DeletionTimestamp = true)
    (hsch : scheme Kind.alertRule = some gvk) :
    Reconcile { Client := recording memClient, Scheme := scheme } now req (st, [])
      = (({}, none),
         (reconciledStore gvk now st s,
          [⟨Verb.get, Kind.alertRule, req⟩] ++
          (if finalizerName ∈ s.Finalizers then []
           else [⟨Verb.update, Kind.alertRule, req⟩]) ++
          [⟨Verb.get, Kind.prometheusRule, ⟨s.Namespace, derivedName s.Name⟩⟩,
           ⟨if (st.prometheusRules ⟨s.Namespace, derivedName s.Name⟩).isSome = true
              then Verb.update else Verb.create,
            Kind.prometheusRule, ⟨s.Namespace, derivedName s.Name⟩⟩,
           ⟨Verb.statusUpdate, Kind.alertRule, req⟩])) := by
  have hk : Obj.key Kind.alertRule s = req := st.alertRules_key _ _ hs
  have hf := AddFinalizer_frame s finalizerName
  have hk2 : Obj.key Kind.alertRule (controllerutil.AddFinalizer s finalizerName) = req := by
    rw [AddFinalizer_key]; exact hk
  have hsync := fun log => syncPrometheusRule_recording_memClient scheme gvk now
    (controllerutil.AddFinalizer s finalizerName) (controllerutil.AddFinalizer s finalizerName)
    (Store.put Kind.alertRule st (controllerutil.AddFinalizer s finalizerName)) log hsch
    (by simp)
  simp only [hf.1, hf.2.1, hk2, Store.put_alertRule_prometheusRules] at hsync
  by_cases hc : finalizerName ∈ s.Finalizers
  · have hc2 := (ContainsFinalizer_iff s finalizerName).2 hc
    have hself : Store.put Kind.alertRule st s = st :=
      Store.put_alertRule_self st s (by rw [hk]; exact hs)
    have hadd := AddFinalizer_of_mem s finalizerName hc
    rw [hadd, hself] at hsync
    simp only [Reconcile, recording_Get, memClient_Get_alertRule, hs, hlive, hc2, hsync]
    simp [reconciledStore, reconciledSource, hadd, hself, hc]
  · have hc2 : controllerutil.ContainsFinalizer s finalizerName = false := by
      cases hb : controllerutil.ContainsFinalizer s finalizerName
      · rfl
      · exact absurd ((ContainsFinalizer_iff s finalizerName).1 hb) hc
    simp only [Reconcile, recording_Get, recording_Update, memClient_Get_alertRule,
      memClient_Update_alertRule, hs, hlive, hc2, hk2, hsync]
    simp [reconciledStore, reconciledSource, hc, hf.1, hf.2.1]

theorem Reconcile_recording_memClient_live_error (scheme : Scheme) (now : Time)
    (req : NamespacedName) (st : Store) (s : AlertRule) (hs : st.alertRules req = some s)
    (hlive : Time.IsZero s.DeletionTimestamp = true) (hsch : scheme Kind.alertRule = none) :
    (Reconcile { Client := recording memClient, Scheme := scheme } now req (st, [])).1.2
      ≠ none := by
  have hk : Obj.key Kind.alertRule s = req := st.alertRules_key _ _ hs
  have hk2 : Obj.key Kind.alertRule (controllerutil.AddFinalizer s finalizerName) = req := by
    rw [AddFinalizer_key]; exact hk
  cases hb : controllerutil.ContainsFinalizer s finalizerName <;>
    simp [Reconcile, recording_Get, recording_Update, memClient_Get_alertRule,
      memClient_Update_alertRule, hs, hlive, hb, hk2, syncPrometheusRule,
      SetControllerReference_generated, hsch]

theorem writtenRule_unchanged (gvk : GroupVersionKind) (a : AlertRule) (p : PrometheusRule)
    (hspec : p.Spec = (generatePrometheusRule a).Spec)
    (hlabels : p.Labels = (generatePrometheusRule a).Labels) :
    writtenRule gvk a (some p) = p := by
  simp only [writtenRule, ← hspec, ← hlabels]

/-! ## Lemmas: the trace of a pass over an arbitrary client -/

theorem tracing_Get {σ : Type} (c : Client σ) (k : Kind) (key : NamespacedName)
    (st : σ) (tr : List (Call × Option Error)) :
    (tracing c).Get k key (st, tr)
      = ((c.Get k key st).1,
          ((c.Get k key st).2,
            tr ++ [(⟨Verb.get, k, key⟩, Except.errorOf (c.Get k key st).1)])) := rfl

theorem tracing_Create {σ : Type} (c : Client σ) (k : Kind) (o : Obj k)
    (st : σ) (tr : List (Call × Option Error)) :
    (tracing c).Create k o (st, tr)
      = ((c.Create k o st).1,
          ((c.Create k o st).2,
            tr ++ [(⟨Verb.create, k, Obj.key k o⟩, Except.errorOf (c.Create k o st).1)])) := rfl

theorem tracing_Update {σ : Type} (c : Client σ) (k : Kind) (o : Obj k)
    (st : σ) (tr : List (Call × Option Error)) :
    (tracing c).Update k o (st, tr)
      = ((c.Update k o st).1,
          ((c.Update k o st).2,
            tr ++ [(⟨Verb.update, k, Obj.key k o⟩, Except.errorOf (c.Update k o st).1)])) := rfl

theorem tracing_Delete {σ : Type} (c : Client σ) (k : Kind) (o : Obj k)
    (st : σ) (tr : List (Call × Option Error)) :
    (tracing c).Delete k o (st, tr)
      = ((c.Delete k o st).1,
          ((c.Delete k o st).2,
            tr ++ [(⟨Verb.delete, k, Obj.key k o⟩, (c.Delete k o st).1)])) := rfl

theorem tracing_StatusUpdate {σ : Type} (c : Client σ) (k : Kind) (o : Obj k)
    (st : σ) (tr : List (Call × Option Error)) :
    (tracing c).StatusUpdate k o (st, tr)
      = ((c.StatusUpdate k o st).1,
          ((c.StatusUpdate k o st).2,
            tr ++ [(⟨Verb.statusUpdate, k, Obj.key k o⟩,
              Except.errorOf (c.StatusUpdate k o st).1)])) := rfl

theorem continues_ok (call : Call) : continues (call, none) := by
  intro e h; cases h

theorem continues_get_notFound (k : Kind) (key : NamespacedName) (e : Error)
    (h : errors.IsNotFound e = true) : continues (⟨Verb.get, k, key⟩, some e) := by
  intro e2 h2
  simp only [Option.some.injEq] at h2
  subst h2
  exact ⟨rfl, h⟩

theorem failStop_nil (res : Result × Option Error) : failStop [] res := by
  simp [failStop]

theorem failStop_single_ok (call : Call) (res : Result × Option Error) :
    failStop [(call, none)] res := by
  refine ⟨by simp, ?_⟩
  intro x hx hn
  simp only [List.getLast?_singleton, Option.some.injEq] at hx
  subst hx
  exact absurd (continues_ok call) hn

theorem failStop_single_error (call : Call) (e : Error) :
    failStop [(call, some e)] ({}, some e) := by
  refine ⟨by simp, ?_⟩
  intro x hx _
  simp only [List.getLast?_singleton, Option.some.injEq] at hx
  subst hx
  rfl

theorem failStop_cons (x : Call × Option Error) (tr : List (Call × Option Error))
    (res : Result × Option Error) (hx : continues x) (htr : failStop tr res) :
    failStop (x :: tr) res := by
  cases tr with
  | nil =>
    refine ⟨by simp, ?_⟩
    intro y hy hn
    simp only [List.getLast?_singleton, Option.some.injEq] at hy
    subst hy
    exact absurd hx hn
  | cons y ys =>
    refine ⟨?_, ?_⟩
    · intro z hz
      simp only [List.dropLast_cons₂, List.mem_cons] at hz
      rcases hz with rfl | hz
      · exact hx
      · exact htr.1 z hz
    · intro z hz hn
      rw [List.getLast?_cons_cons] at hz
      exact htr.2 z hz hn

theorem failStop_append (log tr : List (Call × Option Error)) (res : Result × Option Error)
    (hlog : ∀ x ∈ log, continues x) (htr : failStop tr res) : failStop (log ++ tr) res := by
  induction log with
  | nil => simpa using htr
  | cons x xs ih =>
    rw [List.cons_append]
    exact failStop_cons x _ res (hlog x (List.mem_cons_self _ _))
      (ih (fun y hy => hlog y (List.mem_cons_of_mem _ hy)))

theorem updateStatus_tracing {σ : Type} (c : Client σ) (scheme : Scheme) (now : Time)
    (a : AlertRule) (name state : String) (st : σ) (log : List (Call × Option Error)) :
    ∃ new : List (Call × Option Error),
      (updateStatus { Client := tracing c, Scheme := scheme } now a name state (st, log)).2.2
        = log ++ new ∧
      failStop new
        (updateStatus { Client := tracing c, Scheme := scheme } now a name state (st, log)).1 ∧
      ∀ x ∈ new, x.1.verb ≠ Verb.delete := by
  simp only [updateStatus, tracing_StatusUpdate]
  generalize hr : c.StatusUpdate Kind.alertRule _ st = r
  obtain ⟨r1, st1⟩ := r
  cases r1 with
  | error e =>
    exact ⟨[_], rfl, failStop_single_error _ e, by simp⟩
  | ok o =>
    exact ⟨[_], rfl, failStop_single_ok _ _, by simp⟩

theorem trace_step (log trace : List (Call × Option Error)) (x : Call × Option Error)
    (res : Result × Option Error) (hx : continues x) (hv : x.1.verb ≠ Verb.delete)
    (h : ∃ new : List (Call × Option Error), trace = (log ++ [x]) ++ new ∧
      failStop new res ∧ ∀ y ∈ new, y.1.verb ≠ Verb.delete) :
    ∃ new : List (Call × Option Error), trace = log ++ new ∧
      failStop new res ∧ ∀ y ∈ new, y.1.verb ≠ Verb.delete := by
  obtain ⟨new, h1, h2, h3⟩ := h
  refine ⟨x :: new, by rw [h1]; simp, failStop_cons x new res hx h2, ?_⟩
  intro y hy
  rcases List.mem_cons.1 hy with rfl | hy
  · exact hv
  · exact h3 y hy

theorem syncPrometheusRule_tracing {σ : Type} (c : Client σ) (scheme : Scheme) (now : Time)
    (a : AlertRule) (st : σ) (log : List (Call × Option Error)) :
    ∃ new : List (Call × Option Error),
      (syncPrometheusRule { Client := tracing c, Scheme := scheme } now a (st, log)).2.2
        = log ++ new ∧
      failStop new
        (syncPrometheusRule { Client := tracing c, Scheme := scheme } now a (st, log)).1 ∧
      ∀ x ∈ new, x.1.verb ≠ Verb.delete := by
  simp only [syncPrometheusRule]
  cases controllerutil.SetControllerReference a (generatePrometheusRule a) scheme with
  | error e => exact ⟨[], by simp, failStop_nil _, by simp⟩
  | ok pr =>
    simp only [tracing_Get]
    generalize c.Get Kind.prometheusRule { Name := pr.Name, Namespace := pr.Namespace } st = r
    obtain ⟨r1, st1⟩ := r
    cases r1 with
    | error e =>
      by_cases hnf : errors.IsNotFound e = true
      · simp only [hnf, if_true, tracing_Create, Except.errorOf]
        generalize c.Create Kind.prometheusRule pr st1 = r2
        obtain ⟨r2, st2⟩ := r2
        cases r2 with
        | error e2 =>
          exact trace_step _ _ _ _ (continues_get_notFound _ _ e hnf) (by simp)
            ⟨[_], rfl, failStop_single_error _ e2, by simp⟩
        | ok pr2 =>
          simp only [Except.errorOf]
          exact trace_step _ _ _ _ (continues_get_notFound _ _ e hnf) (by simp)
            (trace_step _ _ _ _ (continues_ok _) (by simp)
              (updateStatus_tracing c scheme now a pr2.Name "Active" st2 _))
      · simp only [hnf, Except.errorOf]
        exact ⟨[_], rfl, failStop_single_error _ e, by simp⟩
    | ok found =>
      simp only [tracing_Update, Except.errorOf]
      generalize c.Update Kind.prometheusRule _ st1 = r2
      obtain ⟨r2, st2⟩ := r2
      cases r2 with
      | error e2 =>
        exact trace_step _ _ _ _ (continues_ok _) (by simp)
          ⟨[_], rfl, failStop_single_error _ e2, by simp⟩
      | ok found2 =>
        simp only [Except.errorOf]
        exact trace_step _ _ _ _ (continues_ok _) (by simp)
          (trace_step _ _ _ _ (continues_ok _) (by simp)
            (updateStatus_tracing c scheme now a found2.Name "Active" st2 _))

theorem failStop_of_sync {σ : Type} (c : Client σ) (scheme : Scheme) (now : Time)
    (a : AlertRule) (st : σ) (log : List (Call × Option Error))
    (hlog : ∀ x ∈ log, continues x) :
    failStop
      (syncPrometheusRule { Client := tracing c, Scheme := scheme } now a (st, log)).2.2
      (syncPrometheusRule { Client := tracing c, Scheme := scheme } now a (st, log)).1 := by
  obtain ⟨new, h1, h2, _⟩ := syncPrometheusRule_tracing c scheme now a st log
  rw [h1]
  exact failStop_append log new _ hlog h2

theorem Reconcile_failStop {σ : Type} (c : Client σ) (scheme : Scheme) (now : Time)
    (req : NamespacedName) (st : σ) :
    failStop (Reconcile { Client := tracing c, Scheme := scheme } now req (st, [])).2.2
      (Reconcile { Client := tracing c, Scheme := scheme } now req (st, [])).1 := by
  simp only [Reconcile, tracing_Get, List.nil_append]
  generalize c.Get Kind.alertRule req st = r
  obtain ⟨r1, st1⟩ := r
  cases r1 with
  | error e =>
    by_cases hnf : errors.IsNotFound e = true
    · simp only [hnf, if_true, Except.errorOf]
      exact failStop_cons _ _ _ (continues_get_notFound _ _ e hnf) (failStop_nil _)
    · simp only [hnf, Except.errorOf]
      exact failStop_single_error _ e
  | ok a =>
    simp only [Except.errorOf]
    cases hz : Time.IsZero a.DeletionTimestamp with
    | false =>
      cases hc : controllerutil.ContainsFinalizer a finalizerName with
      | false =>
        simp only [Bool.not_false, if_true, Bool.false_eq_true, if_false]
        exact failStop_single_ok _ _
      | true =>
        simp only [Bool.not_false, if_true, deletePrometheusRule, tracing_Get]
        generalize c.Get Kind.prometheusRule
          { Name := derivedName a.Name, Namespace := a.Namespace } st1 = r2
        obtain ⟨r2, st2⟩ := r2
        cases r2 with
        | error e =>
          by_cases hnf : errors.IsNotFound e = true
          · simp only [hnf, if_true, Except.errorOf, tracing_Update]
            generalize c.Update Kind.alertRule _ st2 = r3
            obtain ⟨r3, st3⟩ := r3
            cases r3 with
            | error e3 =>
              exact failStop_cons _ _ _ (continues_ok _)
                (failStop_cons _ _ _ (continues_get_notFound _ _ e hnf)
                  (failStop_single_error _ e3))
            | ok a3 =>
              exact failStop_cons _ _ _ (continues_ok _)
                (failStop_cons _ _ _ (continues_get_notFound _ _ e hnf)
                  (failStop_single_ok _ _))
          · simp only [hnf, Except.errorOf]
            exact failStop_cons _ _ _ (continues_ok _) (failStop_single_error _ e)
        | ok p =>
          simp only [tracing_Delete, Except.errorOf]
          generalize c.Delete Kind.prometheusRule p st2 = d
          obtain ⟨d1, st3⟩ := d
          cases d1 with
          | some e =>
            exact failStop_cons _ _ _ (continues_ok _)
              (failStop_cons _ _ _ (continues_ok _) (failStop_single_error _ e))
          | none =>
            simp only [tracing_Update]
            generalize c.Update Kind.alertRule _ st3 = r3
            obtain ⟨r3, st4⟩ := r3
            cases r3 with
            | error e3 =>
              exact failStop_cons _ _ _ (continues_ok _)
                (failStop_cons _ _ _ (continues_ok _)
                  (failStop_cons _ _ _ (continues_ok _) (failStop_single_error _ e3)))
            | ok a3 =>
              exact failStop_cons _ _ _ (continues_ok _)
                (failStop_cons _ _ _ (continues_ok _)
                  (failStop_cons _ _ _ (continues_ok _) (failStop_single_ok _ _)))
    | true =>
      cases hc : controllerutil.ContainsFinalizer a finalizerName with
      | false =>
        simp only [Bool.not_true, Bool.false_eq_true, if_false, Bool.not_false, if_true,
          tracing_Update]
        generalize c.Update Kind.alertRule _ st1 = r3
        obtain ⟨r3, st3⟩ := r3
        cases r3 with
        | error e3 =>
          exact failStop_cons _ _ _ (continues_ok _) (failStop_single_error _ e3)
        | ok a3 =>
          simp only [Except.errorOf]
          apply failStop_of_sync
          intro x hx
          simp only [List.mem_append, List.mem_singleton] at hx
          rcases hx with rfl | rfl <;> exact continues_ok _
      | true =>
        simp only [Bool.not_true, Bool.false_eq_true, if_false]
        apply failStop_of_sync
        intro x hx
        simp only [List.mem_singleton] at hx
        subst hx
        exact continues_ok _

theorem no_delete_of_sync {σ : Type} (c : Client σ) (scheme : Scheme) (now : Time)
    (a : AlertRule) (st : σ) (log : List (Call × Option Error))
    (hlog : ∀ x ∈ log, x.1.verb ≠ Verb.delete) :
    ∀ x ∈ (syncPrometheusRule { Client := tracing c, Scheme := scheme } now a (st, log)).2.2,
      x.1.verb ≠ Verb.delete := by
  obtain ⟨new, h1, _, h3⟩ := syncPrometheusRule_tracing c scheme now a st log
  rw [h1]
  intro x hx
  rcases List.mem_append.1 hx with h | h
  · exact hlog x h
  · exact h3 x h

/-! ## Lemmas: the mock client -/

@[simp] theorem MockClient.store_objects (m : MockClient) (key x : String) (v : RuntimeObject) :
    (m.store key v).objects x = if x = key then some v else m.objects x := rfl

@[simp] theorem MockClient.erase_objects (m : MockClient) (key x : String) :
    (m.erase key).objects x = if x = key then none else m.objects x := rfl

theorem MockClient.Get_absent (k : Kind) (key : NamespacedName) (m : MockClient)
    (h : m.objects (alertRuleKey key.Namespace key.Name) = none) :
    MockClient.Get k key m = (Except.error (errors.NewNotFound key.Name), m) := by
  simp [MockClient.Get, h]

theorem MockClient.Get_alertRule (key : NamespacedName) (m : MockClient) (a : AlertRule)
    (h : m.objects (alertRuleKey key.Namespace key.Name) = some (RuntimeObject.alertRule a)) :
    MockClient.Get Kind.alertRule key m = (Except.ok a, m) := by
  simp [MockClient.Get, h]

theorem MockClient.Get_prometheusRule_present (key : NamespacedName) (m : MockClient)
    (stored : RuntimeObject)
    (h : m.objects (alertRuleKey key.Namespace key.Name) = some stored) :
    MockClient.Get Kind.prometheusRule key m = (Except.error typeMismatch, m) := by
  simp [MockClient.Get, h]

theorem MockClient.Create_prometheusRule (now : Time) (p : PrometheusRule) (m : MockClient) :
    MockClient.Create now Kind.prometheusRule p m = (Except.error unsupportedObjectType, m) := by
  simp [MockClient.Create, MockClient.objectKey]

theorem MockClient.Update_alertRule_absent (now : Time) (o : AlertRule) (m : MockClient)
    (h : m.objects (alertRuleKey o.Namespace o.Name) = none) :
    MockClient.Update now Kind.alertRule o m = (Except.error (errors.NewNotFound o.Name), m) := by
  simp [MockClient.Update, MockClient.objectKey, h, Obj.meta]

theorem MockClient.Delete_alertRule_absent (o : AlertRule) (m : MockClient)
    (h : m.objects (alertRuleKey o.Namespace o.Name) = none) :
    MockClient.Delete Kind.alertRule o m = (some (errors.NewNotFound o.Name), m) := by
  simp [MockClient.Delete, MockClient.objectKey, h, Obj.meta]

theorem MockClient.Delete_alertRule_present (o : AlertRule) (m : MockClient)
    (stored : RuntimeObject) (h : m.objects (alertRuleKey o.Namespace o.Name) = some stored) :
    MockClient.Delete Kind.alertRule o m
      = (none, m.erase (alertRuleKey o.Namespace o.Name)) := by
  simp [MockClient.Delete, MockClient.objectKey, h]

theorem MockClient.Update_alertRule_present (now : Time) (o a : AlertRule) (m : MockClient)
    (h : m.objects (alertRuleKey o.Namespace o.Name) = some (RuntimeObject.alertRule a)) :
    MockClient.Update now Kind.alertRule o m
      = (Except.ok
          { o with
            Generation := int64 (a.Generation + 1)
            CreationTimestamp := a.CreationTimestamp
            UID := a.UID
            Status :=
              { o.Status with
                LastReconcileTime := some now
                Conditions := o.Status.Conditions ++
                  [mockUpdatedCondition now (int64 (a.Generation + 1)) o.Name] } },
         m.store (alertRuleKey o.Namespace o.Name)
          (RuntimeObject.alertRule
            { o with
              Generation := int64 (a.Generation + 1)
              CreationTimestamp := a.CreationTimestamp
              UID := a.UID
              Status :=
                { o.Status with
                  LastReconcileTime := some now
                  Conditions := o.Status.Conditions ++
                    [mockUpdatedCondition now (int64 (a.Generation + 1)) o.Name] } })) := by
  simp [MockClient.Update, MockClient.objectKey, h, RuntimeObject.objectMeta, Obj.withMeta,
    Obj.meta, mockSetUpdatedStatus, Obj.toRuntime]

theorem MockClient.Update_alertRule_some (now : Time) (o : AlertRule) (m : MockClient)
    (stored : RuntimeObject) (h : m.objects (alertRuleKey o.Namespace o.Name) = some stored) :
    ∃ b : AlertRule,
      MockClient.Update now Kind.alertRule o m
        = (Except.ok b, m.store (alertRuleKey o.Namespace o.Name) (RuntimeObject.alertRule b)) ∧
      b.Name = o.Name ∧ b.Namespace = o.Namespace ∧ b.Spec = o.Spec ∧
      b.Finalizers = o.Finalizers ∧ b.DeletionTimestamp = o.DeletionTimestamp ∧
      b.Status.Conditions
        = o.Status.Conditions ++ [mockUpdatedCondition now b.Generation o.Name] := by
  cases hm : stored.objectMeta with
  | none =>
    refine ⟨{ o with
        Status :=
          { o.Status with
            LastReconcileTime := some now
            Conditions := o.Status.Conditions ++
              [mockUpdatedCondition now o.Generation o.Name] } }, ?_, ?_⟩
    · simp only [MockClient.Update, MockClient.objectKey, h, hm, mockSetUpdatedStatus,
        Obj.toRuntime]
    · simp
  | some em =>
    refine ⟨{ o with
        Generation := int64 (em.Generation + 1)
        CreationTimestamp := em.CreationTimestamp
        UID := em.UID
        Status :=
          { o.Status with
            LastReconcileTime := some now
            Conditions := o.Status.Conditions ++
              [mockUpdatedCondition now (int64 (em.Generation + 1)) o.Name] } }, ?_, ?_⟩
    · simp only [MockClient.Update, MockClient.objectKey, h, hm, mockSetUpdatedStatus,
        Obj.toRuntime, Obj.withMeta, Obj.meta]
    · simp

theorem MockClient.Create_alertRule_absent (now : Time) (o : AlertRule) (m : MockClient)
    (h : m.objects (alertRuleKey o.Namespace o.Name) = none) :
    MockClient.Create now Kind.alertRule o m
      = (Except.ok
          { o with
            CreationTimestamp := now
            UID := "mock-uid-" ++ toString now
            Generation := 1
            Status := mockCreatedStatus now o.Name },
         m.store (alertRuleKey o.Namespace o.Name)
          (RuntimeObject.alertRule
            { o with
              CreationTimestamp := now
              UID := "mock-uid-" ++ toString now
              Generation := 1
              Status := mockCreatedStatus now o.Name })) := by
  simp [MockClient.Create, MockClient.objectKey, h, Obj.toRuntime, Obj.withMeta, Obj.meta,
    mockSetCreatedStatus]

theorem mockClient_syncPrometheusRule (now : Time) (scheme : Scheme) (t : Time)
    (a : AlertRule) (m : MockClient) :
    (syncPrometheusRule { Client := mockClient now, Scheme := scheme } t a m).1.2 ≠ none ∧
    (syncPrometheusRule { Client := mockClient now, Scheme := scheme } t a m).2 = m := by
  simp only [syncPrometheusRule, SetControllerReference_generated, mockClient]
  cases scheme Kind.alertRule with
  | none => simp
  | some gvk =>
    simp only
    cases hg : m.objects (alertRuleKey (generatePrometheusRule a).Namespace
        (generatePrometheusRule a).Name) with
    | none =>
      simp [MockClient.Get, hg, errors.NewNotFound, errors.IsNotFound,
        MockClient.Create_prometheusRule]
    | some stored =>
      simp [MockClient.Get, hg, typeMismatch, errors.IsNotFound]

/-! # The claims -/

/-- C1: for a non-terminating AlertRule `s` held by the store that persists objects as
written, whatever the store holds at the derived identity before the pass (nothing, or a rule
with any other spec and labels), a successful `Reconcile` leaves a derived rule at
`(s.namespace, "kneutral-" + s.name)` whose spec and label map are those of
`generatePrometheusRule s`. -/
theorem C1_derived_rule_equals_translation (scheme : Scheme) (now : Time) (st : Store)
    (s : AlertRule)
    (hs : st.alertRules { Namespace := s.Namespace, Name := s.Name } = some s)
    (hlive : Time.IsZero s.DeletionTimestamp = true)
    (hok : (Reconcile { Client := memClient, Scheme := scheme } now
              { Namespace := s.Namespace, Name := s.Name } st).1.2 = none) :
    ∃ p : PrometheusRule,
      (Reconcile { Client := memClient, Scheme := scheme } now
          { Namespace := s.Namespace, Name := s.Name } st).2.prometheusRules
        { Namespace := s.Namespace, Name := "kneutral-" ++ s.Name } = some p ∧
      p.Spec = (generatePrometheusRule s).Spec ∧
      p.Labels = (generatePrometheusRule s).Labels := by
  have hf := AddFinalizer_frame s finalizerName
  have hgen := generatePrometheusRule_congr (controllerutil.AddFinalizer s finalizerName) s
    hf.1 hf.2.1 hf.2.2.1
  rw [Reconcile_memClient_live scheme now _ st s hs hlive] at hok ⊢
  cases hsch : scheme Kind.alertRule with
  | none =>
    rw [syncPrometheusRule_memClient_error scheme now _ _ hsch] at hok
    cases hok
  | some gvk =>
    have hstored : (Store.put Kind.alertRule st
        (controllerutil.AddFinalizer s finalizerName)).alertRules
        (Obj.key Kind.alertRule (controllerutil.AddFinalizer s finalizerName))
        = some (controllerutil.AddFinalizer s finalizerName) := by simp
    rw [syncPrometheusRule_memClient scheme gvk now _ _ _ hsch hstored]
    have hkey := writtenRule_key gvk (controllerutil.AddFinalizer s finalizerName)
      (Store.put Kind.alertRule st (controllerutil.AddFinalizer s finalizerName))
    rw [hf.1, hf.2.1] at hkey ⊢
    simp only [Store.put_alertRule_prometheusRules] at hkey ⊢
    refine ⟨writtenRule gvk (controllerutil.AddFinalizer s finalizerName)
      (st.prometheusRules { Namespace := s.Namespace, Name := derivedName s.Name }), ?_, ?_, ?_⟩
    · simp only [Store.put_prometheusRule_prometheusRules]
      rw [hkey]
      simp [derivedName]
    · cases st.prometheusRules { Namespace := s.Namespace, Name := derivedName s.Name } <;>
        simp [writtenRule, hgen]
    · cases st.prometheusRules { Namespace := s.Namespace, Name := derivedName s.Name } <;>
        simp [writtenRule, hgen]

/-- The update path of C1 at the example store, where a stale rule sits at the derived identity. -/
theorem C1_derived_rule_equals_translation_witness :
    exampleStore.prometheusRules
        { Namespace := cpuAlert.Namespace, Name := "kneutral-" ++ cpuAlert.Name }
      = some staleRule ∧
    ∃ p : PrometheusRule,
      (Reconcile { Client := memClient, Scheme := exampleScheme } 7
          { Namespace := cpuAlert.Namespace, Name := cpuAlert.Name }
          exampleStore).2.prometheusRules
        { Namespace := cpuAlert.Namespace, Name := "kneutral-" ++ cpuAlert.Name } = some p ∧
      p.Spec = (generatePrometheusRule cpuAlert).Spec ∧
      p.Labels = (generatePrometheusRule cpuAlert).Labels :=
  ⟨by decide,
   C1_derived_rule_equals_translation exampleScheme 7 exampleStore cpuAlert (by decide)
     (by decide) (by decide)⟩

/-- C2 (as stated, refuted): a source whose `spec.labels` binds the reserved key
`app.kubernetes.io/managed-by` gets its own value in the translated label map, not the
operator-identity value, so "the output always maps a reserved key of the source to the
operator-identity value" fails. -/
theorem C2_counterexample :
    ¬ (∀ (a : AlertRule) (k v0 v : String), StringMap.WF a.Spec.Labels →
        (k, v0) ∈ identityLabels a.Name → mapGet a.Spec.Labels k = some v →
        mapGet (generatePrometheusRule a).Labels k = some v0) := by
  intro h
  have h1 := h { Name := "cpu", Namespace := "monitoring",
                 Spec := { Labels := [("app.kubernetes.io/managed-by", "someone-else")] } }
    "app.kubernetes.io/managed-by" "kneutral-operator" "someone-else"
    (by decide) (by decide) (by decide)
  revert h1
  decide

/-- C2 (amended): for each of the three reserved keys, with operator-identity value `v0`,
the label map produced by `generatePrometheusRule` maps the key to the source-supplied
value when `spec.labels` contains the key, and to `v0` only when it does not. -/
theorem C2_reserved_key_value (a : AlertRule) (hwf : StringMap.WF a.Spec.Labels)
    (k v0 : String) (hk : (k, v0) ∈ identityLabels a.Name) :
    k ∈ reservedKeys ∧
    mapGet (generatePrometheusRule a).Labels k = some ((mapGet a.Spec.Labels k).getD v0) := by
  have hcases : (k = "app.kubernetes.io/managed-by" ∧ v0 = "kneutral-operator") ∨
      (k = "app.kubernetes.io/instance" ∧ v0 = "kneutral") ∨
      (k = "app.kubernetes.io/name" ∧ v0 = a.Name) := by
    simpa [identityLabels] using hk
  have hid : mapGet (identityLabels a.Name) k = some v0 := by
    rcases hcases with ⟨rfl, rfl⟩ | ⟨rfl, rfl⟩ | ⟨rfl, rfl⟩ <;> simp [identityLabels, mapGet]
  refine ⟨?_, ?_⟩
  · rcases hcases with ⟨rfl, _⟩ | ⟨rfl, _⟩ | ⟨rfl, _⟩ <;> simp [reservedKeys]
  · rw [generatePrometheusRule_eq]
    simp only
    rw [mapGet_mergeLabels _ _ hwf, hid]
    cases mapGet a.Spec.Labels k <;> simp

/-- The amended C2 at a source that binds the reserved instance key itself. -/
theorem C2_reserved_key_value_witness :
    "app.kubernetes.io/instance" ∈ reservedKeys ∧
    mapGet (generatePrometheusRule
      { Name := "arista-dom-monitoring", Namespace := "network",
        Spec := { Labels := [("app.kubernetes.io/instance", "kneutral-2")] } }).Labels
      "app.kubernetes.io/instance"
      = some ((mapGet [("app.kubernetes.io/instance", "kneutral-2")]
          "app.kubernetes.io/instance").getD "kneutral") :=
  C2_reserved_key_value
    { Name := "arista-dom-monitoring", Namespace := "network",
      Spec := { Labels := [("app.kubernetes.io/instance", "kneutral-2")] } }
    (by decide) "app.kubernetes.io/instance" "kneutral" (by decide)

/-- C3: for a stored AlertRule carrying a deletion marker and the finalizer token,
`Reconcile` removes the derived rule before it clears the token.  When the lookup of the
derived rule, or the delete of the derived rule that the lookup found, fails with an error
`e` other than not-found, `Reconcile` returns `e`; the client has then received gets and at
most the delete, no update of any kind, and the store is unchanged: the stored source still
carries the finalizer token.  When the lookup finds the derived rule and no call fails, the
calls are, in this order, the fetch, the lookup, the delete of the derived rule and the
update of the source; the pass succeeds, the derived rule is gone and the stored source is
the fetched one without the token.  When the lookup reports not-found, the calls are the
fetch, the lookup and the update of the source, which stores the source without the
token. -/
theorem C3_cleanup_before_token_removal (scheme : Scheme) (now : Time)
    (req : NamespacedName) (st : Store) (s : AlertRule)
    (hs : st.alertRules req = some s)
    (hdel : Time.IsZero s.DeletionTimestamp = false)
    (hfin : finalizerName ∈ s.Finalizers) :
    (∀ (fault : Call → Option Error) (e : Error),
      fault ⟨Verb.get, Kind.alertRule, req⟩ = none →
      errors.IsNotFound e = false →
      (fault ⟨Verb.get, Kind.prometheusRule, ⟨s.Namespace, "kneutral-" ++ s.Name⟩⟩ = some e ∨
       (fault ⟨Verb.get, Kind.prometheusRule, ⟨s.Namespace, "kneutral-" ++ s.Name⟩⟩ = none ∧
        (st.prometheusRules ⟨s.Namespace, "kneutral-" ++ s.Name⟩).isSome = true ∧
        fault ⟨Verb.delete, Kind.prometheusRule, ⟨s.Namespace, "kneutral-" ++ s.Name⟩⟩
          = some e)) →
      (Reconcile { Client := recording (failing memClient fault), Scheme := scheme } now req
          (st, [])).1 = ({ Requeue := false, RequeueAfter := 0 }, some e) ∧
      (∀ call ∈ (Reconcile { Client := recording (failing memClient fault), Scheme := scheme }
          now req (st, [])).2.2, call.verb = Verb.get ∨ call.verb = Verb.delete) ∧
      (Reconcile { Client := recording (failing memClient fault), Scheme := scheme } now req
          (st, [])).2.1 = st ∧
      ∃ a : AlertRule,
        (Reconcile { Client := recording (failing memClient fault), Scheme := scheme } now req
          (st, [])).2.1.alertRules req = some a ∧
        finalizerName ∈ a.Finalizers) ∧
    (∀ (fault : Call → Option Error) (p : PrometheusRule),
      fault ⟨Verb.get, Kind.alertRule, req⟩ = none →
      fault ⟨Verb.get, Kind.prometheusRule, ⟨s.Namespace, "kneutral-" ++ s.Name⟩⟩ = none →
      fault ⟨Verb.delete, Kind.prometheusRule, ⟨s.Namespace, "kneutral-" ++ s.Name⟩⟩ = none →
      fault ⟨Verb.update, Kind.alertRule, req⟩ = none →
      st.prometheusRules ⟨s.Namespace, "kneutral-" ++ s.Name⟩ = some p →
      (Reconcile { Client := recording (failing memClient fault), Scheme := scheme } now req
          (st, [])).1 = ({ Requeue := false, RequeueAfter := 0 }, none) ∧
      (Reconcile { Client := recording (failing memClient fault), Scheme := scheme } now req
          (st, [])).2.2
        = [⟨Verb.get, Kind.alertRule, req⟩,
           ⟨Verb.get, Kind.prometheusRule, ⟨s.Namespace, "kneutral-" ++ s.Name⟩⟩,
           ⟨Verb.delete, Kind.prometheusRule, ⟨s.Namespace, "kneutral-" ++ s.Name⟩⟩,
           ⟨Verb.update, Kind.alertRule, req⟩] ∧
      (Reconcile { Client := recording (failing memClient fault), Scheme := scheme } now req
          (st, [])).2.1.prometheusRules ⟨s.Namespace, "kneutral-" ++ s.Name⟩ = none ∧
      ∃ a : AlertRule,
        (Reconcile { Client := recording (failing memClient fault), Scheme := scheme } now req
          (st, [])).2.1.alertRules req = some a ∧
        finalizerName ∉ a.Finalizers ∧
        a.Finalizers = s.Finalizers.filter (fun f => f != finalizerName) ∧
        { a with Finalizers := s.Finalizers } = s) ∧
    (∀ (fault : Call → Option Error),
      fault ⟨Verb.get, Kind.alertRule, req⟩ = none →
      fault ⟨Verb.get, Kind.prometheusRule, ⟨s.Namespace, "kneutral-" ++ s.Name⟩⟩ = none →
      fault ⟨Verb.update, Kind.alertRule, req⟩ = none →
      st.prometheusRules ⟨s.Namespace, "kneutral-" ++ s.Name⟩ = none →
      (Reconcile { Client := recording (failing memClient fault), Scheme := scheme } now req
          (st, [])).1 = ({ Requeue := false, RequeueAfter := 0 }, none) ∧
      (Reconcile { Client := recording (failing memClient fault), Scheme := scheme } now req
          (st, [])).2.2
        = [⟨Verb.get, Kind.alertRule, req⟩,
           ⟨Verb.get, Kind.prometheusRule, ⟨s.Namespace, "kneutral-" ++ s.Name⟩⟩,
           ⟨Verb.update, Kind.alertRule, req⟩] ∧
      ∃ a : AlertRule,
        (Reconcile { Client := recording (failing memClient fault), Scheme := scheme } now req
          (st, [])).2.1.alertRules req = some a ∧
        finalizerName ∉ a.Finalizers ∧
        a.Finalizers = s.Finalizers.filter (fun f => f != finalizerName) ∧
        { a with Finalizers := s.Finalizers } = s) := by
  have hc := (ContainsFinalizer_iff s finalizerName).2 hfin
  have hk : Obj.key Kind.alertRule s = req := st.alertRules_key _ _ hs
  have hrk : Obj.key Kind.alertRule (controllerutil.RemoveFinalizer s finalizerName) = req := hk
  refine ⟨?_, ?_, ?_⟩
  · intro fault e hget hne hfail
    refine ⟨?_, ?_, ?_, s, ?_, hfin⟩
    all_goals
      rcases hfail with hf | ⟨hf, hex, hd⟩
      · simp [Reconcile, deletePrometheusRule, recording, failing, hget,
          memClient_Get_alertRule, hs, hdel, hc, derivedName, hf, hne]
      · obtain ⟨p, hp⟩ := Option.isSome_iff_exists.1 hex
        have hpk := st.prometheusRules_key _ _ hp
        simp [Reconcile, deletePrometheusRule, recording, failing, hget,
          memClient_Get_alertRule, memClient_Get_prometheusRule, hs, hdel, hc, derivedName, hf,
          hp, hpk, hd, hne]
  · intro fault p hget hlook hdl hupd hp
    have hpk := st.prometheusRules_key _ _ hp
    have hrun : Reconcile { Client := recording (failing memClient fault), Scheme := scheme }
        now req (st, [])
        = (({}, none),
           (Store.put Kind.alertRule
              (Store.remove Kind.prometheusRule st ⟨s.Namespace, "kneutral-" ++ s.Name⟩)
              (controllerutil.RemoveFinalizer s finalizerName),
            [⟨Verb.get, Kind.alertRule, req⟩,
             ⟨Verb.get, Kind.prometheusRule, ⟨s.Namespace, "kneutral-" ++ s.Name⟩⟩,
             ⟨Verb.delete, Kind.prometheusRule, ⟨s.Namespace, "kneutral-" ++ s.Name⟩⟩,
             ⟨Verb.update, Kind.alertRule, req⟩])) := by
      simp [Reconcile, deletePrometheusRule, recording, failing, hget, hlook, hdl, hupd,
        memClient_Get_alertRule, memClient_Get_prometheusRule, memClient_Update_alertRule,
        memClient_Delete_prometheusRule, hrk, hs, hdel, hc, derivedName, hp, hpk]
    rw [hrun]
    refine ⟨rfl, rfl, ?_, controllerutil.RemoveFinalizer s finalizerName, ?_,
      RemoveFinalizer_not_mem s finalizerName, rfl, rfl⟩
    · simp [Store.put_alertRule_prometheusRules, Store.remove_prometheusRule_prometheusRules]
    · simp [Store.put_alertRule_alertRules, hrk]
  · intro fault hget hlook hupd hp
    have hrun : Reconcile { Client := recording (failing memClient fault), Scheme := scheme }
        now req (st, [])
        = (({}, none),
           (Store.put Kind.alertRule st (controllerutil.RemoveFinalizer s finalizerName),
            [⟨Verb.get, Kind.alertRule, req⟩,
             ⟨Verb.get, Kind.prometheusRule, ⟨s.Namespace, "kneutral-" ++ s.Name⟩⟩,
             ⟨Verb.update, Kind.alertRule, req⟩])) := by
      simp [Reconcile, deletePrometheusRule, recording, failing, hget, hlook, hupd,
        memClient_Get_alertRule, memClient_Get_prometheusRule, memClient_Update_alertRule,
        hrk, hs, hdel, hc, derivedName, hp, notFoundError, errors.IsNotFound]
    rw [hrun]
    refine ⟨rfl, rfl, controllerutil.RemoveFinalizer s finalizerName, ?_,
      RemoveFinalizer_not_mem s finalizerName, rfl, rfl⟩
    simp [Store.put_alertRule_alertRules, hrk]

/-- The three cases of C3 at the terminating example rule: the delete of its derived rule is
refused; no call fails; and no call fails in the store that holds no derived rule. -/
theorem C3_cleanup_before_token_removal_witness :
    ((Reconcile { Client := recording (failing memClient deleteFault), Scheme := exampleScheme }
        9 ⟨"monitoring", "cpu-monitoring"⟩ (terminatingStore, [])).1
      = ({ Requeue := false, RequeueAfter := 0 },
         some (Error.status StatusReason.Conflict "the object has been modified")) ∧
     (∀ call ∈ (Reconcile
        { Client := recording (failing memClient deleteFault), Scheme := exampleScheme }
        9 ⟨"monitoring", "cpu-monitoring"⟩ (terminatingStore, [])).2.2,
      call.verb = Verb.get ∨ call.verb = Verb.delete) ∧
     (Reconcile { Client := recording (failing memClient deleteFault), Scheme := exampleScheme }
        9 ⟨"monitoring", "cpu-monitoring"⟩ (terminatingStore, [])).2.1 = terminatingStore ∧
     ∃ a : AlertRule,
      (Reconcile { Client := recording (failing memClient deleteFault), Scheme := exampleScheme }
        9 ⟨"monitoring", "cpu-monitoring"⟩ (terminatingStore, [])).2.1.alertRules
          ⟨"monitoring", "cpu-monitoring"⟩ = some a ∧
      finalizerName ∈ a.Finalizers) ∧
    ((Reconcile
        { Client := recording (failing memClient (fun _ => none)), Scheme := exampleScheme }
        9 ⟨"monitoring", "cpu-monitoring"⟩ (terminatingStore, [])).1
      = ({ Requeue := false, RequeueAfter := 0 }, none) ∧
     (Reconcile
        { Client := recording (failing memClient (fun _ => none)), Scheme := exampleScheme }
        9 ⟨"monitoring", "cpu-monitoring"⟩ (terminatingStore, [])).2.2
      = [⟨Verb.get, Kind.alertRule, ⟨"monitoring", "cpu-monitoring"⟩⟩,
         ⟨Verb.get, Kind.prometheusRule, ⟨"monitoring", "kneutral-cpu-monitoring"⟩⟩,
         ⟨Verb.delete, Kind.prometheusRule, ⟨"monitoring", "kneutral-cpu-monitoring"⟩⟩,
         ⟨Verb.update, Kind.alertRule, ⟨"monitoring", "cpu-monitoring"⟩⟩] ∧
     (Reconcile
        { Client := recording (failing memClient (fun _ => none)), Scheme := exampleScheme }
        9 ⟨"monitoring", "cpu-monitoring"⟩ (terminatingStore, [])).2.1.prometheusRules
          ⟨"monitoring", "kneutral-cpu-monitoring"⟩ = none ∧
     ∃ a : AlertRule,
      (Reconcile
        { Client := recording (failing memClient (fun _ => none)), Scheme := exampleScheme }
        9 ⟨"monitoring", "cpu-monitoring"⟩ (terminatingStore, [])).2.1.alertRules
          ⟨"monitoring", "cpu-monitoring"⟩ = some a ∧
      finalizerName ∉ a.Finalizers ∧
      a.Finalizers = cpuAlertTerminating.Finalizers.filter (fun f => f != finalizerName) ∧
      { a with Finalizers := cpuAlertTerminating.Finalizers } = cpuAlertTerminating) ∧
    ((Reconcile
        { Client := recording (failing memClient (fun _ => none)), Scheme := exampleScheme }
        9 ⟨"monitoring", "cpu-monitoring"⟩
        (Store.put Kind.alertRule Store.empty cpuAlertTerminating, [])).1
      = ({ Requeue := false, RequeueAfter := 0 }, none) ∧
     (Reconcile
        { Client := recording (failing memClient (fun _ => none)), Scheme := exampleScheme }
        9 ⟨"monitoring", "cpu-monitoring"⟩
        (Store.put Kind.alertRule Store.empty cpuAlertTerminating, [])).2.2
      = [⟨Verb.get, Kind.alertRule, ⟨"monitoring", "cpu-monitoring"⟩⟩,
         ⟨Verb.get, Kind.prometheusRule, ⟨"monitoring", "kneutral-cpu-monitoring"⟩⟩,
         ⟨Verb.update, Kind.alertRule, ⟨"monitoring", "cpu-monitoring"⟩⟩] ∧
     ∃ a : AlertRule,
      (Reconcile
        { Client := recording (failing memClient (fun _ => none)), Scheme := exampleScheme }
        9 ⟨"monitoring", "cpu-monitoring"⟩
        (Store.put Kind.alertRule Store.empty cpuAlertTerminating, [])).2.1.alertRules
          ⟨"monitoring", "cpu-monitoring"⟩ = some a ∧
      finalizerName ∉ a.Finalizers ∧
      a.Finalizers = cpuAlertTerminating.Finalizers.filter (fun f => f != finalizerName) ∧
      { a with Finalizers := cpuAlertTerminating.Finalizers } = cpuAlertTerminating) :=
  ⟨(C3_cleanup_before_token_removal exampleScheme 9 ⟨"monitoring", "cpu-monitoring"⟩
      terminatingStore cpuAlertTerminating (by decide) (by decide) (by decide)).1
      deleteFault (Error.status StatusReason.Conflict "the object has been modified")
      (by decide) (by decide) (Or.inr ⟨by decide, by decide, by decide⟩),
   (C3_cleanup_before_token_removal exampleScheme 9 ⟨"monitoring", "cpu-monitoring"⟩
      terminatingStore cpuAlertTerminating (by decide) (by decide) (by decide)).2.1
      (fun _ => none) staleRule rfl rfl rfl rfl (by decide),
   (C3_cleanup_before_token_removal exampleScheme 9 ⟨"monitoring", "cpu-monitoring"⟩
      (Store.put Kind.alertRule Store.empty cpuAlertTerminating) cpuAlertTerminating
      (by decide) (by decide) (by decide)).2.2
      (fun _ => none) rfl rfl rfl (by decide)⟩

/-- C4 (as stated, refuted): a stored AlertRule with a deletion marker that is held back by
another controller's finalizer is left alone by both passes; after the second pass the
operator's finalizer token does not occur on it and no derived rule exists, so "after two
passes the token occurs once and exactly one derived rule exists" fails for this store. -/
theorem C4_counterexample :
    ¬ (∀ (scheme : Scheme) (now1 now2 : Time) (req : NamespacedName) (st : Store),
        Store.sameUpToTimes
          (Reconcile { Client := memClient, Scheme := scheme } now2 req
            (Reconcile { Client := memClient, Scheme := scheme } now1 req st).2).2
          (Reconcile { Client := memClient, Scheme := scheme } now1 req st).2 ∧
        ∀ a : AlertRule,
          (Reconcile { Client := memClient, Scheme := scheme } now2 req
            (Reconcile { Client := memClient, Scheme := scheme } now1 req st).2).2.alertRules req
            = some a →
          a.Finalizers.count finalizerName = 1 ∧ (conditionTypes a).Nodup ∧
          ∃ p : PrometheusRule,
            (Reconcile { Client := memClient, Scheme := scheme } now2 req
              (Reconcile { Client := memClient, Scheme := scheme } now1 req st).2).2.prometheusRules
              { Namespace := a.Namespace, Name := "kneutral-" ++ a.Name } = some p) := by
  intro h
  have h1 := (h exampleScheme 5 6 ⟨"monitoring", "cpu-monitoring"⟩ foreignFinalizerStore).2
    cpuAlertForeignFinalizer (by decide)
  exact absurd h1.1 (by decide)

/-- C4 (amended): over the store that persists objects as written, for every store state and
identity, the store after a second `Reconcile` equals the store after the first apart from
the reconcile / transition timestamps.  When the identity holds a non-terminating AlertRule
with the finalizer token at most once and at most one condition per type, and the first pass
succeeds, then after the second pass the stored source carries the token exactly once, each
condition type exactly once, and the derived rule exists at its identity (one object, the
store being keyed by identity). -/
theorem C4_reconcile_twice (scheme : Scheme) (now1 now2 : Time) (req : NamespacedName)
    (st : Store) :
    Store.sameUpToTimes
      (Reconcile { Client := memClient, Scheme := scheme } now2 req
        (Reconcile { Client := memClient, Scheme := scheme } now1 req st).2).2
      (Reconcile { Client := memClient, Scheme := scheme } now1 req st).2 ∧
    ∀ s : AlertRule, st.alertRules req = some s → Time.IsZero s.DeletionTimestamp = true →
      s.Finalizers.count finalizerName ≤ 1 → (conditionTypes s).Nodup →
      (Reconcile { Client := memClient, Scheme := scheme } now1 req st).1.2 = none →
      ∃ (a : AlertRule) (p : PrometheusRule),
        (Reconcile { Client := memClient, Scheme := scheme } now2 req
          (Reconcile { Client := memClient, Scheme := scheme } now1 req st).2).2.alertRules req
          = some a ∧
        a.Finalizers.count finalizerName = 1 ∧ (conditionTypes a).Nodup ∧
        (Reconcile { Client := memClient, Scheme := scheme } now2 req
          (Reconcile { Client := memClient, Scheme := scheme } now1 req st).2).2.prometheusRules
          { Namespace := a.Namespace, Name := "kneutral-" ++ a.Name } = some p := by
  constructor
  · cases hs : st.alertRules req with
    | none =>
      rw [Reconcile_memClient_absent scheme now1 req st hs]
      simp only
      rw [Reconcile_memClient_absent scheme now2 req st hs]
      exact Store.sameUpToTimes_refl st
    | some s =>
      have hk : Obj.key Kind.alertRule s = req := st.alertRules_key _ _ hs
      cases hz : Time.IsZero s.DeletionTimestamp with
      | true =>
        cases hsch : scheme Kind.alertRule with
        | none =>
          rw [Reconcile_memClient_live_error scheme now1 req st s hs hz hsch]
          simp only
          have hs1 : (Store.put Kind.alertRule st
              (controllerutil.AddFinalizer s finalizerName)).alertRules req
              = some (controllerutil.AddFinalizer s finalizerName) := by
            simp [AddFinalizer_key, hk]
          have hz1 : Time.IsZero
              (controllerutil.AddFinalizer s finalizerName).DeletionTimestamp = true := by
            rw [(AddFinalizer_frame s finalizerName).2.2.2.2.2.1]; exact hz
          rw [Reconcile_memClient_live_error scheme now2 req _ _ hs1 hz1 hsch]
          simp only
          rw [AddFinalizer_of_mem _ _ (AddFinalizer_mem s finalizerName)]
          rw [Store.put_alertRule_self _ _ (by simp)]
          exact Store.sameUpToTimes_refl _
        | some gvk =>
          rw [Reconcile_memClient_live_ok scheme gvk now1 req st s hs hz hsch]
          simp only
          have hs1 : (reconciledStore gvk now1 st s).alertRules req
              = some (reconciledSource now1 s) := by
            rw [reconciledStore_alertRules]; simp [hk]
          have hz1 : Time.IsZero (reconciledSource now1 s).DeletionTimestamp = true := by
            rw [(reconciledSource_frame now1 s).2.2.2.2.1]; exact hz
          rw [Reconcile_memClient_live_ok scheme gvk now2 req _ _ hs1 hz1 hsch]
          exact reconciledStore_idem gvk now1 now2 st s
      | false =>
        by_cases hfin : finalizerName ∈ s.Finalizers
        · rw [Reconcile_memClient_terminating_cleanup scheme now1 req st s hs hz hfin]
          simp only
          have hs1 : (Store.put Kind.alertRule
              (Store.remove Kind.prometheusRule st
                { Namespace := s.Namespace, Name := derivedName s.Name })
              (controllerutil.RemoveFinalizer s finalizerName)).alertRules req
              = some (controllerutil.RemoveFinalizer s finalizerName) := by
            simp [RemoveFinalizer_key, hk]
          rw [Reconcile_memClient_terminating_idle scheme now2 req _ _ hs1 hz
            (RemoveFinalizer_not_mem s finalizerName)]
          exact Store.sameUpToTimes_refl _
        · rw [Reconcile_memClient_terminating_idle scheme now1 req st s hs hz hfin]
          simp only
          rw [Reconcile_memClient_terminating_idle scheme now2 req st s hs hz hfin]
          exact Store.sameUpToTimes_refl _
  · intro s hs hz hcount hnd hok
    have hk : Obj.key Kind.alertRule s = req := st.alertRules_key _ _ hs
    cases hsch : scheme Kind.alertRule with
    | none =>
      rw [Reconcile_memClient_live_error scheme now1 req st s hs hz hsch] at hok
      cases hok
    | some gvk =>
      rw [Reconcile_memClient_live_ok scheme gvk now1 req st s hs hz hsch]
      simp only
      have hfr := reconciledSource_frame now1 s
      have hs1 : (reconciledStore gvk now1 st s).alertRules req
          = some (reconciledSource now1 s) := by
        rw [reconciledStore_alertRules]; simp [hk]
      have hz1 : Time.IsZero (reconciledSource now1 s).DeletionTimestamp = true := by
        rw [hfr.2.2.2.2.1]; exact hz
      rw [Reconcile_memClient_live_ok scheme gvk now2 req _ _ hs1 hz1 hsch]
      simp only
      have hfr2 := reconciledSource_frame now2 (reconciledSource now1 s)
      have hk1 : Obj.key Kind.alertRule (reconciledSource now1 s) = req := by
        rw [reconciledSource_key]; exact hk
      have hp := reconciledStore_prometheusRules gvk now2 (reconciledStore gvk now1 st s)
        (reconciledSource now1 s)
        { Namespace := (reconciledSource now2 (reconciledSource now1 s)).Namespace,
          Name := "kneutral-" ++ (reconciledSource now2 (reconciledSource now1 s)).Name }
      rw [if_pos (by simp [hfr2.1, hfr2.2.1, derivedName])] at hp
      refine ⟨reconciledSource now2 (reconciledSource now1 s), _, ?_, ?_, ?_, hp⟩
      · rw [reconciledStore_alertRules]; simp [hk1]
      · rw [hfr2.2.2.2.2.2.1]
        apply AddFinalizer_count
        rw [hfr.2.2.2.2.2.1, AddFinalizer_count s finalizerName hcount]
      · unfold conditionTypes
        rw [hfr2.2.2.2.2.2.2]
        apply upsertCondition_nodup
        rw [hfr.2.2.2.2.2.2]
        exact upsertCondition_nodup _ _ hnd

/-- The uniqueness part of the amended C4 at the example store. -/
theorem C4_reconcile_twice_witness :
    ∃ (a : AlertRule) (p : PrometheusRule),
      (Reconcile { Client := memClient, Scheme := exampleScheme } 6
        ⟨"monitoring", "cpu-monitoring"⟩
        (Reconcile { Client := memClient, Scheme := exampleScheme } 5
          ⟨"monitoring", "cpu-monitoring"⟩ exampleStore).2).2.alertRules
          ⟨"monitoring", "cpu-monitoring"⟩ = some a ∧
      a.Finalizers.count finalizerName = 1 ∧ (conditionTypes a).Nodup ∧
      (Reconcile { Client := memClient, Scheme := exampleScheme } 6
        ⟨"monitoring", "cpu-monitoring"⟩
        (Reconcile { Client := memClient, Scheme := exampleScheme } 5
          ⟨"monitoring", "cpu-monitoring"⟩ exampleStore).2).2.prometheusRules
          { Namespace := a.Namespace, Name := "kneutral-" ++ a.Name } = some p :=
  (C4_reconcile_twice exampleScheme 5 6 ⟨"monitoring", "cpu-monitoring"⟩ exampleStore).2
    cpuAlert (by decide) (by decide) (by decide) (by decide) (by decide)

/-- C5 (as stated, refuted): a stored AlertRule with a deletion marker, held back by another
controller's finalizer and with an empty condition list, is reconciled successfully (a
no-op), and its condition list still has no entry of type "Ready". -/
theorem C5_counterexample :
    ¬ (∀ (scheme : Scheme) (nows : List Time) (req : NamespacedName) (st : Store)
        (s : AlertRule), nows ≠ [] → st.alertRules req = some s → (conditionTypes s).Nodup →
        (∀ res ∈ (runPasses { Client := memClient, Scheme := scheme } req nows st).1,
          res.2 = none) →
        ∃ a : AlertRule,
          (runPasses { Client := memClient, Scheme := scheme } req nows st).2.alertRules req
            = some a ∧
          (conditionTypes a).count "Ready" = 1) := by
  intro h
  obtain ⟨a, ha, hcount⟩ := h exampleScheme [5, 6] ⟨"monitoring", "cpu-monitoring"⟩
    foreignFinalizerStore cpuAlertForeignFinalizer (by decide) (by decide) (by decide)
    (by decide)
  have hst : (runPasses { Client := memClient, Scheme := exampleScheme }
      ⟨"monitoring", "cpu-monitoring"⟩ [5, 6] foreignFinalizerStore).2.alertRules
      ⟨"monitoring", "cpu-monitoring"⟩ = some cpuAlertForeignFinalizer := by decide
  rw [hst] at ha
  cases ha
  revert hcount
  decide

/-- C5 (amended): for every `N ≥ 1` and every stored non-terminating AlertRule whose
condition list has at most one entry per type, after `N` successive successful `Reconcile`
passes over the store that persists status as written the stored source's condition list
has exactly one entry of type "Ready". -/
theorem C5_one_ready_condition (scheme : Scheme) (nows : List Time) (req : NamespacedName)
    (st : Store) (s : AlertRule) (hN : nows ≠ []) (hs : st.alertRules req = some s)
    (hlive : Time.IsZero s.DeletionTimestamp = true) (hnd : (conditionTypes s).Nodup)
    (hok : ∀ res ∈ (runPasses { Client := memClient, Scheme := scheme } req nows st).1,
      res.2 = none) :
    ∃ a : AlertRule,
      (runPasses { Client := memClient, Scheme := scheme } req nows st).2.alertRules req
        = some a ∧
      (conditionTypes a).count "Ready" = 1 := by
  have step : ∀ (now : Time) (st : Store) (s : AlertRule), st.alertRules req = some s →
      Time.IsZero s.DeletionTimestamp = true → (conditionTypes s).Nodup →
      (Reconcile { Client := memClient, Scheme := scheme } now req st).1.2 = none →
      ∃ a : AlertRule,
        (Reconcile { Client := memClient, Scheme := scheme } now req st).2.alertRules req
          = some a ∧
        Time.IsZero a.DeletionTimestamp = true ∧ (conditionTypes a).Nodup ∧
        (conditionTypes a).count "Ready" = 1 := by
    intro now st s hs hz hnd hok
    have hk : Obj.key Kind.alertRule s = req := st.alertRules_key _ _ hs
    cases hsch : scheme Kind.alertRule with
    | none =>
      rw [Reconcile_memClient_live_error scheme now req st s hs hz hsch] at hok
      cases hok
    | some gvk =>
      rw [Reconcile_memClient_live_ok scheme gvk now req st s hs hz hsch]
      have hfr := reconciledSource_frame now s
      have hnd2 : (conditionTypes (reconciledSource now s)).Nodup := by
        unfold conditionTypes
        rw [hfr.2.2.2.2.2.2]
        exact upsertCondition_nodup _ _ hnd
      refine ⟨reconciledSource now s, ?_, ?_, hnd2, ?_⟩
      · rw [reconciledStore_alertRules]; simp [hk]
      · rw [hfr.2.2.2.2.1]; exact hz
      · apply List.count_eq_one_of_mem hnd2
        unfold conditionTypes
        rw [hfr.2.2.2.2.2.2]
        exact upsertCondition_mem_types (readyCondition now s.Generation (derivedName s.Name)) _
  induction nows generalizing st s with
  | nil => exact absurd rfl hN
  | cons now rest ih =>
    have hfirst : (Reconcile { Client := memClient, Scheme := scheme } now req st).1.2
        = none := hok _ (by simp [runPasses])
    obtain ⟨a, ha, hza, hnda, hca⟩ := step now st s hs hlive hnd hfirst
    cases rest with
    | nil => exact ⟨a, by simpa [runPasses] using ha, hca⟩
    | cons now2 rest2 =>
      have hrest : ∀ res ∈ (runPasses { Client := memClient, Scheme := scheme } req
          (now2 :: rest2)
          (Reconcile { Client := memClient, Scheme := scheme } now req st).2).1,
          res.2 = none := by
        intro res hres
        apply hok
        rw [runPasses]
        exact List.mem_cons_of_mem _ hres
      obtain ⟨b, hb, hcb⟩ := ih _ a (by simp) ha hza hnda hrest
      exact ⟨b, by rw [runPasses]; exact hb, hcb⟩

/-- The amended C5 for three passes over the example store. -/
theorem C5_one_ready_condition_witness :
    ∃ a : AlertRule,
      (runPasses { Client := memClient, Scheme := exampleScheme }
        ⟨"monitoring", "cpu-monitoring"⟩ [5, 6, 7] exampleStore).2.alertRules
        ⟨"monitoring", "cpu-monitoring"⟩ = some a ∧
      (conditionTypes a).count "Ready" = 1 :=
  C5_one_ready_condition exampleScheme [5, 6, 7] ⟨"monitoring", "cpu-monitoring"⟩ exampleStore
    cpuAlert (by decide) (by decide) (by decide) (by decide) (by decide)

/-- C6: `generatePrometheusRule x` has as many groups as `x.spec.groups`, with the same
names in the same order, and for every `i`, `j` the output rule `group[i].rule[j]` exists
exactly when the source rule does and carries its alert name, expression string, label map
and annotation map unchanged. -/
theorem C6_translation_fidelity (x : AlertRule) :
    (generatePrometheusRule x).Spec.Groups.length = x.Spec.Groups.length ∧
    (generatePrometheusRule x).Spec.Groups.map (fun g => g.Name)
      = x.Spec.Groups.map (fun g => g.Name) ∧
    ∀ i j : Nat,
      (((generatePrometheusRule x).Spec.Groups[i]?).bind (fun g => g.Rules[j]?)).map
          (fun r => (r.Alert, r.Expr, r.Labels, r.Annotations))
      = ((x.Spec.Groups[i]?).bind (fun g => g.Rules[j]?)).map
          (fun r => (r.Alert, IntOrString.str r.Expr, r.Labels, r.Annotations)) := by
  rw [generatePrometheusRule_eq]
  refine ⟨by simp, ?_, ?_⟩
  · simp [convertGroup_eq]
  · intro i j
    simp only [List.getElem?_map]
    cases hx : x.Spec.Groups[i]? with
    | none => simp
    | some g =>
      simp only [Option.map_some', Option.some_bind, convertGroup_eq, List.getElem?_map]
      cases hr : g.Rules[j]? with
      | none => simp
      | some r => simp [convertRule_eq]

/-- C7: for every source group (at index `i`) the translated group at `i` has an interval
exactly when the source interval is a non-empty string, and then it is the source string;
for every rule of it (at index `j`) the translated rule at `j` has a pending duration
exactly when the source `for` is non-empty, and then it is the source string.  No
translated group or rule carries a present-but-empty interval or duration. -/
theorem C7_interval_and_for_presence (x : AlertRule) :
    (∀ (i : Nat) (g : AlertGroup), x.Spec.Groups[i]? = some g →
      ∃ g2 : RuleGroup, (generatePrometheusRule x).Spec.Groups[i]? = some g2 ∧
        (g2.Interval.isSome = true ↔ g.Interval ≠ "") ∧
        (∀ v, g2.Interval = some v → v = g.Interval) ∧
        ∀ (j : Nat) (r : Rule), g.Rules[j]? = some r →
          ∃ r2 : PromRule, g2.Rules[j]? = some r2 ∧
            (r2.For.isSome = true ↔ r.For ≠ "") ∧
            (∀ v, r2.For = some v → v = r.For)) ∧
    (∀ g2 ∈ (generatePrometheusRule x).Spec.Groups,
      g2.Interval ≠ some "" ∧ ∀ r2 ∈ g2.Rules, r2.For ≠ some "") := by
  rw [generatePrometheusRule_eq]
  constructor
  · intro i g hg
    refine ⟨convertGroup g, by simp [hg], ?_, ?_, ?_⟩
    · rw [convertGroup_eq]
      by_cases h : g.Interval = "" <;> simp [h]
    · intro v
      rw [convertGroup_eq]
      by_cases h : g.Interval = "" <;> simp [h]
      intro hv; exact hv.symm
    · intro j r hr
      refine ⟨convertRule r, by simp [convertGroup_eq, hr], ?_, ?_⟩
      · rw [convertRule_eq]
        by_cases h : r.For = "" <;> simp [h]
      · intro v
        rw [convertRule_eq]
        by_cases h : r.For = "" <;> simp [h]
        intro hv; exact hv.symm
  · intro g2 hg2
    simp only [List.mem_map] at hg2
    obtain ⟨g, _, rfl⟩ := hg2
    rw [convertGroup_eq]
    constructor
    · by_cases h : g.Interval = "" <;> simp [h]
    · intro r2 hr2
      simp only [List.mem_map] at hr2
      obtain ⟨r, _, rfl⟩ := hr2
      rw [convertRule_eq]
      by_cases h : r.For = "" <;> simp [h]

/-- C8: the derived rule of `s` has namespace `s.namespace` and name `"kneutral-" + s.name`,
and the cleanup path `deletePrometheusRule` addresses exactly that identity: it looks it up,
and when the lookup returns an object (stored under the name it was asked for) the delete it
issues is for the same identity; it issues no other call. -/
theorem C8_derived_identity {σ : Type} (c : Client σ) (scheme : Scheme) (s : AlertRule)
    (st : σ)
    (hkey : ∀ p : PrometheusRule,
      (c.Get Kind.prometheusRule (Obj.key Kind.prometheusRule (generatePrometheusRule s)) st).1
        = Except.ok p →
      Obj.key Kind.prometheusRule p = Obj.key Kind.prometheusRule (generatePrometheusRule s)) :
    Obj.key Kind.prometheusRule (generatePrometheusRule s)
      = { Namespace := s.Namespace, Name := "kneutral-" ++ s.Name } ∧
    (deletePrometheusRule { Client := recording c, Scheme := scheme } s (st, [])).2.2
      = match (c.Get Kind.prometheusRule
            { Namespace := s.Namespace, Name := "kneutral-" ++ s.Name } st).1 with
        | Except.ok _ =>
          [⟨Verb.get, Kind.prometheusRule,
              Obj.key Kind.prometheusRule (generatePrometheusRule s)⟩,
           ⟨Verb.delete, Kind.prometheusRule,
              Obj.key Kind.prometheusRule (generatePrometheusRule s)⟩]
        | Except.error _ =>
          [⟨Verb.get, Kind.prometheusRule,
              Obj.key Kind.prometheusRule (generatePrometheusRule s)⟩] := by
  have hk : Obj.key Kind.prometheusRule (generatePrometheusRule s)
      = { Namespace := s.Namespace, Name := "kneutral-" ++ s.Name } := by
    rw [generatePrometheusRule_eq]; rfl
  refine ⟨hk, ?_⟩
  rw [hk] at hkey ⊢
  simp only [deletePrometheusRule, recording, derivedName]
  cases hg : (c.Get Kind.prometheusRule
      { Namespace := s.Namespace, Name := "kneutral-" ++ s.Name } st).1 with
  | error e =>
    by_cases h : errors.IsNotFound e = true <;> simp [h]
  | ok p =>
    simp [hkey p hg]

/-- The cleanup lookup and delete of C8 at a store holding the derived rule. -/
theorem C8_derived_identity_witness :
    Obj.key Kind.prometheusRule (generatePrometheusRule { Name := "cpu", Namespace := "mon" })
      = { Namespace := "mon", Name := "kneutral-" ++ "cpu" } ∧
    (deletePrometheusRule { Client := recording memClient, Scheme := fun _ => none }
        { Name := "cpu", Namespace := "mon" }
        (Store.put Kind.prometheusRule Store.empty
          (generatePrometheusRule { Name := "cpu", Namespace := "mon" }), [])).2.2
      = match (memClient.Get Kind.prometheusRule
            { Namespace := "mon", Name := "kneutral-" ++ "cpu" }
            (Store.put Kind.prometheusRule Store.empty
              (generatePrometheusRule { Name := "cpu", Namespace := "mon" }))).1 with
        | Except.ok _ =>
          [⟨Verb.get, Kind.prometheusRule,
              Obj.key Kind.prometheusRule
                (generatePrometheusRule { Name := "cpu", Namespace := "mon" })⟩,
           ⟨Verb.delete, Kind.prometheusRule,
              Obj.key Kind.prometheusRule
                (generatePrometheusRule { Name := "cpu", Namespace := "mon" })⟩]
        | Except.error _ =>
          [⟨Verb.get, Kind.prometheusRule,
              Obj.key Kind.prometheusRule
                (generatePrometheusRule { Name := "cpu", Namespace := "mon" })⟩] :=
  C8_derived_identity memClient (fun _ => none) { Name := "cpu", Namespace := "mon" }
    (Store.put Kind.prometheusRule Store.empty
      (generatePrometheusRule { Name := "cpu", Namespace := "mon" }))
    (fun p hp => (Store.put Kind.prometheusRule Store.empty
      (generatePrometheusRule { Name := "cpu", Namespace := "mon" })).prometheusRules_key _ p
        (by
          revert hp
          simp only [memClient, Store.get]
          split <;> simp_all))

/-- C9: the keys of the label map produced by `generatePrometheusRule` are exactly the
three reserved operator-identity keys together with the keys of `spec.labels`, and every
key of `spec.labels` that is not reserved maps to its source-supplied value. -/
theorem C9_label_key_set (s : AlertRule) (hwf : StringMap.WF s.Spec.Labels) :
    (∀ z : String, z ∈ mapKeys (generatePrometheusRule s).Labels ↔
      z ∈ reservedKeys ∨ z ∈ mapKeys s.Spec.Labels) ∧
    (∀ k v : String, mapGet s.Spec.Labels k = some v → k ∉ reservedKeys →
      mapGet (generatePrometheusRule s).Labels k = some v) := by
  rw [generatePrometheusRule_eq]
  constructor
  · intro z
    simp only
    rw [mapKeys_mergeLabels]
    simp [identityLabels, reservedKeys, mapKeys]
  · intro k v hkv _
    simp only
    rw [mapGet_mergeLabels _ _ hwf, hkv]
    rfl

/-- The key set of C9 for a source with two labels of its own. -/
theorem C9_label_key_set_witness :
    (∀ z : String,
      z ∈ mapKeys (generatePrometheusRule
        { Name := "cpu-monitoring", Namespace := "monitoring",
          Spec := { Labels := [("team", "platform"), ("tier", "infra")] } }).Labels ↔
      z ∈ reservedKeys ∨ z ∈ mapKeys [("team", "platform"), ("tier", "infra")]) ∧
    (∀ k v : String, mapGet [("team", "platform"), ("tier", "infra")] k = some v →
      k ∉ reservedKeys →
      mapGet (generatePrometheusRule
        { Name := "cpu-monitoring", Namespace := "monitoring",
          Spec := { Labels := [("team", "platform"), ("tier", "infra")] } }).Labels k
        = some v) :=
  C9_label_key_set
    { Name := "cpu-monitoring", Namespace := "monitoring",
      Spec := { Labels := [("team", "platform"), ("tier", "infra")] } } (by decide)

/-- C10: when the client's get of the source fails with error `e`, `Reconcile` returns the
empty result, with no error when `e` is not-found and with `e` itself otherwise; the get is
the only call the client receives and the store is left as that get left it. -/
theorem C10_source_fetch_error {σ : Type} (c : Client σ) (scheme : Scheme) (now : Time)
    (req : NamespacedName) (st : σ) (log : List Call) (e : Error)
    (hget : (c.Get Kind.alertRule req st).1 = Except.error e) :
    Reconcile { Client := recording c, Scheme := scheme } now req (st, log)
      = (({ Requeue := false, RequeueAfter := 0 },
          if errors.IsNotFound e = true then none else some e),
         ((c.Get Kind.alertRule req st).2, log ++ [⟨Verb.get, Kind.alertRule, req⟩])) := by
  simp only [Reconcile, recording, hget]
  by_cases h : errors.IsNotFound e = true <;> simp [h]

/-- The not-found case of C10 at the empty store. -/
theorem C10_source_fetch_error_witness :
    Reconcile { Client := recording memClient, Scheme := fun _ => none } 7
        ⟨"monitoring", "cpu-monitoring"⟩ (Store.empty, [])
      = (({ Requeue := false, RequeueAfter := 0 },
          if errors.IsNotFound (notFoundError ⟨"monitoring", "cpu-monitoring"⟩) = true
            then none
            else some (notFoundError ⟨"monitoring", "cpu-monitoring"⟩)),
         ((memClient.Get Kind.alertRule ⟨"monitoring", "cpu-monitoring"⟩ Store.empty).2,
          [] ++ [⟨Verb.get, Kind.alertRule, ⟨"monitoring", "cpu-monitoring"⟩⟩])) :=
  C10_source_fetch_error memClient (fun _ => none) 7 ⟨"monitoring", "cpu-monitoring"⟩
    Store.empty [] (notFoundError ⟨"monitoring", "cpu-monitoring"⟩) (by rfl)

/-- C11: when the fetched AlertRule carries a deletion marker and not the finalizer token,
`Reconcile` returns success after the fetch alone: for any client the fetch is the only call
received and the store is as the fetch left it; over the store that persists objects as
written the store is unchanged, so a derived rule that exists is still there. -/
theorem C11_terminating_without_token {σ : Type} (c : Client σ) (scheme : Scheme) (now : Time)
    (req : NamespacedName) (st : σ) (log : List Call) (s : AlertRule)
    (hget : (c.Get Kind.alertRule req st).1 = Except.ok s)
    (hdel : Time.IsZero s.DeletionTimestamp = false)
    (hfin : finalizerName ∉ s.Finalizers) :
    Reconcile { Client := recording c, Scheme := scheme } now req (st, log)
      = (({ Requeue := false, RequeueAfter := 0 }, none),
         ((c.Get Kind.alertRule req st).2, log ++ [⟨Verb.get, Kind.alertRule, req⟩])) ∧
    ∀ ms : Store, ms.alertRules req = some s →
      Reconcile { Client := memClient, Scheme := scheme } now req ms
        = (({ Requeue := false, RequeueAfter := 0 }, none), ms) := by
  have hc : controllerutil.ContainsFinalizer s finalizerName = false := by
    cases hb : controllerutil.ContainsFinalizer s finalizerName
    · rfl
    · exact absurd ((ContainsFinalizer_iff s finalizerName).1 hb) hfin
  constructor
  · simp [Reconcile, recording, hget, hdel, hc]
  · intro ms hms
    exact Reconcile_memClient_terminating_idle scheme now req ms s hms hdel hfin

/-- The no-op pass of C11 at the example rule held back by a foreign finalizer. -/
theorem C11_terminating_without_token_witness :
    Reconcile { Client := recording memClient, Scheme := exampleScheme } 9
        ⟨"monitoring", "cpu-monitoring"⟩ (foreignFinalizerStore, [])
      = (({ Requeue := false, RequeueAfter := 0 }, none),
         ((memClient.Get Kind.alertRule ⟨"monitoring", "cpu-monitoring"⟩
            foreignFinalizerStore).2,
          [] ++ [⟨Verb.get, Kind.alertRule, ⟨"monitoring", "cpu-monitoring"⟩⟩])) ∧
    ∀ ms : Store, ms.alertRules ⟨"monitoring", "cpu-monitoring"⟩
        = some cpuAlertForeignFinalizer →
      Reconcile { Client := memClient, Scheme := exampleScheme } 9
          ⟨"monitoring", "cpu-monitoring"⟩ ms
        = (({ Requeue := false, RequeueAfter := 0 }, none), ms) :=
  C11_terminating_without_token memClient exampleScheme 9 ⟨"monitoring", "cpu-monitoring"⟩
    foreignFinalizerStore [] cpuAlertForeignFinalizer (by rfl) (by decide) (by decide)

/-- C12 (the code at the failing input): the terminating example rule carries the finalizer
token and its derived rule is found by the lookup, but the delete call reports not-found.
`Reconcile` returns that not-found error instead of success, issues no update of the source
after the delete, and the stored source still carries the finalizer token. -/
theorem C12_delete_not_found_is_returned :
    (Reconcile { Client := recording (failing memClient vanishedFault), Scheme := exampleScheme }
        9 ⟨"monitoring", "cpu-monitoring"⟩ (terminatingStore, [])).1
      = ({ Requeue := false, RequeueAfter := 0 },
         some (notFoundError ⟨"monitoring", "kneutral-cpu-monitoring"⟩)) ∧
    errors.IsNotFound (notFoundError ⟨"monitoring", "kneutral-cpu-monitoring"⟩) = true ∧
    (Reconcile { Client := recording (failing memClient vanishedFault), Scheme := exampleScheme }
        9 ⟨"monitoring", "cpu-monitoring"⟩ (terminatingStore, [])).2.2
      = [⟨Verb.get, Kind.alertRule, ⟨"monitoring", "cpu-monitoring"⟩⟩,
         ⟨Verb.get, Kind.prometheusRule, ⟨"monitoring", "kneutral-cpu-monitoring"⟩⟩,
         ⟨Verb.delete, Kind.prometheusRule, ⟨"monitoring", "kneutral-cpu-monitoring"⟩⟩] ∧
    (Reconcile { Client := recording (failing memClient vanishedFault), Scheme := exampleScheme }
        9 ⟨"monitoring", "cpu-monitoring"⟩ (terminatingStore, [])).2.1.alertRules
        ⟨"monitoring", "cpu-monitoring"⟩ = some cpuAlertTerminating ∧
    finalizerName ∈ cpuAlertTerminating.Finalizers := by
  decide

/-- C13: for a stored non-terminating AlertRule `s`, after a successful `Reconcile` over the
store that persists objects as written (create path or update path alike) the stored status
has state "Active", derived-rule name `"kneutral-" + s.name`, the last-reconcile time set (to
the time of the pass), and a condition of type "Ready" with status True, reason
"ReconcileSuccess" and observed generation `s.generation`. -/
theorem C13_status_after_success (scheme : Scheme) (now : Time) (req : NamespacedName)
    (st : Store) (s : AlertRule) (hs : st.alertRules req = some s)
    (hlive : Time.IsZero s.DeletionTimestamp = true)
    (hok : (Reconcile { Client := memClient, Scheme := scheme } now req st).1.2 = none) :
    ∃ a : AlertRule,
      (Reconcile { Client := memClient, Scheme := scheme } now req st).2.alertRules req
        = some a ∧
      a.Status.State = "Active" ∧
      a.Status.PrometheusRuleName = "kneutral-" ++ s.Name ∧
      a.Status.LastReconcileTime = some now ∧
      ∃ c ∈ a.Status.Conditions,
        c.Type_ = "Ready" ∧ c.Status = ConditionStatus.ConditionTrue ∧
        c.Reason = "ReconcileSuccess" ∧ c.ObservedGeneration = s.Generation := by
  have hk : Obj.key Kind.alertRule s = req := st.alertRules_key _ _ hs
  cases hsch : scheme Kind.alertRule with
  | none =>
    rw [Reconcile_memClient_live_error scheme now req st s hs hlive hsch] at hok
    cases hok
  | some gvk =>
    rw [Reconcile_memClient_live_ok scheme gvk now req st s hs hlive hsch]
    have hfr := reconciledSource_frame now s
    refine ⟨reconciledSource now s, ?_, ?_, ?_, ?_,
      readyCondition now s.Generation (derivedName s.Name), ?_, rfl, rfl, rfl, rfl⟩
    · rw [reconciledStore_alertRules]; simp [hk]
    · simp [reconciledSource, reportedStatus]
    · simp [reconciledSource, reportedStatus, derivedName]
    · simp [reconciledSource, reportedStatus]
    · rw [hfr.2.2.2.2.2.2]
      exact upsertCondition_mem _ _

/-- The create path of C13 at the store that holds only the example rule. -/
theorem C13_status_after_success_witness :
    ∃ a : AlertRule,
      (Reconcile { Client := memClient, Scheme := exampleScheme } 7
        ⟨"monitoring", "cpu-monitoring"⟩ freshStore).2.alertRules
        ⟨"monitoring", "cpu-monitoring"⟩ = some a ∧
      a.Status.State = "Active" ∧
      a.Status.PrometheusRuleName = "kneutral-" ++ cpuAlert.Name ∧
      a.Status.LastReconcileTime = some 7 ∧
      ∃ c ∈ a.Status.Conditions,
        c.Type_ = "Ready" ∧ c.Status = ConditionStatus.ConditionTrue ∧
        c.Reason = "ReconcileSuccess" ∧ c.ObservedGeneration = cpuAlert.Generation :=
  C13_status_after_success exampleScheme 7 ⟨"monitoring", "cpu-monitoring"⟩ freshStore
    cpuAlert (by decide) (by decide) (by decide)

/-- C14 (as stated, refuted): the store holds the reconciled example rule and a derived
rule whose spec and labels already equal the translation; the pass still issues an update
of the derived rule, so "no update of the derived rule is issued" fails. -/
theorem C14_counterexample :
    ¬ (∀ (scheme : Scheme) (now : Time) (req : NamespacedName) (st : Store) (s : AlertRule)
        (p : PrometheusRule), st.alertRules req = some s →
        Time.IsZero s.DeletionTimestamp = true →
        st.prometheusRules ⟨s.Namespace, "kneutral-" ++ s.Name⟩ = some p →
        p.Spec = (generatePrometheusRule s).Spec →
        p.Labels = (generatePrometheusRule s).Labels →
        ∀ call ∈ (Reconcile { Client := recording memClient, Scheme := scheme } now req
            (st, [])).2.2,
          ¬ (call.kind = Kind.prometheusRule ∧
              (call.verb = Verb.update ∨ call.verb = Verb.create))) := by
  intro h
  have h1 := h exampleScheme 7 ⟨"monitoring", "cpu-monitoring"⟩ syncedStore syncedAlert
    syncedRule (by decide) (by decide) (by decide) (by decide) (by decide)
    ⟨Verb.update, Kind.prometheusRule, ⟨"monitoring", "kneutral-cpu-monitoring"⟩⟩ (by decide)
  exact h1 ⟨rfl, Or.inl rfl⟩

/-- C14 (amended): for a stored non-terminating AlertRule whose existing derived rule already
has the freshly translated spec and labels, a successful `Reconcile` over the store that
persists objects as written does not compare and skip: after the fetch (and the finalizer
update, when the token was missing) it looks the derived rule up, issues one update of it,
which stores it unchanged, and then the source status update; it issues no create. -/
theorem C14_update_without_compare (scheme : Scheme) (now : Time) (req : NamespacedName)
    (st : Store) (s : AlertRule) (p : PrometheusRule) (hs : st.alertRules req = some s)
    (hlive : Time.IsZero s.DeletionTimestamp = true)
    (hp : st.prometheusRules ⟨s.Namespace, "kneutral-" ++ s.Name⟩ = some p)
    (hspec : p.Spec = (generatePrometheusRule s).Spec)
    (hlabels : p.Labels = (generatePrometheusRule s).Labels)
    (hok : (Reconcile { Client := recording memClient, Scheme := scheme } now req
              (st, [])).1.2 = none) :
    (Reconcile { Client := recording memClient, Scheme := scheme } now req (st, [])).2.2
      = [⟨Verb.get, Kind.alertRule, req⟩] ++
        (if finalizerName ∈ s.Finalizers then [] else [⟨Verb.update, Kind.alertRule, req⟩]) ++
        [⟨Verb.get, Kind.prometheusRule, ⟨s.Namespace, "kneutral-" ++ s.Name⟩⟩,
         ⟨Verb.update, Kind.prometheusRule, ⟨s.Namespace, "kneutral-" ++ s.Name⟩⟩,
         ⟨Verb.statusUpdate, Kind.alertRule, req⟩] ∧
    (Reconcile { Client := recording memClient, Scheme := scheme } now req
        (st, [])).2.1.prometheusRules ⟨s.Namespace, "kneutral-" ++ s.Name⟩ = some p := by
  have hp2 : st.prometheusRules ⟨s.Namespace, derivedName s.Name⟩ = some p := hp
  have hf := AddFinalizer_frame s finalizerName
  have hgen := generatePrometheusRule_congr (controllerutil.AddFinalizer s finalizerName) s
    hf.1 hf.2.1 hf.2.2.1
  cases hsch : scheme Kind.alertRule with
  | none =>
    exact absurd hok (Reconcile_recording_memClient_live_error scheme now req st s hs hlive hsch)
  | some gvk =>
    rw [Reconcile_recording_memClient_live_ok scheme gvk now req st s hs hlive hsch]
    constructor
    · simp [hp, hp2, derivedName]
    · simp only
      have := reconciledStore_prometheusRules gvk now st s ⟨s.Namespace, derivedName s.Name⟩
      rw [if_pos rfl, hp2, writtenRule_unchanged gvk _ p (by rw [hgen]; exact hspec)
        (by rw [hgen]; exact hlabels)] at this
      exact this

/-- The amended C14 at the store whose derived rule is already up to date. -/
theorem C14_update_without_compare_witness :
    (Reconcile { Client := recording memClient, Scheme := exampleScheme } 7
        ⟨"monitoring", "cpu-monitoring"⟩ (syncedStore, [])).2.2
      = [⟨Verb.get, Kind.alertRule, ⟨"monitoring", "cpu-monitoring"⟩⟩] ++
        (if finalizerName ∈ syncedAlert.Finalizers then []
         else [⟨Verb.update, Kind.alertRule, ⟨"monitoring", "cpu-monitoring"⟩⟩]) ++
        [⟨Verb.get, Kind.prometheusRule,
            ⟨syncedAlert.Namespace, "kneutral-" ++ syncedAlert.Name⟩⟩,
         ⟨Verb.update, Kind.prometheusRule,
            ⟨syncedAlert.Namespace, "kneutral-" ++ syncedAlert.Name⟩⟩,
         ⟨Verb.statusUpdate, Kind.alertRule, ⟨"monitoring", "cpu-monitoring"⟩⟩] ∧
    (Reconcile { Client := recording memClient, Scheme := exampleScheme } 7
        ⟨"monitoring", "cpu-monitoring"⟩ (syncedStore, [])).2.1.prometheusRules
        ⟨syncedAlert.Namespace, "kneutral-" ++ syncedAlert.Name⟩ = some syncedRule :=
  C14_update_without_compare exampleScheme 7 ⟨"monitoring", "cpu-monitoring"⟩ syncedStore
    syncedAlert syncedRule (by decide) (by decide) (by decide) (by decide) (by decide)
    (by decide)

/-- C15 (as stated, refuted): the store holds only the example rule, so the lookup of its
derived rule in the sync path reports not-found.  That is a failing store operation which is
neither the source fetch nor the cleanup lookup, yet `Reconcile` does not return its error:
it goes on to create the rule and returns success. -/
theorem C15_counterexample :
    ¬ (∀ (scheme : Scheme) (now : Time) (req : NamespacedName) (st : Store) (call : Call)
        (e : Error),
        (call, some e) ∈ (Reconcile { Client := tracing memClient, Scheme := scheme } now req
          (st, [])).2.2 →
        ¬ (errors.IsNotFound e = true ∧
            (call = ⟨Verb.get, Kind.alertRule, req⟩ ∨
             (call.verb = Verb.get ∧ call.kind = Kind.prometheusRule ∧
              ∃ s : AlertRule, st.alertRules req = some s ∧
                Time.IsZero s.DeletionTimestamp = false))) →
        (Reconcile { Client := tracing memClient, Scheme := scheme } now req (st, [])).1
          = ({ Requeue := false, RequeueAfter := 0 }, some e)) := by
  intro h
  have h1 := h exampleScheme 7 ⟨"monitoring", "cpu-monitoring"⟩ freshStore
    ⟨Verb.get, Kind.prometheusRule, ⟨"monitoring", "kneutral-cpu-monitoring"⟩⟩
    (notFoundError ⟨"monitoring", "kneutral-cpu-monitoring"⟩) (by decide)
    (by
      rintro ⟨_, hsrc | ⟨_, _, s, hs, hz⟩⟩
      · exact absurd hsrc (by decide)
      · have hs2 : freshStore.alertRules ⟨"monitoring", "cpu-monitoring"⟩ = some cpuAlert := by
          decide
        rw [hs2] at hs
        cases hs
        exact absurd hz (by decide))
  exact absurd h1 (by decide)

/-- C15 (amended): for every client and every pass, a store operation that fails with an
error `e`, other than a get that reports not-found (the source fetch, the cleanup lookup and
the sync-path lookup of the derived rule), is the last operation of the pass and `Reconcile`
returns exactly `e`: every earlier operation succeeded or was such a get.  So a failed
finalizer update is followed by no derived-rule write, and a failed create or update of the
derived rule by no status write. -/
theorem C15_failure_ends_pass {σ : Type} (c : Client σ) (scheme : Scheme) (now : Time)
    (req : NamespacedName) (st : σ) :
    (∀ x ∈ (Reconcile { Client := tracing c, Scheme := scheme } now req (st, [])).2.2.dropLast,
      ∀ e, x.2 = some e → x.1.verb = Verb.get ∧ errors.IsNotFound e = true) ∧
    (∀ (call : Call) (e : Error),
      (Reconcile { Client := tracing c, Scheme := scheme } now req (st, [])).2.2.getLast?
        = some (call, some e) →
      ¬ (call.verb = Verb.get ∧ errors.IsNotFound e = true) →
      (Reconcile { Client := tracing c, Scheme := scheme } now req (st, [])).1
        = ({ Requeue := false, RequeueAfter := 0 }, some e)) := by
  have h := Reconcile_failStop c scheme now req st
  refine ⟨fun x hx => h.1 x hx, ?_⟩
  intro call e hlast hne
  have hnc : ¬ continues (call, some e) := fun hc => hne (hc e rfl)
  exact h.2 (call, some e) hlast hnc

/-- The amended C15 at a pass whose delete of the derived rule is refused. -/
theorem C15_failure_ends_pass_witness :
    (Reconcile { Client := tracing (failing memClient deleteFault), Scheme := exampleScheme } 9
        ⟨"monitoring", "cpu-monitoring"⟩ (terminatingStore, [])).1
      = ({ Requeue := false, RequeueAfter := 0 },
         some (Error.status StatusReason.Conflict "the object has been modified")) :=
  (C15_failure_ends_pass (failing memClient deleteFault) exampleScheme 9
      ⟨"monitoring", "cpu-monitoring"⟩ terminatingStore).2
    ⟨Verb.delete, Kind.prometheusRule, ⟨"monitoring", "kneutral-cpu-monitoring"⟩⟩
    (Error.status StatusReason.Conflict "the object has been modified") (by decide) (by decide)

/-- C16: for a stored non-terminating AlertRule without the finalizer token, one successful
`Reconcile` pass over the store that persists objects as written issues, in this order, the
fetch, the update that adds the token, the lookup of the derived rule, its create (or, when
it exists, its update) and the status update; afterwards the stored source carries the
token and the status written by this pass, and the derived rule is stored with the
translated spec.  The pass does not end with the finalizer update. -/
theorem C16_finalizer_and_first_sync (scheme : Scheme) (now : Time) (req : NamespacedName)
    (st : Store) (s : AlertRule) (hs : st.alertRules req = some s)
    (hlive : Time.IsZero s.DeletionTimestamp = true)
    (hfin : finalizerName ∉ s.Finalizers)
    (hok : (Reconcile { Client := recording memClient, Scheme := scheme } now req
              (st, [])).1.2 = none) :
    (Reconcile { Client := recording memClient, Scheme := scheme } now req (st, [])).2.2
      = [⟨Verb.get, Kind.alertRule, req⟩,
         ⟨Verb.update, Kind.alertRule, req⟩,
         ⟨Verb.get, Kind.prometheusRule, ⟨s.Namespace, "kneutral-" ++ s.Name⟩⟩,
         ⟨if (st.prometheusRules ⟨s.Namespace, "kneutral-" ++ s.Name⟩).isSome = true
            then Verb.update else Verb.create,
          Kind.prometheusRule, ⟨s.Namespace, "kneutral-" ++ s.Name⟩⟩,
         ⟨Verb.statusUpdate, Kind.alertRule, req⟩] ∧
    ∃ (a : AlertRule) (p : PrometheusRule),
      (Reconcile { Client := recording memClient, Scheme := scheme } now req
        (st, [])).2.1.alertRules req = some a ∧
      a.Finalizers = s.Finalizers ++ [finalizerName] ∧
      a.Status.LastReconcileTime = some now ∧ a.Status.State = "Active" ∧
      (Reconcile { Client := recording memClient, Scheme := scheme } now req
        (st, [])).2.1.prometheusRules ⟨s.Namespace, "kneutral-" ++ s.Name⟩ = some p ∧
      p.Spec = (generatePrometheusRule s).Spec := by
  have hk : Obj.key Kind.alertRule s = req := st.alertRules_key _ _ hs
  have hf := AddFinalizer_frame s finalizerName
  have hgen := generatePrometheusRule_congr (controllerutil.AddFinalizer s finalizerName) s
    hf.1 hf.2.1 hf.2.2.1
  cases hsch : scheme Kind.alertRule with
  | none =>
    exact absurd hok (Reconcile_recording_memClient_live_error scheme now req st s hs hlive hsch)
  | some gvk =>
    rw [Reconcile_recording_memClient_live_ok scheme gvk now req st s hs hlive hsch]
    constructor
    · simp [hfin, derivedName]
    · have hpr := reconciledStore_prometheusRules gvk now st s ⟨s.Namespace, derivedName s.Name⟩
      rw [if_pos rfl] at hpr
      refine ⟨reconciledSource now s, _, ?_, ?_, ?_, ?_, hpr, ?_⟩
      · simp only
        rw [reconciledStore_alertRules]; simp [hk]
      · rw [(reconciledSource_frame now s).2.2.2.2.2.1, AddFinalizer_of_not_mem s _ hfin]
      · simp [reconciledSource, reportedStatus]
      · simp [reconciledSource, reportedStatus]
      · cases st.prometheusRules ⟨s.Namespace, derivedName s.Name⟩ <;> simp [writtenRule, hgen]

/-- The first pass of C16 at the store that holds only the example rule. -/
theorem C16_finalizer_and_first_sync_witness :
    (Reconcile { Client := recording memClient, Scheme := exampleScheme } 7
        ⟨"monitoring", "cpu-monitoring"⟩ (freshStore, [])).2.2
      = [⟨Verb.get, Kind.alertRule, ⟨"monitoring", "cpu-monitoring"⟩⟩,
         ⟨Verb.update, Kind.alertRule, ⟨"monitoring", "cpu-monitoring"⟩⟩,
         ⟨Verb.get, Kind.prometheusRule, ⟨cpuAlert.Namespace, "kneutral-" ++ cpuAlert.Name⟩⟩,
         ⟨if (freshStore.prometheusRules
                ⟨cpuAlert.Namespace, "kneutral-" ++ cpuAlert.Name⟩).isSome = true
            then Verb.update else Verb.create,
          Kind.prometheusRule, ⟨cpuAlert.Namespace, "kneutral-" ++ cpuAlert.Name⟩⟩,
         ⟨Verb.statusUpdate, Kind.alertRule, ⟨"monitoring", "cpu-monitoring"⟩⟩] ∧
    ∃ (a : AlertRule) (p : PrometheusRule),
      (Reconcile { Client := recording memClient, Scheme := exampleScheme } 7
        ⟨"monitoring", "cpu-monitoring"⟩ (freshStore, [])).2.1.alertRules
          ⟨"monitoring", "cpu-monitoring"⟩ = some a ∧
      a.Finalizers = cpuAlert.Finalizers ++ [finalizerName] ∧
      a.Status.LastReconcileTime = some 7 ∧ a.Status.State = "Active" ∧
      (Reconcile { Client := recording memClient, Scheme := exampleScheme } 7
        ⟨"monitoring", "cpu-monitoring"⟩ (freshStore, [])).2.1.prometheusRules
          ⟨cpuAlert.Namespace, "kneutral-" ++ cpuAlert.Name⟩ = some p ∧
      p.Spec = (generatePrometheusRule cpuAlert).Spec :=
  C16_finalizer_and_first_sync exampleScheme 7 ⟨"monitoring", "cpu-monitoring"⟩ freshStore
    cpuAlert (by decide) (by decide) (by decide) (by decide)

/-- C17: for every condition list `L` and the Ready condition `c` that `updateStatus` writes:
when `i` is the first index of `L` whose entry has type "Ready", the resulting list has the
length of `L`, holds `c` at `i` and the entry of `L` at every other index; when no entry of
`L` has type "Ready", the result is `L` with `c` appended. -/
theorem C17_upsert_condition (L : List Condition) (now : Time) (generation : Int)
    (name : String) :
    (readyCondition now generation name).Type_ = "Ready" ∧
    (∀ (i : Nat) (d : Condition), L[i]? = some d → d.Type_ = "Ready" →
      (∀ (j : Nat) (x : Condition), j < i → L[j]? = some x → x.Type_ ≠ "Ready") →
      (upsertCondition L (readyCondition now generation name)).length = L.length ∧
      (upsertCondition L (readyCondition now generation name))[i]?
        = some (readyCondition now generation name) ∧
      ∀ j : Nat, j ≠ i →
        (upsertCondition L (readyCondition now generation name))[j]? = L[j]?) ∧
    ((∀ d ∈ L, d.Type_ ≠ "Ready") →
      upsertCondition L (readyCondition now generation name)
        = L ++ [readyCondition now generation name]) := by
  refine ⟨rfl, ?_, ?_⟩
  · intro i d hi hd hfirst
    have hlt : i < L.length := by
      by_contra hge
      rw [List.getElem?_eq_none (Nat.le_of_not_lt hge)] at hi
      cases hi
    have hrep := upsertCondition_at_first (readyCondition now generation name) L i d hi hd hfirst
    have hup : upsertCondition L (readyCondition now generation name)
        = L.take i ++ readyCondition now generation name :: L.drop (i + 1) := by
      simp [upsertCondition, hrep]
    have hlen : (L.take i).length = i := by
      rw [List.length_take]; omega
    rw [hup]
    refine ⟨?_, ?_, ?_⟩
    · simp only [List.length_append, List.length_cons, List.length_take, List.length_drop]
      omega
    · rw [List.getElem?_append_right (by omega)]
      simp [hlen]
    · intro j hj
      rcases Nat.lt_or_gt_of_ne hj with hlt2 | hgt
      · rw [List.getElem?_append_left (by omega)]
        rw [List.getElem?_take_of_lt hlt2]
      · rw [List.getElem?_append_right (by omega), hlen]
        obtain ⟨k, hk⟩ : ∃ k, j - i = k + 1 := ⟨j - i - 1, by omega⟩
        rw [hk, List.getElem?_cons_succ, List.getElem?_drop]
        congr 1
        omega
  · intro h
    exact upsertCondition_of_not_mem _ L h

/-- C18: for every client and store state, a delete call issued by `Reconcile` is a delete
of a PrometheusRule, namely of the object the lookup at the derived identity returned, and
it is issued only when the fetched source carries both a deletion marker and the finalizer
token; so for a source without a deletion marker no delete of any object is issued. -/
theorem C18_delete_only_on_cleanup {σ : Type} (c : Client σ) (scheme : Scheme) (now : Time)
    (req : NamespacedName) (st : σ) (x : Call × Option Error)
    (hx : x ∈ (Reconcile { Client := tracing c, Scheme := scheme } now req (st, [])).2.2)
    (hv : x.1.verb = Verb.delete) :
    x.1.kind = Kind.prometheusRule ∧
    ∃ (s : AlertRule) (p : PrometheusRule),
      (c.Get Kind.alertRule req st).1 = Except.ok s ∧
      Time.IsZero s.DeletionTimestamp = false ∧ finalizerName ∈ s.Finalizers ∧
      (c.Get Kind.prometheusRule ⟨s.Namespace, "kneutral-" ++ s.Name⟩
        (c.Get Kind.alertRule req st).2).1 = Except.ok p ∧
      x.1.key = Obj.key Kind.prometheusRule p := by
  revert hx
  simp only [Reconcile, tracing_Get, List.nil_append]
  generalize c.Get Kind.alertRule req st = r
  obtain ⟨r1, st1⟩ := r
  cases r1 with
  | error e =>
    by_cases hnf : errors.IsNotFound e = true
    · simp only [hnf, if_true, List.mem_singleton]
      rintro rfl
      cases hv
    · simp only [hnf, Bool.false_eq_true, if_false, List.mem_singleton]
      rintro rfl
      cases hv
  | ok a =>
    simp only [Except.errorOf]
    cases hz : Time.IsZero a.DeletionTimestamp with
    | false =>
      cases hc : controllerutil.ContainsFinalizer a finalizerName with
      | false =>
        simp only [Bool.not_false, if_true, Bool.false_eq_true, if_false, List.mem_singleton]
        rintro rfl
        cases hv
      | true =>
        have hfin := (ContainsFinalizer_iff a finalizerName).1 hc
        simp only [Bool.not_false, if_true, deletePrometheusRule, tracing_Get, derivedName]
        generalize hg : c.Get Kind.prometheusRule
          { Name := "kneutral-" ++ a.Name, Namespace := a.Namespace } st1 = r2
        obtain ⟨r2, st2⟩ := r2
        cases r2 with
        | error e =>
          by_cases hnf : errors.IsNotFound e = true
          · simp only [hnf, if_true, Except.errorOf, tracing_Update]
            generalize c.Update Kind.alertRule _ st2 = r3
            obtain ⟨r3, st3⟩ := r3
            cases r3 <;>
            · simp only [List.mem_append, List.mem_singleton]
              rintro ((rfl | rfl) | rfl) <;> cases hv
          · simp only [hnf, Bool.false_eq_true, if_false, Except.errorOf, List.mem_append,
              List.mem_singleton]
            rintro (rfl | rfl) <;> cases hv
        | ok p =>
          simp only [tracing_Delete, Except.errorOf]
          generalize c.Delete Kind.prometheusRule p st2 = d
          obtain ⟨d1, st3⟩ := d
          cases d1 with
          | some e =>
            simp only [List.mem_append, List.mem_singleton]
            rintro ((rfl | rfl) | rfl)
            · cases hv
            · cases hv
            · exact ⟨rfl, a, p, rfl, hz, hfin, congrArg Prod.fst hg, rfl⟩
          | none =>
            simp only [tracing_Update]
            generalize c.Update Kind.alertRule _ st3 = r3
            obtain ⟨r3, st4⟩ := r3
            cases r3 <;>
            · simp only [List.mem_append, List.mem_singleton]
              rintro (((rfl | rfl) | rfl) | rfl)
              · cases hv
              · cases hv
              · exact ⟨rfl, a, p, rfl, hz, hfin, congrArg Prod.fst hg, rfl⟩
              · cases hv
    | true =>
      cases hc : controllerutil.ContainsFinalizer a finalizerName with
      | false =>
        simp only [Bool.not_true, Bool.false_eq_true, if_false, Bool.not_false, if_true,
          tracing_Update]
        generalize c.Update Kind.alertRule _ st1 = r3
        obtain ⟨r3, st3⟩ := r3
        cases r3 with
        | error e3 =>
          simp only [List.mem_append, List.mem_singleton]
          rintro (rfl | rfl) <;> cases hv
        | ok a3 =>
          simp only [Except.errorOf]
          intro hx
          refine absurd hv (no_delete_of_sync c scheme now a3 st3 _ ?_ x hx)
          intro y hy
          simp only [List.mem_append, List.mem_singleton] at hy
          rcases hy with rfl | rfl <;> simp
      | true =>
        simp only [Bool.not_true, Bool.false_eq_true, if_false]
        intro hx
        refine absurd hv (no_delete_of_sync c scheme now a st1 _ ?_ x hx)
        intro y hy
        simp only [List.mem_singleton] at hy
        subst hy
        simp

/-- The delete of C18 in the cleanup pass for the terminating example rule. -/
theorem C18_delete_only_on_cleanup_witness :
    (⟨Verb.delete, Kind.prometheusRule, ⟨"monitoring", "kneutral-cpu-monitoring"⟩⟩ : Call).kind
      = Kind.prometheusRule ∧
    ∃ (s : AlertRule) (p : PrometheusRule),
      (memClient.Get Kind.alertRule ⟨"monitoring", "cpu-monitoring"⟩ terminatingStore).1
        = Except.ok s ∧
      Time.IsZero s.DeletionTimestamp = false ∧ finalizerName ∈ s.Finalizers ∧
      (memClient.Get Kind.prometheusRule ⟨s.Namespace, "kneutral-" ++ s.Name⟩
        (memClient.Get Kind.alertRule ⟨"monitoring", "cpu-monitoring"⟩
          terminatingStore).2).1 = Except.ok p ∧
      (⟨"monitoring", "kneutral-cpu-monitoring"⟩ : NamespacedName)
        = Obj.key Kind.prometheusRule p :=
  C18_delete_only_on_cleanup memClient exampleScheme 9 ⟨"monitoring", "cpu-monitoring"⟩
    terminatingStore
    (⟨Verb.delete, Kind.prometheusRule, ⟨"monitoring", "kneutral-cpu-monitoring"⟩⟩, none)
    (by decide) rfl

/-- C19: over the store that persists objects as written, for every stored AlertRule and
every `Reconcile` pass for its identity, the source stored after the pass has the name,
namespace, spec and metadata labels it had, and the same finalizer tokens other than
"alertrule.kneutral.io/finalizer"; indeed all its metadata apart from the finalizer list is
unchanged, so it differs at most in the status block and the presence of that token.  The
AlertRules stored under other identities are untouched. -/
theorem C19_source_frame (scheme : Scheme) (now : Time) (req : NamespacedName) (st : Store)
    (s : AlertRule) (hs : st.alertRules req = some s) :
    (∃ a : AlertRule,
      (Reconcile { Client := memClient, Scheme := scheme } now req st).2.alertRules req
        = some a ∧
      a.Name = s.Name ∧ a.Namespace = s.Namespace ∧ a.Spec = s.Spec ∧ a.Labels = s.Labels ∧
      a.Finalizers.filter (fun e => e != finalizerName)
        = s.Finalizers.filter (fun e => e != finalizerName) ∧
      { a.toObjectMeta with Finalizers := [] } = { s.toObjectMeta with Finalizers := [] }) ∧
    ∀ key : NamespacedName, key ≠ req →
      (Reconcile { Client := memClient, Scheme := scheme } now req st).2.alertRules key
        = st.alertRules key := by
  have hk : Obj.key Kind.alertRule s = req := st.alertRules_key _ _ hs
  have frame : ∀ a : AlertRule,
      { a.toObjectMeta with Finalizers := [] } = { s.toObjectMeta with Finalizers := [] } →
      a.Name = s.Name ∧ a.Namespace = s.Namespace ∧ a.Labels = s.Labels := by
    intro a h
    have h1 := congrArg ObjectMeta.Name h
    have h2 := congrArg ObjectMeta.Namespace h
    have h3 := congrArg ObjectMeta.Labels h
    exact ⟨h1, h2, h3⟩
  have hadd := AddFinalizer_meta s finalizerName
  have haddf := AddFinalizer_frame s finalizerName
  have hrem := RemoveFinalizer_meta s finalizerName
  cases hz : Time.IsZero s.DeletionTimestamp with
  | true =>
    cases hsch : scheme Kind.alertRule with
    | none =>
      rw [Reconcile_memClient_live_error scheme now req st s hs hz hsch]
      refine ⟨⟨controllerutil.AddFinalizer s finalizerName, ?_, (frame _ hadd.1).1,
        (frame _ hadd.1).2.1, haddf.2.2.1, (frame _ hadd.1).2.2, hadd.2, hadd.1⟩, ?_⟩
      · simp [AddFinalizer_key, hk]
      · intro key hne
        simp [AddFinalizer_key, hk, hne]
    | some gvk =>
      rw [Reconcile_memClient_live_ok scheme gvk now req st s hs hz hsch]
      have hmeta : (reconciledSource now s).toObjectMeta
          = (controllerutil.AddFinalizer s finalizerName).toObjectMeta := rfl
      have hspec : (reconciledSource now s).Spec
          = (controllerutil.AddFinalizer s finalizerName).Spec := rfl
      have herase : { (reconciledSource now s).toObjectMeta with Finalizers := [] }
          = { s.toObjectMeta with Finalizers := [] } := by rw [hmeta]; exact hadd.1
      refine ⟨⟨reconciledSource now s, ?_, (frame _ herase).1, (frame _ herase).2.1, ?_,
        (frame _ herase).2.2, ?_, herase⟩, ?_⟩
      · rw [reconciledStore_alertRules]; simp [hk]
      · rw [hspec]; exact haddf.2.2.1
      · exact hadd.2
      · intro key hne
        rw [reconciledStore_alertRules]; simp [hk, hne]
  | false =>
    by_cases hfin : finalizerName ∈ s.Finalizers
    · rw [Reconcile_memClient_terminating_cleanup scheme now req st s hs hz hfin]
      refine ⟨⟨controllerutil.RemoveFinalizer s finalizerName, ?_, (frame _ hrem.1).1,
        (frame _ hrem.1).2.1, hrem.2.2, (frame _ hrem.1).2.2, hrem.2.1, hrem.1⟩, ?_⟩
      · simp [RemoveFinalizer_key, hk]
      · intro key hne
        simp [RemoveFinalizer_key, hk, hne]
    · rw [Reconcile_memClient_terminating_idle scheme now req st s hs hz hfin]
      exact ⟨⟨s, hs, rfl, rfl, rfl, rfl, rfl, rfl⟩, fun _ _ => rfl⟩

/-- The frame of C19 at the example store, where the pass adds the token and the status. -/
theorem C19_source_frame_witness :
    (∃ a : AlertRule,
      (Reconcile { Client := memClient, Scheme := exampleScheme } 7
        ⟨"monitoring", "cpu-monitoring"⟩ exampleStore).2.alertRules
        ⟨"monitoring", "cpu-monitoring"⟩ = some a ∧
      a.Name = cpuAlert.Name ∧ a.Namespace = cpuAlert.Namespace ∧ a.Spec = cpuAlert.Spec ∧
      a.Labels = cpuAlert.Labels ∧
      a.Finalizers.filter (fun e => e != finalizerName)
        = cpuAlert.Finalizers.filter (fun e => e != finalizerName) ∧
      { a.toObjectMeta with Finalizers := [] }
        = { cpuAlert.toObjectMeta with Finalizers := [] }) ∧
    ∀ key : NamespacedName, key ≠ ⟨"monitoring", "cpu-monitoring"⟩ →
      (Reconcile { Client := memClient, Scheme := exampleScheme } 7
        ⟨"monitoring", "cpu-monitoring"⟩ exampleStore).2.alertRules key
        = exampleStore.alertRules key :=
  C19_source_frame exampleScheme 7 ⟨"monitoring", "cpu-monitoring"⟩ exampleStore cpuAlert
    (by decide)

/-- C20 (the code at the failing input): the store holds the example rule and, at its
derived identity, a rule without owner references.  `Reconcile` succeeds, overwrites the
spec and labels of that rule, and leaves it stored without any owner reference, although
the reference to the source was computed by `SetControllerReference` before the lookup. -/
theorem C20_update_path_drops_owner_reference :
    exampleStore.alertRules ⟨"monitoring", "cpu-monitoring"⟩ = some cpuAlert ∧
    (exampleStore.prometheusRules ⟨"monitoring", "kneutral-cpu-monitoring"⟩).map
        (fun p => p.OwnerReferences) = some [] ∧
    (Reconcile { Client := memClient, Scheme := exampleScheme } 7
        ⟨"monitoring", "cpu-monitoring"⟩ exampleStore).1
      = ({ Requeue := false, RequeueAfter := 0 }, none) ∧
    ((Reconcile { Client := memClient, Scheme := exampleScheme } 7
        ⟨"monitoring", "cpu-monitoring"⟩ exampleStore).2.prometheusRules
        ⟨"monitoring", "kneutral-cpu-monitoring"⟩).map (fun p => (p.Spec, p.OwnerReferences))
      = some ((generatePrometheusRule cpuAlert).Spec, []) ∧
    (controllerutil.SetControllerReference cpuAlert (generatePrometheusRule cpuAlert)
        exampleScheme).toOption.map (fun p => p.OwnerReferences)
      = some [controllerRef ⟨"monitoring.kneutral.io", "v1alpha1", "AlertRule"⟩ cpuAlert] := by
  decide

/-- C21 (as stated, refuted): the mock holds the terminating example rule, which carries a
finalizer token; after `Delete` a `Get` of the same identity does not return it, so "a
delete does not physically remove an object that carries a finalizer" fails. -/
theorem C21_counterexample :
    ¬ (∀ (m : MockClient) (a : AlertRule),
        m.objects (alertRuleKey a.Namespace a.Name) = some (RuntimeObject.alertRule a) →
        a.Finalizers ≠ [] →
        ∃ b : AlertRule,
          (MockClient.Get Kind.alertRule ⟨a.Namespace, a.Name⟩
            (MockClient.Delete Kind.alertRule a m).2).1 = Except.ok b) := by
  intro h
  obtain ⟨b, hb⟩ := h finalizerMock cpuAlertTerminating (by decide) (by decide)
  rw [MockClient.Delete_alertRule_present cpuAlertTerminating finalizerMock
    (RuntimeObject.alertRule cpuAlertTerminating) (by decide)] at hb
  rw [MockClient.Get_absent _ _ _ (by simp)] at hb
  cases hb

/-- C21 (amended): for every AlertRule stored in `MockClient`, with or without finalizer
tokens, a `Delete` request for its identity succeeds and removes the object from the map at
once: a subsequent `Get` of the same identity returns a not-found error, and every other
entry of the map is unchanged. -/
theorem C21_delete_removes_at_once (m : MockClient) (o : AlertRule) (stored : RuntimeObject)
    (h : m.objects (alertRuleKey o.Namespace o.Name) = some stored) :
    (MockClient.Delete Kind.alertRule o m).1 = none ∧
    (MockClient.Delete Kind.alertRule o m).2.objects (alertRuleKey o.Namespace o.Name) = none ∧
    (∀ x : String, x ≠ alertRuleKey o.Namespace o.Name →
      (MockClient.Delete Kind.alertRule o m).2.objects x = m.objects x) ∧
    (MockClient.Get Kind.alertRule ⟨o.Namespace, o.Name⟩
        (MockClient.Delete Kind.alertRule o m).2).1
      = Except.error (errors.NewNotFound o.Name) ∧
    errors.IsNotFound (errors.NewNotFound o.Name) = true := by
  rw [MockClient.Delete_alertRule_present o m stored h]
  refine ⟨rfl, by simp, ?_, ?_, rfl⟩
  · intro x hx
    simp [hx]
  · rw [MockClient.Get_absent]
    simp

/-- The amended C21 at the mock holding the terminating example rule with its token. -/
theorem C21_delete_removes_at_once_witness :
    cpuAlertTerminating.Finalizers = [finalizerName] ∧
    (MockClient.Delete Kind.alertRule cpuAlertTerminating finalizerMock).1 = none ∧
    (MockClient.Delete Kind.alertRule cpuAlertTerminating finalizerMock).2.objects
      (alertRuleKey cpuAlertTerminating.Namespace cpuAlertTerminating.Name) = none ∧
    (∀ x : String, x ≠ alertRuleKey cpuAlertTerminating.Namespace cpuAlertTerminating.Name →
      (MockClient.Delete Kind.alertRule cpuAlertTerminating finalizerMock).2.objects x
        = finalizerMock.objects x) ∧
    (MockClient.Get Kind.alertRule ⟨cpuAlertTerminating.Namespace, cpuAlertTerminating.Name⟩
        (MockClient.Delete Kind.alertRule cpuAlertTerminating finalizerMock).2).1
      = Except.error (errors.NewNotFound cpuAlertTerminating.Name) ∧
    errors.IsNotFound (errors.NewNotFound cpuAlertTerminating.Name) = true :=
  ⟨rfl, C21_delete_removes_at_once finalizerMock cpuAlertTerminating
    (RuntimeObject.alertRule cpuAlertTerminating) (by decide)⟩

/-- C22: when the map of `MockClient` has no entry for a namespace and name, `Get` (into an
object of either kind), and `Update` and `Delete` of an AlertRule of that identity, each
return the not-found error and leave the mock unchanged; `errors.IsNotFound` recognises that
error and none of the other errors the mock returns. -/
theorem C22_not_found (m : MockClient) (ns name : String)
    (h : m.objects (alertRuleKey ns name) = none) :
    (∀ k : Kind, MockClient.Get k ⟨ns, name⟩ m = (Except.error (errors.NewNotFound name), m)) ∧
    (∀ (now : Time) (o : AlertRule), o.Namespace = ns → o.Name = name →
      MockClient.Update now Kind.alertRule o m = (Except.error (errors.NewNotFound name), m) ∧
      MockClient.Delete Kind.alertRule o m = (some (errors.NewNotFound name), m)) ∧
    errors.IsNotFound (errors.NewNotFound name) = true ∧
    errors.IsNotFound (errors.NewAlreadyExists name) = false ∧
    errors.IsNotFound typeMismatch = false ∧
    errors.IsNotFound unsupportedObjectType = false := by
  refine ⟨?_, ?_, rfl, rfl, rfl, rfl⟩
  · intro k
    exact MockClient.Get_absent k ⟨ns, name⟩ m h
  · intro now o hns hname
    subst hns; subst hname
    exact ⟨MockClient.Update_alertRule_absent now o m h, MockClient.Delete_alertRule_absent o m h⟩

/-- The not-found results of C22 at the new, empty mock. -/
theorem C22_not_found_witness :
    (∀ k : Kind, MockClient.Get k ⟨"monitoring", "cpu-monitoring"⟩ NewMockClient
      = (Except.error (errors.NewNotFound "cpu-monitoring"), NewMockClient)) ∧
    (∀ (now : Time) (o : AlertRule), o.Namespace = "monitoring" → o.Name = "cpu-monitoring" →
      MockClient.Update now Kind.alertRule o NewMockClient
        = (Except.error (errors.NewNotFound "cpu-monitoring"), NewMockClient) ∧
      MockClient.Delete Kind.alertRule o NewMockClient
        = (some (errors.NewNotFound "cpu-monitoring"), NewMockClient)) ∧
    errors.IsNotFound (errors.NewNotFound "cpu-monitoring") = true ∧
    errors.IsNotFound (errors.NewAlreadyExists "cpu-monitoring") = false ∧
    errors.IsNotFound typeMismatch = false ∧
    errors.IsNotFound unsupportedObjectType = false :=
  C22_not_found NewMockClient "monitoring" "cpu-monitoring" rfl

/-- C23 (as stated, refuted): the example rule is created in the mock, then updated with
`Update` and with `Status().Update`, each time with the object read back from the mock; the
stored condition list then holds two entries of type "Updated". -/
theorem C23_counterexample :
    conditionTypes (readExample populatedMock) = ["Ready"] ∧
    conditionTypes (readExample twiceUpdatedMock) = ["Ready", "Updated", "Updated"] ∧
    ¬ (conditionTypes (readExample twiceUpdatedMock)).Nodup := by
  decide

/-- C23 (amended): in `MockClient`, `Create` stores an AlertRule with the single condition
"Ready"; every `Update` and every `Status().Update` of a stored identity stores the condition
list of the passed object with one new condition of type "Updated" appended at its end,
without replacing an entry in place, so the type "Updated" occurs once more than in the
passed list. -/
theorem C23_update_appends_condition (now : Time) (m : MockClient) (o : AlertRule) :
    (∀ stored : RuntimeObject, m.objects (alertRuleKey o.Namespace o.Name) = some stored →
      ∃ b : AlertRule,
        (MockClient.Update now Kind.alertRule o m).2.objects (alertRuleKey o.Namespace o.Name)
          = some (RuntimeObject.alertRule b) ∧
        (mockStatusWriter.Update now Kind.alertRule o m).2.objects
            (alertRuleKey o.Namespace o.Name)
          = some (RuntimeObject.alertRule b) ∧
        b.Status.Conditions
          = o.Status.Conditions ++ [mockUpdatedCondition now b.Generation o.Name] ∧
        conditionTypes b = conditionTypes o ++ ["Updated"] ∧
        (conditionTypes b).count "Updated" = (conditionTypes o).count "Updated" + 1) ∧
    (m.objects (alertRuleKey o.Namespace o.Name) = none →
      ∃ b : AlertRule,
        (MockClient.Create now Kind.alertRule o m).2.objects (alertRuleKey o.Namespace o.Name)
          = some (RuntimeObject.alertRule b) ∧
        conditionTypes b = ["Ready"]) := by
  constructor
  · intro stored h
    obtain ⟨b, hb, _, _, _, _, _, hc⟩ := MockClient.Update_alertRule_some now o m stored h
    have ht : conditionTypes b = conditionTypes o ++ ["Updated"] := by
      simp [conditionTypes, hc, mockUpdatedCondition]
    refine ⟨b, ?_, ?_, hc, ht, ?_⟩
    · rw [hb]; simp
    · rw [mockStatusWriter.Update, hb]; simp
    · rw [ht]; simp
  · intro h
    rw [MockClient.Create_alertRule_absent now o m h]
    refine ⟨{ o with
        CreationTimestamp := now
        UID := "mock-uid-" ++ toString now
        Generation := 1
        Status := mockCreatedStatus now o.Name }, by simp, ?_⟩
    simp [conditionTypes, mockCreatedStatus]

/-- The amended C23 at the populated mock, updated with the object read back from it. -/
theorem C23_update_appends_condition_witness :
    ∃ b : AlertRule,
      (MockClient.Update 4 Kind.alertRule (readExample populatedMock) populatedMock).2.objects
          (alertRuleKey (readExample populatedMock).Namespace (readExample populatedMock).Name)
        = some (RuntimeObject.alertRule b) ∧
      (mockStatusWriter.Update 4 Kind.alertRule (readExample populatedMock)
          populatedMock).2.objects
          (alertRuleKey (readExample populatedMock).Namespace (readExample populatedMock).Name)
        = some (RuntimeObject.alertRule b) ∧
      b.Status.Conditions
        = (readExample populatedMock).Status.Conditions ++
            [mockUpdatedCondition 4 b.Generation (readExample populatedMock).Name] ∧
      conditionTypes b = conditionTypes (readExample populatedMock) ++ ["Updated"] ∧
      (conditionTypes b).count "Updated"
        = (conditionTypes (readExample populatedMock)).count "Updated" + 1 :=
  (C23_update_appends_condition 4 populatedMock (readExample populatedMock)).1
    (RuntimeObject.alertRule (readExample populatedMock)) (by decide)

/-- C24 (as stated, refuted): the populated mock holds the example rule at generation 1; a
`Status().Update` with an object whose spec was emptied stores that empty spec, so "the
stored spec is the same after the call as before" fails (and so do the finalizer and the
generation parts). -/
theorem C24_counterexample :
    ¬ (∀ (now : Time) (m : MockClient) (a o : AlertRule),
        m.objects (alertRuleKey o.Namespace o.Name) = some (RuntimeObject.alertRule a) →
        ∃ b : AlertRule,
          (mockStatusWriter.Update now Kind.alertRule o m).2.objects
              (alertRuleKey o.Namespace o.Name) = some (RuntimeObject.alertRule b) ∧
          b.Spec = a.Spec ∧ b.Finalizers = a.Finalizers ∧ b.Generation = a.Generation) := by
  intro h
  obtain ⟨b, hb, hspec, _, _⟩ := h 5 populatedMock (readExample populatedMock) editedExample
    (by decide)
  obtain ⟨b2, hb2, _, _, hs2, _⟩ := MockClient.Update_alertRule_some 5 editedExample
    populatedMock (RuntimeObject.alertRule (readExample populatedMock)) (by decide)
  rw [mockStatusWriter.Update, hb2] at hb
  simp only [MockClient.store_objects, if_true, Option.some.injEq,
    RuntimeObject.alertRule.injEq] at hb
  subst hb
  rw [hs2] at hspec
  exact absurd hspec (by decide)

/-- C24 (amended): in `MockClient`, `Status().Update` is `Update`: for a stored AlertRule it
stores the passed object whole, with its spec and its finalizers, with the generation
counter of the stored object increased by one (in `int64`, so never the same), and with the
creation timestamp and UID of the stored object; the status stored is the passed one with
the reconcile time set and an "Updated" condition appended. -/
theorem C24_status_update_is_update (now : Time) (m : MockClient) (a o : AlertRule)
    (h : m.objects (alertRuleKey o.Namespace o.Name) = some (RuntimeObject.alertRule a)) :
    mockStatusWriter.Update now Kind.alertRule o m = MockClient.Update now Kind.alertRule o m ∧
    ∃ b : AlertRule,
      (mockStatusWriter.Update now Kind.alertRule o m).2.objects
          (alertRuleKey o.Namespace o.Name) = some (RuntimeObject.alertRule b) ∧
      b.Spec = o.Spec ∧ b.Finalizers = o.Finalizers ∧
      b.Generation = int64 (a.Generation + 1) ∧ b.Generation ≠ a.Generation ∧
      b.UID = a.UID ∧ b.CreationTimestamp = a.CreationTimestamp ∧
      b.Status.LastReconcileTime = some now ∧
      b.Status.Conditions
        = o.Status.Conditions ++ [mockUpdatedCondition now b.Generation o.Name] := by
  refine ⟨rfl, ?_⟩
  rw [mockStatusWriter.Update, MockClient.Update_alertRule_present now o a m h]
  refine ⟨{ o with
      Generation := int64 (a.Generation + 1)
      CreationTimestamp := a.CreationTimestamp
      UID := a.UID
      Status :=
        { o.Status with
          LastReconcileTime := some now
          Conditions := o.Status.Conditions ++
            [mockUpdatedCondition now (int64 (a.Generation + 1)) o.Name] } },
    by simp, rfl, rfl, rfl, ?_, rfl, rfl, rfl, rfl⟩
  show int64 (a.Generation + 1) ≠ a.Generation
  unfold int64
  omega

/-- The amended C24 at the populated mock and the edited example. -/
theorem C24_status_update_is_update_witness :
    mockStatusWriter.Update 5 Kind.alertRule editedExample populatedMock
      = MockClient.Update 5 Kind.alertRule editedExample populatedMock ∧
    ∃ b : AlertRule,
      (mockStatusWriter.Update 5 Kind.alertRule editedExample populatedMock).2.objects
          (alertRuleKey editedExample.Namespace editedExample.Name)
        = some (RuntimeObject.alertRule b) ∧
      b.Spec = editedExample.Spec ∧ b.Finalizers = editedExample.Finalizers ∧
      b.Generation = int64 ((readExample populatedMock).Generation + 1) ∧
      b.Generation ≠ (readExample populatedMock).Generation ∧
      b.UID = (readExample populatedMock).UID ∧
      b.CreationTimestamp = (readExample populatedMock).CreationTimestamp ∧
      b.Status.LastReconcileTime = some 5 ∧
      b.Status.Conditions
        = editedExample.Status.Conditions ++
            [mockUpdatedCondition 5 b.Generation editedExample.Name] :=
  C24_status_update_is_update 5 populatedMock (readExample populatedMock) editedExample
    (by decide)

/-- C25: for a non-terminating AlertRule stored in `MockClient`, `Reconcile` with the mock
as its client returns an error and stores no derived rule (the map holds no PrometheusRule
that it did not hold before).  The reasons: `Get` into a PrometheusRule is keyed as an
AlertRule and returns not-found when no object has that key and a type-mismatch error when
one has, and `Create` of a PrometheusRule is rejected by `objectKey`, leaving the map
unchanged. -/
theorem C25_mock_rejects_derived_rule (now : Time) (scheme : Scheme) (t : Time)
    (req : NamespacedName) (m : MockClient) (s : AlertRule)
    (hs : m.objects (alertRuleKey req.Namespace req.Name) = some (RuntimeObject.alertRule s))
    (hlive : Time.IsZero s.DeletionTimestamp = true) :
    (Reconcile { Client := mockClient now, Scheme := scheme } t req m).1.2 ≠ none ∧
    (∀ (key : String) (p : PrometheusRule),
      (Reconcile { Client := mockClient now, Scheme := scheme } t req m).2.objects key
        = some (RuntimeObject.prometheusRule p) →
      m.objects key = some (RuntimeObject.prometheusRule p)) ∧
    (∀ (key : NamespacedName) (m2 : MockClient),
      MockClient.Get Kind.prometheusRule key m2
        = (Except.error
            (if (m2.objects (alertRuleKey key.Namespace key.Name)).isSome = true
              then typeMismatch else errors.NewNotFound key.Name), m2)) ∧
    (∀ (p : PrometheusRule) (m2 : MockClient),
      MockClient.Create now Kind.prometheusRule p m2
        = (Except.error unsupportedObjectType, m2)) := by
  refine ⟨?_, ?_, ?_, fun p m2 => MockClient.Create_prometheusRule now p m2⟩
  · simp only [Reconcile]
    have hget : (mockClient now).Get Kind.alertRule req m = (Except.ok s, m) :=
      MockClient.Get_alertRule req m s hs
    simp only [hget, hlive]
    cases hc : controllerutil.ContainsFinalizer s finalizerName with
    | true =>
      simp only [Bool.not_true, Bool.false_eq_true, if_false]
      exact (mockClient_syncPrometheusRule now scheme t s m).1
    | false =>
      simp only [Bool.not_true, Bool.not_false, Bool.false_eq_true, if_false, if_true]
      cases hu : m.objects (alertRuleKey (controllerutil.AddFinalizer s finalizerName).Namespace
          (controllerutil.AddFinalizer s finalizerName).Name) with
      | none =>
        have hupd : (mockClient now).Update Kind.alertRule
            (controllerutil.AddFinalizer s finalizerName) m = _ :=
          MockClient.Update_alertRule_absent now _ m hu
        simp [hupd]
      | some stored =>
        obtain ⟨b, hb, _⟩ := MockClient.Update_alertRule_some now
          (controllerutil.AddFinalizer s finalizerName) m stored hu
        have hupd : (mockClient now).Update Kind.alertRule
            (controllerutil.AddFinalizer s finalizerName) m = _ := hb
        simp only [hupd]
        exact (mockClient_syncPrometheusRule now scheme t b _).1
  · intro key p
    simp only [Reconcile]
    have hget : (mockClient now).Get Kind.alertRule req m = (Except.ok s, m) :=
      MockClient.Get_alertRule req m s hs
    simp only [hget, hlive]
    cases hc : controllerutil.ContainsFinalizer s finalizerName with
    | true =>
      simp only [Bool.not_true, Bool.false_eq_true, if_false]
      rw [(mockClient_syncPrometheusRule now scheme t s m).2]
      exact id
    | false =>
      simp only [Bool.not_true, Bool.not_false, Bool.false_eq_true, if_false, if_true]
      cases hu : m.objects (alertRuleKey (controllerutil.AddFinalizer s finalizerName).Namespace
          (controllerutil.AddFinalizer s finalizerName).Name) with
      | none =>
        have hupd : (mockClient now).Update Kind.alertRule
            (controllerutil.AddFinalizer s finalizerName) m = _ :=
          MockClient.Update_alertRule_absent now _ m hu
        simp only [hupd]
        exact id
      | some stored =>
        obtain ⟨b, hb, _⟩ := MockClient.Update_alertRule_some now
          (controllerutil.AddFinalizer s finalizerName) m stored hu
        have hupd : (mockClient now).Update Kind.alertRule
            (controllerutil.AddFinalizer s finalizerName) m = _ := hb
        simp only [hupd]
        rw [(mockClient_syncPrometheusRule now scheme t b _).2]
        simp only [MockClient.store_objects]
        split
        · intro hp; cases hp
        · exact id
  · intro key m2
    cases hg : m2.objects (alertRuleKey key.Namespace key.Name) with
    | none => simp [MockClient.Get, hg]
    | some stored => simp [MockClient.Get, hg]

/-- The pass of C25 for the example rule in the populated mock. -/
theorem C25_mock_rejects_derived_rule_witness :
    (Reconcile { Client := mockClient 5, Scheme := exampleScheme } 5
        ⟨"monitoring", "cpu-monitoring"⟩ populatedMock).1.2 ≠ none ∧
    (∀ (key : String) (p : PrometheusRule),
      (Reconcile { Client := mockClient 5, Scheme := exampleScheme } 5
        ⟨"monitoring", "cpu-monitoring"⟩ populatedMock).2.objects key
        = some (RuntimeObject.prometheusRule p) →
      populatedMock.objects key = some (RuntimeObject.prometheusRule p)) ∧
    (∀ (key : NamespacedName) (m2 : MockClient),
      MockClient.Get Kind.prometheusRule key m2
        = (Except.error
            (if (m2.objects (alertRuleKey key.Namespace key.Name)).isSome = true
              then typeMismatch else errors.NewNotFound key.Name), m2)) ∧
    (∀ (p : PrometheusRule) (m2 : MockClient),
      MockClient.Create 5 Kind.prometheusRule p m2
        = (Except.error unsupportedObjectType, m2)) :=
  C25_mock_rejects_derived_rule 5 exampleScheme 5 ⟨"monitoring", "cpu-monitoring"⟩
    populatedMock (readExample populatedMock) (by decide) (by decide)

end Kneutral
